import Mathlib

/-! The rules engine of `src/libs/core/details/tetris_core.cpp`.

A shallow embedding of `tetris::core::TetrisCore`.  The engine object becomes the
record `TetrisCore`; every member function becomes a function that takes the
record and returns the new record (together with the returned flag, when the
C++ function returns one).  A member function that can stop on an `assert`
returns an `Option`, `none` standing for the failed assertion.

The C++ `int` is embedded as `Int`, and C++ integer division, which truncates
towards zero, as `Int.tdiv`.  The three counters `m_level`, `m_score` and
`m_destroedLines` grow without a bound in the course of a game, so their
arithmetic is embedded at the width of `int`, 32 bit: every value `landChanged`
stores in them is reduced by `wrapInt`, two's complement wrap-around (C++ leaves
signed overflow undefined; this is what the usual targets do).  Coordinates
stay small in every state the engine reaches and are kept as plain `Int`.

The header `core/tetris_shape.h` (class `Shape`, `ShapeType`, `Position`) and the
header `core/tetris_core.h` (the constants `BoardWidth` and `BoardHeight`) are not
part of the sources at hand.  The members of `Shape` the engine calls are modelled
from the specification; the constants, the static offset table and the spawn
offsets are parameters (`Params`).
-/

namespace tetris.core

/-! ## Data model -/

/-- Modelled from the spec: the enumeration `ShapeType` of `core/tetris_shape.h`, a cell
state that is either empty (`NoShape`) or one of the piece tags.  The tags are
kept abstract as a number. -/
inductive ShapeType where
  | NoShape
  | piece (tag : Nat)
  deriving DecidableEq, Repr

/-- Modelled from the spec: the struct `Position` of `core/tetris_shape.h`, a pair of `int`
coordinates. -/
structure Position where
  x : Int
  y : Int
  deriving DecidableEq, Repr

/-- Modelled from the spec: the class `Shape` of `core/tetris_shape.h`: a kind, one of four
rotation states and an anchor position.  The occupied offsets are not stored:
they are looked up from kind and rotation (`Shape.block`). -/
structure Shape where
  m_type : ShapeType
  m_rotate : Fin 4
  m_pos : Position
  deriving DecidableEq, Repr

/-- The type `TetrisCore::BoardLine`: one row of cells. -/
abbrev BoardLine := List ShapeType

/-- The type `TetrisCore::Board`: the rows of the grid, row 0 first. -/
abbrev Board := List BoardLine

/-- The declarations of the two headers that the engine uses and that are not in
the sources at hand: the constants `BoardWidth` and `BoardHeight` of
`core/tetris_core.h`, the static table of occupied offsets per kind and rotation,
and the default spawn offset per kind used by `Shape::setRandomShape`. -/
structure Params where
  BoardWidth : Nat
  BoardHeight : Nat
  blockTable : ShapeType → Fin 4 → List Position
  spawnPos : ShapeType → Position

/-- The data members of `TetrisCore`. -/
structure TetrisCore where
  m_board : Board
  m_curShape : Shape
  m_nextShape : Shape
  m_isStarted : Bool
  m_isPause : Bool
  m_isGameOver : Bool
  m_level : Int
  m_score : Int
  m_destroedLines : Int
  deriving DecidableEq, Repr

/-! ## The members of `Shape` the engine calls -/

/-- Modelled from the spec: `Shape::isValid()`, a piece is valid iff its kind is not "none". -/
def Shape.isValid (sh : Shape) : Bool :=
  sh.m_type != ShapeType.NoShape

/-- Modelled from the spec: `Shape::x()`, the anchor column. -/
def Shape.x (sh : Shape) : Int := sh.m_pos.x

/-- Modelled from the spec: `Shape::y()`, the anchor row. -/
def Shape.y (sh : Shape) : Int := sh.m_pos.y

/-- Modelled from the spec: `Shape::type()`, the kind of the piece. -/
def Shape.type (sh : Shape) : ShapeType := sh.m_type

/-- Modelled from the spec: `Shape::block()`, the occupied relative offsets, fully
determined by kind and rotation through the static table. -/
def Shape.block (c : Params) (sh : Shape) : List Position :=
  c.blockTable sh.m_type sh.m_rotate

/-- Modelled from the spec: `Shape::rotate(direction)`, which advances the rotation index
modulo 4 in the chosen direction and touches nothing else. -/
def Shape.rotate (sh : Shape) (direction : Int) : Shape :=
  { sh with m_rotate := Fin.ofNat (((sh.m_rotate.val : Int) + direction) % 4).toNat }

/-- Modelled from the spec: `Shape::setShapePos(position)`, which overwrites the anchor
position without any legality check. -/
def Shape.setShapePos (sh : Shape) (pos : Position) : Shape :=
  { sh with m_pos := pos }

/-- Modelled from the spec: `Shape::setShape(kind, rotation)`, the explicit assignment of kind
and rotation. -/
def Shape.setShape (sh : Shape) (kind : ShapeType) (rotation : Fin 4) : Shape :=
  { sh with m_type := kind, m_rotate := rotation }

/-- Modelled from the spec: `Shape::setRandomShape()`.  The kind drawn by the random source is
the argument `kind`; the piece gets that kind, the default rotation (index 0)
and the default spawn offset of the kind. -/
def Shape.setRandomShape (c : Params) (_sh : Shape) (kind : ShapeType) : Shape :=
  { m_type := kind, m_rotate := 0, m_pos := c.spawnPos kind }

/-! ## Board helpers of `TetrisCore` -/

/-- The member `boardElement(x, y)`: both assertions must hold, then the cell
`m_board[y][x]` is read.  The result is `none` when an assertion fails (and when the
vector has no such cell, which C++ leaves undefined). -/
def boardElement (c : Params) (m_board : Board) (x y : Int) : Option ShapeType :=
  if 0 ≤ x ∧ x < c.BoardWidth ∧ 0 ≤ y ∧ y < c.BoardHeight then
    match m_board[y.toNat]? with
    | some row => row[x.toNat]?
    | none => none
  else none

/-- The loop of `isValidPosition` over the offsets still to visit: the first
offending cell sets `isCanMove = false` and leaves the loop (`break`). -/
def isValidPositionLoop (c : Params) (m_board : Board) (shape : Shape) (xStep yStep : Int) :
    List Position → Bool
  | [] => true
  | pos :: rest =>
    let x := shape.x + pos.x + xStep
    let y := shape.y + pos.y + yStep
    if x < 0 || x ≥ c.BoardWidth || y < 0 || y ≥ c.BoardHeight
        || boardElement c m_board x y != some ShapeType.NoShape then
      false
    else
      isValidPositionLoop c m_board shape xStep yStep rest

/-- The member `isValidPosition(shape, xStep, yStep)`. -/
def isValidPosition (c : Params) (m_board : Board) (shape : Shape) (xStep yStep : Int) : Bool :=
  isValidPositionLoop c m_board shape xStep yStep (shape.block c)

/-- The member `setBoardElement(x, y, type)`: both assertions must hold, then the
cell `m_board[y][x]` is overwritten.  The result is `none` when an assertion fails
(and when the vector has no such cell, which C++ leaves undefined). -/
def setBoardElement (c : Params) (m_board : Board) (x y : Int) (type : ShapeType) :
    Option Board :=
  if 0 ≤ x ∧ x < c.BoardWidth ∧ 0 ≤ y ∧ y < c.BoardHeight then
    match m_board[y.toNat]? with
    | some row =>
      if x.toNat < row.length then some (m_board.set y.toNat (row.set x.toNat type)) else none
    | none => none
  else none

/-- The member `destroyLine(line)`: the returned flag and the board afterwards.
An index outside `[0, BoardHeight)` is refused; otherwise the row is erased and
a new row of `BoardWidth` empty cells is inserted in front. -/
def destroyLine (c : Params) (m_board : Board) (line : Int) : Bool × Board :=
  if line < 0 || line ≥ c.BoardHeight then
    (false, m_board)
  else
    (true, List.replicate c.BoardWidth ShapeType.NoShape :: m_board.eraseIdx line.toNat)

/-! ## Landing -/

/-- The member `getShapeWidth(shape)`: `minX` starts at 4 and `maxX` at 0, every
offset updates both, the result is `maxX - minX + 1`. -/
def getShapeWidth (c : Params) (shape : Shape) : Int :=
  let mm := (shape.block c).foldl
    (fun (acc : Int × Int) (pos : Position) => (min pos.x acc.1, max pos.x acc.2)) (4, 0)
  mm.2 - mm.1 + 1

/-- The first loop of `landChanged` over the offsets still to visit: the row of
the cell is appended to `linesToCheckOnRemove` and the cell is written with the
kind of the current piece.  A failed assertion of `setBoardElement` ends it. -/
def landChangedStamp (c : Params) (cur : Shape) :
    List Position → List Int × Board → Option (List Int × Board)
  | [], acc => some acc
  | pos :: rest, (linesToCheckOnRemove, b) =>
    match setBoardElement c b (pos.x + cur.x) (pos.y + cur.y) cur.type with
    | some b1 => landChangedStamp c cur rest (linesToCheckOnRemove ++ [pos.y + cur.y], b1)
    | none => none

/-- The call `std::list<int>::unique()`: of every run of equal neighbours only the
first element stays. -/
def unique : List Int → List Int
  | [] => []
  | [a] => [a]
  | a :: b :: rest => if a = b then unique (b :: rest) else a :: unique (b :: rest)

/-- The second loop of `landChanged` over the rows still to check: a row without
an empty cell is handed to `destroyLine`, and a successful removal is counted.
Reading a row the vector does not have is undefined in C++ and gives `none`. -/
def landChangedClear (c : Params) : List Int → Board × Int → Option (Board × Int)
  | [], acc => some acc
  | line :: rest, (b, destroedLines) =>
    if line < 0 then none
    else
      match b[line.toNat]? with
      | none => none
      | some row =>
        if !row.contains ShapeType.NoShape then
          let r := destroyLine c b line
          landChangedClear c rest (r.2, if r.1 then destroedLines + 1 else destroedLines)
        else
          landChangedClear c rest (b, destroedLines)

/-- The value an `int` holds after a sum or product came out as `x`: `x` itself if
it fits into 32 bit, otherwise `x` wrapped around in two's complement. -/
def wrapInt (x : Int) : Int :=
  (x + 2147483648) % 4294967296 - 2147483648

/-- The member `landChanged()`: merge the current piece into the board, clear the
full rows among the rows it touched, then update `m_destroedLines`, `m_level` and
`m_score`, in this order.  The three members are `int`: what is stored is
reduced by `wrapInt`.  The result is `none` when an assertion fails. -/
def landChanged (c : Params) (s : TetrisCore) : Option TetrisCore :=
  match landChangedStamp c s.m_curShape (s.m_curShape.block c) ([], s.m_board) with
  | none => none
  | some (linesToCheckOnRemove, b1) =>
    match landChangedClear c (unique (linesToCheckOnRemove.insertionSort (· ≤ ·))) (b1, 0) with
    | none => none
    | some (b2, destroedLines) =>
      let m_destroedLines := wrapInt (s.m_destroedLines + destroedLines)
      let m_level := wrapInt (Int.tdiv m_destroedLines 10 + 1)
      let m_score :=
        if destroedLines = 0 then s.m_score
        else if destroedLines = 1 then wrapInt (s.m_score + wrapInt (50 * m_level))
        else if destroedLines = 2 then wrapInt (s.m_score + wrapInt (100 * m_level))
        else if destroedLines = 3 then wrapInt (s.m_score + wrapInt (300 * m_level))
        else if destroedLines = 4 then wrapInt (s.m_score + wrapInt (1200 * m_level))
        else s.m_score
      some { s with
        m_board := b2
        m_destroedLines := m_destroedLines
        m_level := m_level
        m_score := m_score }

/-! ## Moving, stepping and dropping -/

/-- The member `moveShape(xStep, yStep, rotate)`: the returned flag and the engine
afterwards. -/
def moveShape (c : Params) (s : TetrisCore) (xStep yStep rotate : Int) : Bool × TetrisCore :=
  if !s.m_isStarted || s.m_isPause then
    (false, s)
  else if !s.m_curShape.isValid then
    (false, s)
  else
    let rotated := s.m_curShape.rotate rotate
    let isCanMove := isValidPosition c s.m_board rotated xStep yStep
    if !isCanMove then
      (isCanMove, { s with m_curShape := rotated.rotate (-rotate) })
    else
      (isCanMove,
        { s with m_curShape := rotated.setShapePos ⟨rotated.x + xStep, rotated.y + yStep⟩ })

/-- The member `gameStep()`.  The argument `kind` is the kind the random source
hands to `setRandomShape` if a new next piece is drawn.  The result is `none` when
an assertion fails during landing. -/
def gameStep (c : Params) (s : TetrisCore) (kind : ShapeType) : Option TetrisCore :=
  if !s.m_isStarted || s.m_isPause then
    some s
  else
    let moved := moveShape c s 0 1 0
    if moved.1 then
      some moved.2
    else
      match landChanged c moved.2 with
      | none => none
      | some s1 =>
        let xPos := Int.tdiv ((c.BoardWidth : Int) - getShapeWidth c s1.m_nextShape) 2
          - s1.m_nextShape.x
        let pos : Position := ⟨xPos, s1.m_nextShape.y⟩
        let s2 := { s1 with m_nextShape := s1.m_nextShape.setShapePos pos }
        if isValidPosition c s2.m_board s2.m_nextShape 0 0 then
          some { s2 with
            m_curShape := s2.m_nextShape
            m_nextShape := s2.m_nextShape.setRandomShape c kind }
        else
          some { s2 with m_isStarted := false, m_isGameOver := true }

/-- The member `fastForward()`, with the same extra argument as `gameStep`. -/
def fastForward (c : Params) (s : TetrisCore) (kind : ShapeType) : Option TetrisCore :=
  if s.m_isGameOver then
    some s
  else
    let moved := moveShape c s 0 1 0
    if !moved.1 then
      some moved.2
    else
      gameStep c moved.2 kind

/-- The board `TetrisCore::TetrisCore()` builds: `BoardHeight` rows of `BoardWidth`
empty cells. -/
def emptyBoard (c : Params) : Board :=
  List.replicate c.BoardHeight (List.replicate c.BoardWidth ShapeType.NoShape)

/-! ## Construction, start, stop and pause -/

/-- The constructor `TetrisCore::TetrisCore()`: flags off, counters 0, a board of
`BoardHeight` rows of `BoardWidth` empty cells.  The two pieces are
default-constructed by the class `Shape`, which is not in the sources at hand:
they are the arguments `cur` and `next`. -/
def TetrisCore.init (c : Params) (cur next : Shape) : TetrisCore :=
  { m_board := emptyBoard c
    m_curShape := cur
    m_nextShape := next
    m_isStarted := false
    m_isPause := false
    m_isGameOver := false
    m_level := 0
    m_score := 0
    m_destroedLines := 0 }

/-- The inner loop of `clearBoard` on one row: the cells `0 .. BoardWidth - 1` are
written one after the other.  Writing a cell the vector does not have is
undefined in C++; the model leaves the row as it is there. -/
def clearBoardLine (c : Params) (row : BoardLine) : BoardLine :=
  (List.range c.BoardWidth).foldl (fun r j => r.set j ShapeType.NoShape) row

/-- Place `i` of a list is overwritten with `f` of its content; a list without
place `i` stays as it is. -/
def modifyAt {α : Type} (f : α → α) (b : List α) (i : Nat) : List α :=
  match b[i]? with
  | some x => b.set i (f x)
  | none => b

/-- The member `clearBoard()`: the rows `0 .. BoardHeight - 1` are cleared one after
the other.  A row the vector does not have is skipped (undefined in C++). -/
def clearBoard (c : Params) (m_board : Board) : Board :=
  (List.range c.BoardHeight).foldl (modifyAt (clearBoardLine c)) m_board

/-- The member `start()`.  The arguments `curKind` and `nextKind` are the kinds the
random source hands to the two calls of `setRandomShape`. -/
def start (c : Params) (s : TetrisCore) (curKind nextKind : ShapeType) : TetrisCore :=
  if s.m_isStarted then
    s
  else
    let cur := s.m_curShape.setRandomShape c curKind
    let next := s.m_nextShape.setRandomShape c nextKind
    let xPos := Int.tdiv ((c.BoardWidth : Int) - getShapeWidth c cur) 2 - cur.x
    { m_board := clearBoard c s.m_board
      m_level := 1
      m_score := 0
      m_destroedLines := 0
      m_isStarted := true
      m_isPause := false
      m_isGameOver := false
      m_curShape := cur.setShapePos ⟨xPos, cur.y⟩
      m_nextShape := next }

/-- The member `stop()`.  The rotation `Shape::RotateType::Bottom` is the default
rotation, index 0. -/
def stop (c : Params) (s : TetrisCore) : TetrisCore :=
  { m_board := clearBoard c s.m_board
    m_level := 0
    m_score := 0
    m_destroedLines := 0
    m_isStarted := false
    m_isPause := false
    m_isGameOver := false
    m_curShape := s.m_curShape.setShape ShapeType.NoShape 0
    m_nextShape := s.m_nextShape.setShape ShapeType.NoShape 0 }

/-- The member `pause()`. -/
def pause (s : TetrisCore) : TetrisCore :=
  if s.m_isStarted then { s with m_isPause := !s.m_isPause } else s

/-! ## The snapshot, the timer and the comparison of boards -/

/-- The loop of `board()` over the offsets still to visit, on the local copy of
the grid: both assertions must hold, then the cell is written with the kind of
the current piece.  The result is `none` when an assertion fails (and when the
vector has no such cell, which C++ leaves undefined). -/
def boardLoop (c : Params) (cur : Shape) : List Position → Board → Option Board
  | [], board => some board
  | pos :: rest, board =>
    if 0 ≤ cur.x + pos.x ∧ cur.x + pos.x < c.BoardWidth then
      if 0 ≤ cur.y + pos.y ∧ cur.y + pos.y < c.BoardHeight then
        match board[(cur.y + pos.y).toNat]? with
        | some row =>
          if (cur.x + pos.x).toNat < row.length then
            boardLoop c cur rest
              (board.set (cur.y + pos.y).toNat (row.set (cur.x + pos.x).toNat cur.type))
          else none
        | none => none
      else none
    else none

/-- The member `board() const`: the grid with the current piece drawn in.  The
member is `const`: it returns a grid and no new engine. -/
def board (c : Params) (s : TetrisCore) : Option Board :=
  if !s.m_curShape.isValid then
    some s.m_board
  else
    boardLoop c s.m_curShape (s.m_curShape.block c) s.m_board

/-- The conversion of a C++ `double` to `int`: the fraction is cut off, towards
zero. -/
def truncToInt (q : ℚ) : Int :=
  if 0 ≤ q then ⌊q⌋ else ⌈q⌉

/-- The member `timerDelay() const`: `100 + 900 * pow(0.75, m_level - 1)`, converted
to `int`.  The source computes in `double`; here the power is taken in exact
rational arithmetic. -/
def timerDelay (s : TetrisCore) : Int :=
  truncToInt (100 + 900 * (3 / 4 : ℚ) ^ (s.m_level - 1))

/-- The inner loop of `operator==` over the columns still to visit: the first
pair of different cells sets `result = false` and leaves the loop. -/
def eqCellsLoop (left right : BoardLine) : List Nat → Bool
  | [] => true
  | x :: rest => if left[x]? != right[x]? then false else eqCellsLoop left right rest

/-- The outer loop of `operator==` over the rows still to visit: a row of another
length than `width`, on either side, or a pair of different cells sets
`result = false` and leaves the loop. -/
def eqRowsLoop (left right : Board) (width : Nat) : List Nat → Bool
  | [] => true
  | y :: rest =>
    if (left[y]?.getD []).length != width || (right[y]?.getD []).length != width then
      false
    else if !eqCellsLoop (left[y]?.getD []) (right[y]?.getD []) (List.range width) then
      false
    else
      eqRowsLoop left right width rest

/-- The function `operator==(const Board &left, const Board &right)`. -/
def boardEq (left right : Board) : Bool :=
  if left.length = 0 || right.length = 0 then
    false
  else if left.length != right.length then
    false
  else
    eqRowsLoop left right (left.headD []).length (List.range left.length)

/-- The function `operator!=(const Board &left, const Board &right)`. -/
def boardNe (left right : Board) : Bool :=
  !boardEq left right

/-- The part of `gameStep` after `landChanged()`, on the landed engine `s1`: the
next piece is centred; if it fits it becomes the current piece and a new next
piece of kind `kind` is set, otherwise the game is over. -/
def afterLanding (c : Params) (s1 : TetrisCore) (kind : ShapeType) : TetrisCore :=
  if isValidPosition c s1.m_board
      (s1.m_nextShape.setShapePos
        ⟨Int.tdiv ((c.BoardWidth : Int) - getShapeWidth c s1.m_nextShape) 2 - s1.m_nextShape.x,
          s1.m_nextShape.y⟩) 0 0 then
    { s1 with
      m_curShape := s1.m_nextShape.setShapePos
        ⟨Int.tdiv ((c.BoardWidth : Int) - getShapeWidth c s1.m_nextShape) 2 - s1.m_nextShape.x,
          s1.m_nextShape.y⟩
      m_nextShape := (s1.m_nextShape.setShapePos
        ⟨Int.tdiv ((c.BoardWidth : Int) - getShapeWidth c s1.m_nextShape) 2 - s1.m_nextShape.x,
          s1.m_nextShape.y⟩).setRandomShape c kind }
  else
    { s1 with
      m_nextShape := s1.m_nextShape.setShapePos
        ⟨Int.tdiv ((c.BoardWidth : Int) - getShapeWidth c s1.m_nextShape) 2 - s1.m_nextShape.x,
          s1.m_nextShape.y⟩
      m_isStarted := false
      m_isGameOver := true }

/-- The call of `gameStep` on this engine lands the current piece: the engine
runs and the piece cannot fall. -/
def Lands (c : Params) (s : TetrisCore) : Prop :=
  s.m_isStarted = true ∧ s.m_isPause = false ∧ (moveShape c s 0 1 0).1 = false

/-! ## Reachable states -/

/-- The states of the engine a driver can reach: the constructed engine, and
from a reachable state the state after `start`, `stop`, `pause`, `moveShape`,
`gameStep` or `fastForward`.  A call that stops on an assertion leads nowhere.
The predicate `spawnOk` is what is assumed of a piece that comes into play
without a legality check: only those calls of `start` count whose spawned piece
satisfies it, and the default-constructed current piece satisfies it unless it
has kind "none" (as in the idle state of the specification). -/
inductive Reachable (c : Params) (spawnOk : Shape → Prop) : TetrisCore → Prop
  | init (cur next : Shape) (hcur : cur.isValid = true → spawnOk cur) :
      Reachable c spawnOk (TetrisCore.init c cur next)
  | start (s : TetrisCore) (curKind nextKind : ShapeType) (hs : Reachable c spawnOk s)
      (hspawn : spawnOk (start c s curKind nextKind).m_curShape) :
      Reachable c spawnOk (start c s curKind nextKind)
  | stop (s : TetrisCore) (hs : Reachable c spawnOk s) : Reachable c spawnOk (stop c s)
  | pause (s : TetrisCore) (hs : Reachable c spawnOk s) : Reachable c spawnOk (pause s)
  | moveShape (s : TetrisCore) (xStep yStep rotate : Int) (hs : Reachable c spawnOk s) :
      Reachable c spawnOk (moveShape c s xStep yStep rotate).2
  | gameStep (s s1 : TetrisCore) (kind : ShapeType) (hs : Reachable c spawnOk s)
      (hstep : gameStep c s kind = some s1) : Reachable c spawnOk s1
  | fastForward (s s1 : TetrisCore) (kind : ShapeType) (hs : Reachable c spawnOk s)
      (hstep : fastForward c s kind = some s1) : Reachable c spawnOk s1

/-- The states of the engine a driver can reach under assumptions on what happens
on the way: as `Reachable`, and in addition every kind the random source draws
satisfies `kindOk`, and every engine whose piece is landed by a call satisfies
`landOk` at that moment. -/
inductive ReachableWith (c : Params) (spawnOk : Shape → Prop) (kindOk : ShapeType → Prop)
    (landOk : TetrisCore → Prop) : TetrisCore → Prop
  | init (cur next : Shape) (hcur : cur.isValid = true → spawnOk cur) :
      ReachableWith c spawnOk kindOk landOk (TetrisCore.init c cur next)
  | start (s : TetrisCore) (curKind nextKind : ShapeType)
      (hs : ReachableWith c spawnOk kindOk landOk s)
      (hcur : kindOk curKind) (hnext : kindOk nextKind)
      (hspawn : spawnOk (start c s curKind nextKind).m_curShape) :
      ReachableWith c spawnOk kindOk landOk (start c s curKind nextKind)
  | stop (s : TetrisCore) (hs : ReachableWith c spawnOk kindOk landOk s) :
      ReachableWith c spawnOk kindOk landOk (stop c s)
  | pause (s : TetrisCore) (hs : ReachableWith c spawnOk kindOk landOk s) :
      ReachableWith c spawnOk kindOk landOk (pause s)
  | moveShape (s : TetrisCore) (xStep yStep rotate : Int)
      (hs : ReachableWith c spawnOk kindOk landOk s) :
      ReachableWith c spawnOk kindOk landOk (moveShape c s xStep yStep rotate).2
  | gameStep (s s1 : TetrisCore) (kind : ShapeType)
      (hs : ReachableWith c spawnOk kindOk landOk s) (hkind : kindOk kind)
      (hland : Lands c s → landOk s)
      (hstep : gameStep c s kind = some s1) : ReachableWith c spawnOk kindOk landOk s1
  | fastForward (s s1 : TetrisCore) (kind : ShapeType)
      (hs : ReachableWith c spawnOk kindOk landOk s) (hkind : kindOk kind)
      (hland : Lands c (moveShape c s 0 1 0).2 → landOk (moveShape c s 0 1 0).2)
      (hstep : fastForward c s kind = some s1) : ReachableWith c spawnOk kindOk landOk s1

/-- The cell in column `x` of row `y`, if the board has it. -/
def cellAt (b : Board) (x y : Nat) : Option ShapeType :=
  match b[y]? with
  | some row => row[x]?
  | none => none

/-- The current piece occupies the cell in column `x` of row `y`. -/
def Occupies (c : Params) (shape : Shape) (x y : Nat) : Prop :=
  ∃ off ∈ shape.block c, shape.x + off.x = (x : Int) ∧ shape.y + off.y = (y : Int)

/-! ## The invariant of the board -/

/-- The invariant of the stored board: `BoardHeight` rows of `BoardWidth` cells. -/
def WellFormed (c : Params) (b : Board) : Prop :=
  b.length = c.BoardHeight ∧ ∀ row ∈ b, row.length = c.BoardWidth

instance (c : Params) (b : Board) : Decidable (WellFormed c b) := by
  unfold WellFormed
  infer_instance

/-! ## The landing as the specification words it

These definitions do not come from the source: they say, row by row and cell by
cell, what the specification expects of a landing, and are compared with
`landChanged` in the theorems. -/

/-- The board with the given absolute cells `(x, y)` set to the kind `t`, every
other cell as it was. -/
def stampCells (cells : List (Int × Int)) (t : ShapeType) (b : Board) : Board :=
  b.mapIdx fun y row => row.mapIdx fun x cell =>
    if ((x : Int), (y : Int)) ∈ cells then t else cell

/-- The absolute cells `(x, y)` the piece occupies. -/
def occupiedCells (c : Params) (shape : Shape) : List (Int × Int) :=
  (shape.block c).map fun off => (off.x + shape.x, off.y + shape.y)

/-- The rows the piece touches, one entry per occupied cell. -/
def touchedRows (c : Params) (shape : Shape) : List Int :=
  (shape.block c).map fun off => off.y + shape.y

/-- The board with the cells of the piece set to the kind of the piece. -/
def overlay (c : Params) (b : Board) (shape : Shape) : Board :=
  stampCells (occupiedCells c shape) shape.type b

/-- Row number `i` with content `row` is to be cleared: it is one of the touched
rows and it has no empty cell. -/
def isFullTouched (touched : List Int) (i : Nat) (row : BoardLine) : Bool :=
  decide ((i : Int) ∈ touched) && !row.contains ShapeType.NoShape

/-- The rows that stay, in their order; the first of `rows` has number `start`. -/
def keptRows (touched : List Int) (start : Nat) (rows : Board) : Board :=
  ((rows.enumFrom start).filter fun p => !isFullTouched touched p.1 p.2).map Prod.snd

/-- The number of rows to be cleared; the first of `rows` has number `start`. -/
def fullCount (touched : List Int) (start : Nat) (rows : Board) : Nat :=
  ((rows.enumFrom start).filter fun p => isFullTouched touched p.1 p.2).length

/-- The cells of the piece all lie inside the grid. -/
def InBounds (c : Params) (shape : Shape) : Prop :=
  ∀ off ∈ shape.block c,
    0 ≤ off.x + shape.x ∧ off.x + shape.x < c.BoardWidth ∧
    0 ≤ off.y + shape.y ∧ off.y + shape.y < c.BoardHeight

instance (c : Params) (shape : Shape) : Decidable (InBounds c shape) := by
  unfold InBounds
  infer_instance

/-- The score table of the specification, keyed by the number of rows cleared in
one landing: 0, 50, 100, 300, 1200, and nothing beyond four rows. -/
def scoreTable (k : Nat) : Int :=
  [0, 50, 100, 300, 1200].getD k 0

/-- A number that fits into an `int` of 32 bit. -/
def InIntRange (x : Int) : Prop :=
  -2147483648 ≤ x ∧ x ≤ 2147483647

instance (x : Int) : Decidable (InIntRange x) := by
  unfold InIntRange
  infer_instance

/-- The counter `m_destroedLines` after a landing that cleared `k` rows. -/
def landedLines (lines : Int) (k : Nat) : Int :=
  wrapInt (lines + k)

/-- The counter `m_level` after a landing that cleared `k` rows. -/
def landedLevel (lines : Int) (k : Nat) : Int :=
  wrapInt (Int.tdiv (landedLines lines k) 10 + 1)

/-- The counter `m_score` after a landing that cleared `k` rows: untouched for no
row and for more than four rows, otherwise grown by the table entry times the
new level, at the width of `int`. -/
def landedScore (score lines : Int) (k : Nat) : Int :=
  if 1 ≤ k ∧ k ≤ 4 then wrapInt (score + wrapInt (scoreTable k * landedLevel lines k))
  else score

/-- A kind of the kind set the random source draws from: not "none". -/
def ValidKind (kind : ShapeType) : Prop :=
  kind ≠ ShapeType.NoShape

instance (kind : ShapeType) : Decidable (ValidKind kind) := by
  unfold ValidKind
  infer_instance

/-- No counter overflows if the piece of this engine is landed now: the old
`linesCleared` plus the rows that get cleared, and the old score plus the table
entry times the recomputed level, fit into an `int`. -/
def NoOverflow (c : Params) (s : TetrisCore) : Prop :=
  InIntRange (s.m_destroedLines
    + fullCount (touchedRows c s.m_curShape) 0 (overlay c s.m_board s.m_curShape)) ∧
  InIntRange (s.m_score
    + scoreTable (fullCount (touchedRows c s.m_curShape) 0 (overlay c s.m_board s.m_curShape))
      * (Int.tdiv (s.m_destroedLines
        + fullCount (touchedRows c s.m_curShape) 0 (overlay c s.m_board s.m_curShape)) 10 + 1))

instance (c : Params) (s : TetrisCore) : Decidable (NoOverflow c s) := by
  unfold NoOverflow
  infer_instance

/-- The numbers of the rows to be cleared, in increasing order. -/
def fullRows (touched : List Int) (rows : Board) : List Nat :=
  ((rows.enumFrom 0).filter fun p => isFullTouched touched p.1 p.2).map Prod.fst

/-! ## A sample instance of the parameters -/

/-- A sample offset table: tag 1 is the bar (flat at rotations 0 and 2, upright at
1 and 3), tag 2 the square; every other kind, "none" included, occupies its
anchor cell four times. -/
def sampleTable : ShapeType → Fin 4 → List Position
  | ShapeType.piece 1, r =>
    if r.val % 2 = 0 then [⟨0, 0⟩, ⟨1, 0⟩, ⟨2, 0⟩, ⟨3, 0⟩] else [⟨0, 0⟩, ⟨0, 1⟩, ⟨0, 2⟩, ⟨0, 3⟩]
  | ShapeType.piece 2, _ => [⟨0, 0⟩, ⟨1, 0⟩, ⟨0, 1⟩, ⟨1, 1⟩]
  | _, _ => [⟨0, 0⟩, ⟨0, 0⟩, ⟨0, 0⟩, ⟨0, 0⟩]

/-- A sample instance of the parameters: a board 10 wide and 20 tall, the sample
table, every kind spawning at offset (0, 0). -/
def sampleParams : Params :=
  { BoardWidth := 10, BoardHeight := 20, blockTable := sampleTable, spawnPos := fun _ => ⟨0, 0⟩ }

/-- A sample running engine: empty board, the flat bar at the top left corner,
the square waiting. -/
def sampleEngine : TetrisCore :=
  { m_board := emptyBoard sampleParams
    m_curShape := { m_type := ShapeType.piece 1, m_rotate := 0, m_pos := ⟨0, 0⟩ }
    m_nextShape := { m_type := ShapeType.piece 2, m_rotate := 0, m_pos := ⟨0, 0⟩ }
    m_isStarted := true
    m_isPause := false
    m_isGameOver := false
    m_level := 1
    m_score := 0
    m_destroedLines := 0 }

/-- A sample board: empty but for the bottom row, whose six rightmost cells are
taken. -/
def almostFullBottom : Board :=
  List.replicate 19 (List.replicate 10 ShapeType.NoShape)
    ++ [List.replicate 4 ShapeType.NoShape ++ List.replicate 6 (ShapeType.piece 2)]

/-- A sample engine about to land: the flat bar rests in the gap of the bottom
row of `almostFullBottom`; no row cleared so far, level 1. -/
def landingEngine : TetrisCore :=
  { sampleEngine with
    m_board := almostFullBottom
    m_curShape := { m_type := ShapeType.piece 1, m_rotate := 0, m_pos := ⟨0, 19⟩ } }

/-- The same landing with nine rows cleared so far, still at level 1. -/
def landingEngineNine : TetrisCore :=
  { landingEngine with m_destroedLines := 9 }

/-- A sample board whose spawn cells are taken: columns 4 and 5 of row 0. -/
def blockedTop : Board :=
  [List.replicate 4 ShapeType.NoShape ++ List.replicate 2 (ShapeType.piece 2)
      ++ List.replicate 4 ShapeType.NoShape]
    ++ List.replicate 19 (List.replicate 10 ShapeType.NoShape)

/-- A sample piece of kind "none". -/
def noPiece : Shape :=
  { m_type := ShapeType.NoShape, m_rotate := 0, m_pos := ⟨0, 0⟩ }

/-- The constructed sample engine. -/
def idleEngine : TetrisCore :=
  TetrisCore.init sampleParams noPiece noPiece

/-- The sample engine after construction and `start()` with the bar and the
square. -/
def startedEngine : TetrisCore :=
  start sampleParams idleEngine (ShapeType.piece 1) (ShapeType.piece 2)

/-- A sample instance of the parameters with a tiny board, 3 wide and 2 tall. -/
def tinyParams : Params :=
  { BoardWidth := 3, BoardHeight := 2, blockTable := sampleTable, spawnPos := fun _ => ⟨0, 0⟩ }

/-- The tiny engine after construction and `start()` with two squares. -/
def tinyStarted : TetrisCore :=
  start tinyParams (TetrisCore.init tinyParams noPiece noPiece)
    (ShapeType.piece 2) (ShapeType.piece 2)

/-- The tiny engine after the first square has landed: the second square does not
fit, the game is over. -/
def tinyGameOver : TetrisCore :=
  { m_board := [[ShapeType.piece 2, ShapeType.piece 2, ShapeType.NoShape],
      [ShapeType.piece 2, ShapeType.piece 2, ShapeType.NoShape]]
    m_curShape := { m_type := ShapeType.piece 2, m_rotate := 0, m_pos := ⟨0, 0⟩ }
    m_nextShape := { m_type := ShapeType.piece 2, m_rotate := 0, m_pos := ⟨0, 0⟩ }
    m_isStarted := false
    m_isPause := false
    m_isGameOver := true
    m_level := 1
    m_score := 0
    m_destroedLines := 0 }

/-- A sample board: empty but for the given bottom row. -/
def bottomRow (row : BoardLine) : Board :=
  List.replicate 19 (List.replicate 10 ShapeType.NoShape) ++ [row]

/-- The flat bar with its anchor at `(x, y)`. -/
def bar (x y : Int) : Shape :=
  { m_type := ShapeType.piece 1, m_rotate := 0, m_pos := ⟨x, y⟩ }

/-- The square with its anchor at `(x, y)`. -/
def square (x y : Int) : Shape :=
  { m_type := ShapeType.piece 2, m_rotate := 0, m_pos := ⟨x, y⟩ }

/-- The bottom row with a bar in columns 0 to 3. -/
def rowBar : Board :=
  bottomRow (List.replicate 4 (ShapeType.piece 1) ++ List.replicate 6 ShapeType.NoShape)

/-- The bottom row with two bars in columns 0 to 7. -/
def rowTwoBars : Board :=
  bottomRow (List.replicate 8 (ShapeType.piece 1) ++ List.replicate 2 ShapeType.NoShape)

/-- The bottom row with half a square in columns 8 and 9. -/
def rowSquare : Board :=
  bottomRow (List.replicate 8 ShapeType.NoShape ++ List.replicate 2 (ShapeType.piece 2))

/-- The bottom row with a bar in columns 0 to 3 and half a square in columns 8
and 9. -/
def rowBarSquare : Board :=
  bottomRow (List.replicate 4 (ShapeType.piece 1) ++ List.replicate 4 ShapeType.NoShape
    ++ List.replicate 2 (ShapeType.piece 2))

/-- The score after `n` rows have been cleared one at a time since `start()`, as
a sum without a bound: row number `i` is worth 50 times the level
`i / 10 + 1`. -/
def loopScore : Nat → Int
  | 0 => 0
  | n + 1 => loopScore n + 50 * (Int.tdiv ((n : Int) + 1) 10 + 1)

/-- The running sample engine with the given board and pieces after `n` rows have
been cleared one at a time: the counters are what `landChanged` has made of
them. -/
def stage (b : Board) (cur next : Shape) (n : Nat) : TetrisCore :=
  { m_board := b
    m_curShape := cur
    m_nextShape := next
    m_isStarted := true
    m_isPause := false
    m_isGameOver := false
    m_level := Int.tdiv (n : Int) 10 + 1
    m_score := wrapInt (loopScore n)
    m_destroedLines := (n : Int) }

/-- The sample engine in a game of bars and squares after 29302 rows have been
cleared one at a time: two bars lie in the bottom row, the square rests on the
floor in the gap. -/
def overflowEdge : TetrisCore :=
  { m_board := rowTwoBars
    m_curShape := square 8 18
    m_nextShape := bar 0 0
    m_isStarted := true
    m_isPause := false
    m_isGameOver := false
    m_level := 2931
    m_score := 2147397100
    m_destroedLines := 29302 }

/-- The sample engine one call of `gameStep` after `overflowEdge`. -/
def overflowed : TetrisCore :=
  { m_board := rowSquare
    m_curShape := bar 3 0
    m_nextShape := bar 0 0
    m_isStarted := true
    m_isPause := false
    m_isGameOver := false
    m_level := 2931
    m_score := -2147423646
    m_destroedLines := 29303 }

/-- The states the sample engine reaches when the random source draws kinds of the
kind set, with nothing assumed of the landings. -/
abbrev Played (s : TetrisCore) : Prop :=
  ReachableWith sampleParams (InBounds sampleParams) ValidKind (fun _ => True) s

/-! ## Theorems -/

/-- Rotating by a direction and then by its negation restores the piece. -/
theorem Shape.rotate_neg_rotate (sh : Shape) (d : Int) : (sh.rotate d).rotate (-d) = sh := by
  obtain ⟨t, r, p⟩ := sh
  simp only [Shape.rotate, Shape.mk.injEq, true_and, and_true]
  apply Fin.ext
  simp only [Fin.ofNat, Fin.val_mk]
  have h4 : ((4 : Nat) : Int) = 4 := rfl
  have hr := r.isLt
  omega

/-- The loop of `isValidPosition` answers true exactly when no visited cell
offends. -/
theorem isValidPositionLoop_iff (c : Params) (b : Board) (shape : Shape) (xStep yStep : Int)
    (cells : List Position) :
    isValidPositionLoop c b shape xStep yStep cells = true ↔
      ∀ off ∈ cells,
        0 ≤ shape.x + off.x + xStep ∧ shape.x + off.x + xStep < c.BoardWidth ∧
        0 ≤ shape.y + off.y + yStep ∧ shape.y + off.y + yStep < c.BoardHeight ∧
        ∃ row, b[(shape.y + off.y + yStep).toNat]? = some row ∧
          row[(shape.x + off.x + xStep).toNat]? = some ShapeType.NoShape := by
  induction cells with
  | nil => simp [isValidPositionLoop]
  | cons pos rest ih =>
    simp only [isValidPositionLoop, List.forall_mem_cons, ← ih]
    by_cases hx0 : shape.x + pos.x + xStep < 0
    · simp [hx0]
    by_cases hx1 : shape.x + pos.x + xStep ≥ c.BoardWidth
    · simp [hx1]
    by_cases hy0 : shape.y + pos.y + yStep < 0
    · simp [hy0]
    by_cases hy1 : shape.y + pos.y + yStep ≥ c.BoardHeight
    · simp [hy1]
    have hin : 0 ≤ shape.x + pos.x + xStep ∧ shape.x + pos.x + xStep < c.BoardWidth ∧
        0 ≤ shape.y + pos.y + yStep ∧ shape.y + pos.y + yStep < c.BoardHeight := by omega
    obtain ⟨h1, h2, h3, h4⟩ := hin
    cases hrow : b[(shape.y + pos.y + yStep).toNat]? with
    | none => simp [boardElement, hrow, h1, h2, h3, h4]
    | some row =>
      by_cases hcell : row[(shape.x + pos.x + xStep).toNat]? = some ShapeType.NoShape
      · simp [boardElement, hrow, hcell, h1, h2, h3, h4, hx0, hy0]
      · simp [boardElement, hrow, hcell, h1, h2, h3, h4, hx0, hy0]

/-- Claim C3.  `isValidPosition(piece, xStep, yStep)` is true if and only if every
occupied cell, shifted by the step, has its column in `[0, BoardWidth)`, its row
in `[0, BoardHeight)` and lies over an empty cell of the stored board; and it is
false as soon as one occupied cell is outside the grid or not over an empty
cell. -/
theorem isValidPosition_iff (c : Params) (b : Board) (shape : Shape) (xStep yStep : Int) :
    (isValidPosition c b shape xStep yStep = true ↔
      ∀ off ∈ shape.block c,
        0 ≤ shape.x + off.x + xStep ∧ shape.x + off.x + xStep < c.BoardWidth ∧
        0 ≤ shape.y + off.y + yStep ∧ shape.y + off.y + yStep < c.BoardHeight ∧
        ∃ row, b[(shape.y + off.y + yStep).toNat]? = some row ∧
          row[(shape.x + off.x + xStep).toNat]? = some ShapeType.NoShape) ∧
    ((∃ off ∈ shape.block c,
        shape.x + off.x + xStep < 0 ∨ (c.BoardWidth : Int) ≤ shape.x + off.x + xStep ∨
        shape.y + off.y + yStep < 0 ∨ (c.BoardHeight : Int) ≤ shape.y + off.y + yStep ∨
        ¬ ∃ row, b[(shape.y + off.y + yStep).toNat]? = some row ∧
          row[(shape.x + off.x + xStep).toNat]? = some ShapeType.NoShape) →
      isValidPosition c b shape xStep yStep = false) := by
  have key := isValidPositionLoop_iff c b shape xStep yStep (shape.block c)
  refine ⟨key, ?_⟩
  rintro ⟨off, hmem, hbad⟩
  cases hv : isValidPosition c b shape xStep yStep with
  | false => rfl
  | true =>
    exfalso
    obtain ⟨h1, h2, h3, h4, h5⟩ := key.mp hv off hmem
    rcases hbad with h | h | h | h | h
    · omega
    · omega
    · omega
    · omega
    · exact h h5

/-- The first guard of `moveShape`: an engine that is not started, or is paused,
refuses and stays as it is. -/
theorem moveShape_of_not_running (c : Params) (s : TetrisCore) (xStep yStep rotateDir : Int)
    (h : s.m_isStarted = false ∨ s.m_isPause = true) :
    moveShape c s xStep yStep rotateDir = (false, s) := by
  rcases h with h | h <;> simp [moveShape, h]

/-- The second guard of `moveShape`: a piece of kind "none" is refused. -/
theorem moveShape_of_invalid (c : Params) (s : TetrisCore) (xStep yStep rotateDir : Int)
    (h : s.m_curShape.isValid = false) :
    moveShape c s xStep yStep rotateDir = (false, s) := by
  simp [moveShape, h]

/-- The rollback branch of `moveShape`: an illegal target is refused and the
speculative rotation is undone. -/
theorem moveShape_of_illegal (c : Params) (s : TetrisCore) (xStep yStep rotateDir : Int)
    (hs : s.m_isStarted = true) (hp : s.m_isPause = false) (hv : s.m_curShape.isValid = true)
    (hl : isValidPosition c s.m_board (s.m_curShape.rotate rotateDir) xStep yStep = false) :
    moveShape c s xStep yStep rotateDir = (false, s) := by
  obtain ⟨b, cur, nxt, st, pa, go, lv, sc, dl⟩ := s
  simp only at hs hp hv hl
  subst hs hp
  simp [moveShape, hv, hl, Shape.rotate_neg_rotate]

/-- The commit branch of `moveShape`: a legal target is accepted, the rotation
stays and the anchor moves by the step. -/
theorem moveShape_of_legal (c : Params) (s : TetrisCore) (xStep yStep rotateDir : Int)
    (hs : s.m_isStarted = true) (hp : s.m_isPause = false) (hv : s.m_curShape.isValid = true)
    (hl : isValidPosition c s.m_board (s.m_curShape.rotate rotateDir) xStep yStep = true) :
    moveShape c s xStep yStep rotateDir =
      (true, { s with m_curShape :=
        { m_type := s.m_curShape.m_type
          m_rotate := (s.m_curShape.rotate rotateDir).m_rotate
          m_pos := ⟨s.m_curShape.x + xStep, s.m_curShape.y + yStep⟩ } }) := by
  obtain ⟨b, cur, nxt, st, pa, go, lv, sc, dl⟩ := s
  simp only at hs hp hv hl
  subst hs hp
  simp [moveShape, hv, hl]
  simp [Shape.rotate, Shape.setShapePos, Shape.x, Shape.y]

/-- A refused `moveShape` hands back the engine it was given. -/
theorem moveShape_fail_eq (c : Params) (s : TetrisCore) (xStep yStep rotateDir : Int)
    (hfail : (moveShape c s xStep yStep rotateDir).1 = false) :
    moveShape c s xStep yStep rotateDir = (false, s) := by
  cases hst : s.m_isStarted with
  | false => exact moveShape_of_not_running c s _ _ _ (Or.inl hst)
  | true =>
    cases hp : s.m_isPause with
    | true => exact moveShape_of_not_running c s _ _ _ (Or.inr hp)
    | false =>
      cases hv : s.m_curShape.isValid with
      | false => exact moveShape_of_invalid c s _ _ _ hv
      | true =>
        cases hl : isValidPosition c s.m_board (s.m_curShape.rotate rotateDir) xStep yStep with
        | false => exact moveShape_of_illegal c s _ _ _ hst hp hv hl
        | true =>
          rw [moveShape_of_legal c s _ _ _ hst hp hv hl] at hfail
          exact absurd hfail (by simp)

/-- Rotating by direction 0 leaves the piece as it is. -/
theorem Shape.rotate_zero (sh : Shape) : sh.rotate 0 = sh := by
  obtain ⟨t, r, p⟩ := sh
  simp only [Shape.rotate, Shape.mk.injEq, true_and, and_true]
  apply Fin.ext
  simp only [Fin.ofNat, Fin.val_mk]
  have hr := r.isLt
  omega

/-- Claim C1.  When `moveShape(xStep, yStep, rotateDir)` with `rotateDir` in
`{-1, 0, +1}` returns failure, the whole engine state after the call equals the
state before it; in particular anchor position and rotation index of the
current piece are unchanged. -/
theorem moveShape_failure_keeps_state (c : Params) (s : TetrisCore) (xStep yStep rotateDir : Int)
    (_hdir : rotateDir = -1 ∨ rotateDir = 0 ∨ rotateDir = 1)
    (hfail : (moveShape c s xStep yStep rotateDir).1 = false) :
    (moveShape c s xStep yStep rotateDir).2 = s ∧
    (moveShape c s xStep yStep rotateDir).2.m_curShape.m_pos = s.m_curShape.m_pos ∧
    (moveShape c s xStep yStep rotateDir).2.m_curShape.m_rotate = s.m_curShape.m_rotate := by
  have hst : (moveShape c s xStep yStep rotateDir).2 = s := by
    rw [moveShape_fail_eq c s xStep yStep rotateDir hfail]
  rw [hst]
  exact ⟨rfl, rfl, rfl⟩

/-- An instance of claim C1: on the sample engine the request "rotate by +1 and
step one column to the left" is refused, and the engine is as before. -/
theorem moveShape_failure_keeps_state_witness :
    (moveShape sampleParams sampleEngine (-1) 0 1).1 = false ∧
    (moveShape sampleParams sampleEngine (-1) 0 1).2 = sampleEngine :=
  ⟨by decide,
    (moveShape_failure_keeps_state sampleParams sampleEngine (-1) 0 1 (by decide) (by decide)).1⟩

/-- Claim C2.  For `rotateDir` in `{-1, 0, +1}`, `moveShape` returns success if and
only if the engine is started, not paused, the current piece is valid and the
piece rotated by `rotateDir` is at a legal position when offset by
`(xStep, yStep)`.  On success the anchor becomes `(x + xStep, y + yStep)`, the
rotation index is the old one advanced by `rotateDir` modulo 4 (unchanged when
`rotateDir = 0`), and kind, stored board, next piece, score, level,
`linesCleared` and the three flags are unchanged. -/
theorem moveShape_success_iff (c : Params) (s : TetrisCore) (xStep yStep rotateDir : Int)
    (_hdir : rotateDir = -1 ∨ rotateDir = 0 ∨ rotateDir = 1) :
    ((moveShape c s xStep yStep rotateDir).1 = true ↔
      (s.m_isStarted = true ∧ s.m_isPause = false ∧ s.m_curShape.isValid = true ∧
        isValidPosition c s.m_board (s.m_curShape.rotate rotateDir) xStep yStep = true)) ∧
    ((moveShape c s xStep yStep rotateDir).1 = true →
      (moveShape c s xStep yStep rotateDir).2.m_curShape.m_pos =
        ⟨s.m_curShape.x + xStep, s.m_curShape.y + yStep⟩ ∧
      (((moveShape c s xStep yStep rotateDir).2.m_curShape.m_rotate.val : Int) =
        ((s.m_curShape.m_rotate.val : Int) + rotateDir) % 4) ∧
      (rotateDir = 0 →
        (moveShape c s xStep yStep rotateDir).2.m_curShape.m_rotate = s.m_curShape.m_rotate) ∧
      (moveShape c s xStep yStep rotateDir).2.m_curShape.m_type = s.m_curShape.m_type ∧
      (moveShape c s xStep yStep rotateDir).2.m_board = s.m_board ∧
      (moveShape c s xStep yStep rotateDir).2.m_nextShape = s.m_nextShape ∧
      (moveShape c s xStep yStep rotateDir).2.m_score = s.m_score ∧
      (moveShape c s xStep yStep rotateDir).2.m_level = s.m_level ∧
      (moveShape c s xStep yStep rotateDir).2.m_destroedLines = s.m_destroedLines ∧
      (moveShape c s xStep yStep rotateDir).2.m_isStarted = s.m_isStarted ∧
      (moveShape c s xStep yStep rotateDir).2.m_isPause = s.m_isPause ∧
      (moveShape c s xStep yStep rotateDir).2.m_isGameOver = s.m_isGameOver) := by
  have hiff : (moveShape c s xStep yStep rotateDir).1 = true ↔
      (s.m_isStarted = true ∧ s.m_isPause = false ∧ s.m_curShape.isValid = true ∧
        isValidPosition c s.m_board (s.m_curShape.rotate rotateDir) xStep yStep = true) := by
    cases hst : s.m_isStarted with
    | false => simp [moveShape_of_not_running c s _ _ _ (Or.inl hst)]
    | true =>
      cases hp : s.m_isPause with
      | true => simp [moveShape_of_not_running c s _ _ _ (Or.inr hp)]
      | false =>
        cases hv : s.m_curShape.isValid with
        | false => simp [moveShape_of_invalid c s _ _ _ hv]
        | true =>
          cases hl : isValidPosition c s.m_board (s.m_curShape.rotate rotateDir) xStep yStep with
          | false => simp [moveShape_of_illegal c s _ _ _ hst hp hv hl]
          | true => simp [moveShape_of_legal c s _ _ _ hst hp hv hl]
  refine ⟨hiff, fun hok => ?_⟩
  obtain ⟨hst, hp, hv, hl⟩ := hiff.mp hok
  rw [moveShape_of_legal c s _ _ _ hst hp hv hl]
  have hr := s.m_curShape.m_rotate.isLt
  have h4 : ((4 : Nat) : Int) = 4 := rfl
  refine ⟨rfl, ?_, ?_, rfl, rfl, rfl, rfl, rfl, rfl, rfl, rfl, rfl⟩
  · simp only [Shape.rotate, Fin.ofNat, Fin.val_mk]
    omega
  · intro h0
    apply Fin.ext
    simp only [Shape.rotate, Fin.ofNat, Fin.val_mk, h0]
    omega

/-- An instance of claim C2: on the sample engine the request "rotate by +1 and
step one column to the right" succeeds; the bar stands upright at column 1. -/
theorem moveShape_success_iff_witness :
    (moveShape sampleParams sampleEngine 1 0 1).1 = true ∧
    (moveShape sampleParams sampleEngine 1 0 1).2.m_curShape =
      { m_type := ShapeType.piece 1, m_rotate := 1, m_pos := ⟨1, 0⟩ } ∧
    (moveShape sampleParams sampleEngine 1 0 1).2.m_board = sampleEngine.m_board :=
  ⟨by decide, by decide,
    ((moveShape_success_iff sampleParams sampleEngine 1 0 1 (by decide)).2 (by decide)).2.2.2.2.1⟩

/-- Claim C7.  On a board of `BoardHeight` rows of `BoardWidth` cells,
`destroyLine(line)` returns true if and only if `0 <= line < BoardHeight`.  When it
returns false the board is unchanged.  When it returns true the board still has
`BoardHeight` rows of `BoardWidth` cells, the new row 0 is all-empty, the new row
`i + 1` is the old row `i` for every `0 <= i < line`, and the new row `j` is the old
row `j` for every `line < j < BoardHeight`. -/
theorem destroyLine_spec (c : Params) (b : Board) (line : Int) (hwf : WellFormed c b) :
    ((destroyLine c b line).1 = true ↔ (0 ≤ line ∧ line < c.BoardHeight)) ∧
    ((destroyLine c b line).1 = false → (destroyLine c b line).2 = b) ∧
    ((destroyLine c b line).1 = true →
      WellFormed c (destroyLine c b line).2 ∧
      (destroyLine c b line).2[0]? = some (List.replicate c.BoardWidth ShapeType.NoShape) ∧
      (∀ i : Nat, (i : Int) < line →
        ∃ row, b[i]? = some row ∧ (destroyLine c b line).2[i + 1]? = some row) ∧
      (∀ j : Nat, line < (j : Int) → j < c.BoardHeight →
        ∃ row, b[j]? = some row ∧ (destroyLine c b line).2[j]? = some row)) := by
  obtain ⟨hlen, hrows⟩ := hwf
  by_cases hout : line < 0 ∨ (c.BoardHeight : Int) ≤ line
  · have hd : destroyLine c b line = (false, b) := by
      rcases hout with h | h <;> simp [destroyLine, h]
    rw [hd]
    refine ⟨?_, fun _ => rfl, fun h => absurd h (by simp)⟩
    simp only [Bool.false_eq_true, false_iff]
    omega
  · have h0 : 0 ≤ line := by omega
    have h1 : line < c.BoardHeight := by omega
    have hd : destroyLine c b line =
        (true, List.replicate c.BoardWidth ShapeType.NoShape :: b.eraseIdx line.toNat) := by
      have h0' : ¬ line < 0 := by omega
      have h1' : ¬ (c.BoardHeight : Int) ≤ line := by omega
      simp [destroyLine, h0', h1']
    have hlt : line.toNat < b.length := by omega
    rw [hd]
    refine ⟨by simp [h0, h1], fun h => absurd h (by simp), fun _ => ⟨⟨?_, ?_⟩, by simp, ?_, ?_⟩⟩
    · simp only [List.length_cons, List.length_eraseIdx, hlt, if_true]
      omega
    · intro row hrow
      rcases List.mem_cons.mp hrow with h | h
      · simp [h]
      · exact hrows row (List.mem_of_mem_eraseIdx h)
    · intro i hi
      have hib : i < b.length := by omega
      refine ⟨b[i], List.getElem?_eq_getElem hib, ?_⟩
      have hil : i < line.toNat := by omega
      simp only [List.getElem?_cons_succ, List.getElem?_eraseIdx, hil, if_true]
      exact List.getElem?_eq_getElem hib
    · intro j hj hjH
      have hjb : j < b.length := by omega
      refine ⟨b[j], List.getElem?_eq_getElem hjb, ?_⟩
      obtain ⟨k, rfl⟩ : ∃ k, j = k + 1 := ⟨j - 1, by omega⟩
      have hkl : ¬ k < line.toNat := by omega
      simp only [List.getElem?_cons_succ, List.getElem?_eraseIdx, hkl, if_false]
      exact List.getElem?_eq_getElem hjb

/-- An instance of claim C7: on the empty sample board `destroyLine(3)` succeeds
and leaves a board of the same shape. -/
theorem destroyLine_spec_witness :
    WellFormed sampleParams (emptyBoard sampleParams) ∧
    (destroyLine sampleParams (emptyBoard sampleParams) 3).1 = true ∧
    WellFormed sampleParams (destroyLine sampleParams (emptyBoard sampleParams) 3).2 :=
  ⟨by decide, by decide,
    ((destroyLine_spec sampleParams (emptyBoard sampleParams) 3 (by decide)).2.2
      (by decide)).1⟩

/-! ### The clearing loop of `landChanged` -/

theorem keptRows_nil (T : List Int) (start : Nat) : keptRows T start [] = [] := rfl

theorem fullCount_nil (T : List Int) (start : Nat) : fullCount T start [] = 0 := rfl

theorem keptRows_cons (T : List Int) (start : Nat) (r : BoardLine) (rs : Board) :
    keptRows T start (r :: rs) =
      if isFullTouched T start r then keptRows T (start + 1) rs
      else r :: keptRows T (start + 1) rs := by
  cases h : isFullTouched T start r <;> simp [keptRows, List.enumFrom_cons, List.filter_cons, h]

theorem fullCount_cons (T : List Int) (start : Nat) (r : BoardLine) (rs : Board) :
    fullCount T start (r :: rs) =
      if isFullTouched T start r then fullCount T (start + 1) rs + 1
      else fullCount T (start + 1) rs := by
  cases h : isFullTouched T start r <;> simp [fullCount, List.enumFrom_cons, List.filter_cons, h]

theorem keptRows_append (T : List Int) (rs1 rs2 : Board) (start : Nat) :
    keptRows T start (rs1 ++ rs2) = keptRows T start rs1 ++ keptRows T (start + rs1.length) rs2 := by
  induction rs1 generalizing start with
  | nil => simp [keptRows_nil]
  | cons r rs ih =>
    simp only [List.cons_append, keptRows_cons, ih, List.length_cons]
    have : start + 1 + rs.length = start + (rs.length + 1) := by omega
    rw [this]
    split <;> simp

theorem fullCount_append (T : List Int) (rs1 rs2 : Board) (start : Nat) :
    fullCount T start (rs1 ++ rs2) = fullCount T start rs1 + fullCount T (start + rs1.length) rs2 := by
  induction rs1 generalizing start with
  | nil => simp [fullCount_nil]
  | cons r rs ih =>
    simp only [List.cons_append, fullCount_cons, ih, List.length_cons]
    have : start + 1 + rs.length = start + (rs.length + 1) := by omega
    rw [this]
    split <;> omega

/-- Rows whose numbers lie below every touched row all stay. -/
theorem keptRows_below (T : List Int) (rows : Board) (start : Nat)
    (h : ∀ t ∈ T, ((start + rows.length : Nat) : Int) ≤ t) :
    keptRows T start rows = rows ∧ fullCount T start rows = 0 := by
  induction rows generalizing start with
  | nil => exact ⟨rfl, rfl⟩
  | cons r rs ih =>
    have hnot : isFullTouched T start r = false := by
      have : ¬ ((start : Int) ∈ T) := fun hm => by
        have := h _ hm
        simp only [List.length_cons] at this
        omega
      simp [isFullTouched, this]
    have ih' := ih (start + 1) (fun t ht => by
      have := h t ht
      simp only [List.length_cons] at this
      omega)
    simp [keptRows_cons, fullCount_cons, hnot, ih'.1, ih'.2]

/-- A touched row that lies above the rows at hand does not matter for them. -/
theorem keptRows_drop_head (l : Int) (T : List Int) (rows : Board) (start : Nat)
    (h : l < (start : Int)) :
    keptRows (l :: T) start rows = keptRows T start rows ∧
    fullCount (l :: T) start rows = fullCount T start rows := by
  induction rows generalizing start with
  | nil => exact ⟨rfl, rfl⟩
  | cons r rs ih =>
    have heq : isFullTouched (l :: T) start r = isFullTouched T start r := by
      have : (start : Int) ≠ l := by omega
      simp [isFullTouched, this]
    have ih' := ih (start + 1) (by omega)
    simp [keptRows_cons, fullCount_cons, heq, ih'.1, ih'.2]

/-- A list splits around any of its positions. -/
theorem split_at_index (rows : Board) (j : Nat) (hj : j < rows.length) :
    ∃ s1 r s2, rows = s1 ++ r :: s2 ∧ s1.length = j :=
  ⟨rows.take j, rows[j], rows.drop (j + 1), by simp, by simp; omega⟩

/-- The clearing loop of `landChanged`, run over strictly increasing row numbers
that all lie in the part `suf` of the board: it returns, and it puts one empty
row in front for every full row, keeps `pre`, and keeps of `suf` the rows that are
not full touched rows. -/
theorem landChangedClear_spec (c : Params) (ls : List Int) :
    ∀ (pre suf : Board) (n : Int),
      pre.length + suf.length = c.BoardHeight →
      ls.Pairwise (· < ·) →
      (∀ l ∈ ls, (pre.length : Int) ≤ l ∧ l < c.BoardHeight) →
      landChangedClear c ls (pre ++ suf, n) =
        some (List.replicate (fullCount ls pre.length suf)
                (List.replicate c.BoardWidth ShapeType.NoShape)
              ++ (pre ++ keptRows ls pre.length suf),
              n + fullCount ls pre.length suf) := by
  induction ls with
  | nil =>
    intro pre suf n _ _ _
    have hk := keptRows_below [] suf pre.length (by simp)
    simp [landChangedClear, hk.1, hk.2]
  | cons l rest ih =>
    intro pre suf n hlen hsorted hrange
    obtain ⟨hl0, hl1⟩ := hrange l (List.mem_cons_self _ _)
    have hrest : ∀ t ∈ rest, l < t := (List.pairwise_cons.mp hsorted).1
    have hsorted' : rest.Pairwise (· < ·) := (List.pairwise_cons.mp hsorted).2
    obtain ⟨s1, r, s2, rfl, hs1⟩ :=
      split_at_index suf (l.toNat - pre.length) (by omega)
    have hidx : (pre ++ (s1 ++ r :: s2))[l.toNat]? = some r := by
      have h1 : l.toNat = (pre ++ s1).length := by simp; omega
      rw [← List.append_assoc, h1, List.getElem?_append_right (Nat.le_refl _)]
      simp
    have hneg : ¬ l < 0 := by omega
    have hpos : (pre.length + s1.length : Nat) = l.toNat := by omega
    have hposI : ((pre.length + s1.length : Nat) : Int) = l := by omega
    -- the rows of `s1` lie below every touched row
    have hs1kept := keptRows_below (l :: rest) s1 pre.length (by
      intro t ht
      rcases List.mem_cons.mp ht with h | h
      · omega
      · have := hrest t h
        omega)
    -- behind row `l` only `rest` matters
    have hs2 := keptRows_drop_head l rest s2 (pre.length + s1.length + 1) (by omega)
    have htouched : ((pre.length + s1.length : Nat) : Int) ∈ l :: rest := by
      rw [hposI]
      exact List.mem_cons_self _ _
    rw [landChangedClear]
    simp only [hneg, if_false, hidx]
    rw [keptRows_append, fullCount_append, keptRows_cons, fullCount_cons, hs1kept.1, hs1kept.2,
      hs2.1, hs2.2]
    cases hfull : r.contains ShapeType.NoShape with
    | false =>
      have hft : isFullTouched (l :: rest) (pre.length + s1.length) r = true := by
        simp only [isFullTouched, hfull, Bool.not_false, Bool.and_true, decide_eq_true_eq]
        exact htouched
      have hd : destroyLine c (pre ++ (s1 ++ r :: s2)) l =
          (true, List.replicate c.BoardWidth ShapeType.NoShape :: (pre ++ s1 ++ s2)) := by
        have h1' : ¬ (c.BoardHeight : Int) ≤ l := by omega
        have h2 : (pre ++ (s1 ++ r :: s2)).eraseIdx l.toNat = pre ++ s1 ++ s2 := by
          rw [← List.append_assoc, ← hpos, ← List.length_append,
            List.eraseIdx_append_of_length_le (Nat.le_refl _)]
          simp
        simp [destroyLine, hneg, h1', h2]
      have ih' := ih (List.replicate c.BoardWidth ShapeType.NoShape :: (pre ++ s1)) s2 (n + 1)
        (by simp only [List.length_cons, List.length_append] at hlen ⊢; omega)
        hsorted'
        (fun t ht => by
          have h1 := hrest t ht
          have h2 := (hrange t (List.mem_cons_of_mem _ ht)).2
          simp only [List.length_cons, List.length_append]
          omega)
      simp only [Bool.not_false, if_true, hd, hft]
      have hcons : List.replicate c.BoardWidth ShapeType.NoShape :: (pre ++ s1 ++ s2) =
          (List.replicate c.BoardWidth ShapeType.NoShape :: (pre ++ s1)) ++ s2 := by simp
      rw [hcons, ih']
      simp only [List.length_cons, List.length_append, Option.some.injEq, Prod.mk.injEq]
      constructor
      · rw [show 0 + (fullCount rest (pre.length + s1.length + 1) s2 + 1) =
            fullCount rest (pre.length + s1.length + 1) s2 + 1 by omega, List.replicate_succ']
        simp
      · push_cast
        omega
    | true =>
      have hft : isFullTouched (l :: rest) (pre.length + s1.length) r = false := by
        simp only [isFullTouched, hfull, Bool.not_true, Bool.and_false]
      have ih' := ih (pre ++ s1 ++ [r]) s2 n
        (by simp only [List.length_cons, List.length_append, List.length_nil] at hlen ⊢; omega)
        hsorted'
        (fun t ht => by
          have h1 := hrest t ht
          have h2 := (hrange t (List.mem_cons_of_mem _ ht)).2
          simp only [List.length_cons, List.length_append, List.length_nil]
          omega)
      simp only [Bool.not_true, Bool.false_eq_true, if_false, hft]
      have hcons : pre ++ (s1 ++ r :: s2) = (pre ++ s1 ++ [r]) ++ s2 := by simp
      rw [hcons, ih']
      simp only [List.length_cons, List.length_append, List.length_nil, Option.some.injEq,
        Prod.mk.injEq]
      constructor
      · simp
      · push_cast
        omega

/-! ### Sorting and deduplicating the touched rows -/

theorem mem_unique (l : List Int) (x : Int) : x ∈ unique l ↔ x ∈ l := by
  induction l using unique.induct with
  | case1 => simp [unique]
  | case2 a => simp [unique]
  | case3 a rest ih =>
    simp only [unique, if_true, ih, List.mem_cons]
    tauto
  | case4 a b rest hab ih =>
    simp only [unique, hab, if_false, List.mem_cons, ih]

theorem unique_pairwise (l : List Int) (h : l.Pairwise (· ≤ ·)) : (unique l).Pairwise (· < ·) := by
  induction l using unique.induct with
  | case1 => simp [unique]
  | case2 a => simp [unique]
  | case3 a rest ih =>
    simp only [unique, if_true]
    exact ih (List.pairwise_cons.mp h).2
  | case4 a b rest hab ih =>
    simp only [unique, hab, if_false]
    obtain ⟨hhead, htail⟩ := List.pairwise_cons.mp h
    refine List.pairwise_cons.mpr ⟨fun y hy => ?_, ih htail⟩
    have hy' : y ∈ b :: rest := (mem_unique _ _).mp hy
    have hab' : a ≤ b := hhead b (List.mem_cons_self _ _)
    have hby : b ≤ y := by
      rcases List.mem_cons.mp hy' with h1 | h1
      · omega
      · exact (List.pairwise_cons.mp htail).1 y h1
    omega

/-- The rows the clearing loop visits: strictly increasing, and the same rows as
the ones collected. -/
theorem sorted_unique_spec (l : List Int) :
    (unique (l.insertionSort (· ≤ ·))).Pairwise (· < ·) ∧
    ∀ x, x ∈ unique (l.insertionSort (· ≤ ·)) ↔ x ∈ l := by
  refine ⟨unique_pairwise _ (List.sorted_insertionSort (· ≤ ·) l), fun x => ?_⟩
  rw [mem_unique]
  exact (List.perm_insertionSort (· ≤ ·) l).mem_iff

/-- Which rows stay depends on the touched rows only as a set. -/
theorem keptRows_congr (T T' : List Int) (h : ∀ x, x ∈ T ↔ x ∈ T') (start : Nat) (rows : Board) :
    keptRows T start rows = keptRows T' start rows ∧
    fullCount T start rows = fullCount T' start rows := by
  have hf : isFullTouched T = isFullTouched T' := by
    funext i row
    simp only [isFullTouched, h]
  simp only [keptRows, fullCount, hf, and_self]

/-! ### The stamping loop of `landChanged` -/

theorem length_stampCells (cells : List (Int × Int)) (t : ShapeType) (b : Board) :
    (stampCells cells t b).length = b.length := by
  simp [stampCells]

theorem getElem?_stampCells (cells : List (Int × Int)) (t : ShapeType) (b : Board) (y : Nat) :
    (stampCells cells t b)[y]? =
      (b[y]?).map fun row => row.mapIdx fun x cell =>
        if ((x : Int), (y : Int)) ∈ cells then t else cell := by
  simp [stampCells, List.getElem?_mapIdx]

theorem wellFormed_stampCells (c : Params) (cells : List (Int × Int)) (t : ShapeType) (b : Board)
    (h : WellFormed c b) : WellFormed c (stampCells cells t b) := by
  refine ⟨by rw [length_stampCells]; exact h.1, fun row hrow => ?_⟩
  obtain ⟨i, hi, rfl⟩ := List.getElem_of_mem hrow
  have hi' : i < b.length := by rw [length_stampCells] at hi; exact hi
  simp only [stampCells, List.getElem_mapIdx, List.length_mapIdx]
  exact h.2 _ (List.getElem_mem hi')

theorem stampCells_nil (t : ShapeType) (b : Board) : stampCells [] t b = b := by
  apply List.ext_getElem?
  intro y
  rw [getElem?_stampCells]
  cases hb : b[y]? with
  | none => rfl
  | some row =>
    simp only [Option.map_some', Option.some.injEq]
    apply List.ext_getElem?
    intro x
    simp [List.getElem?_mapIdx]

/-- One write of the stamping loop: writing the cell `(x, y)` of a board that
already carries the cells `pre` gives the board that carries `pre` and `(x, y)`. -/
theorem setBoardElement_stampCells (c : Params) (pre : List (Int × Int)) (t : ShapeType)
    (b0 : Board) (hwf : WellFormed c b0) (x y : Int)
    (hx0 : 0 ≤ x) (hx1 : x < c.BoardWidth) (hy0 : 0 ≤ y) (hy1 : y < c.BoardHeight) :
    setBoardElement c (stampCells pre t b0) x y t = some (stampCells (pre ++ [(x, y)]) t b0) := by
  have hyl : y.toNat < b0.length := by have := hwf.1; omega
  have hrow : b0[y.toNat]? = some b0[y.toNat] := List.getElem?_eq_getElem hyl
  have hrowlen : b0[y.toNat].length = c.BoardWidth := hwf.2 _ (List.getElem_mem hyl)
  have hxl : x.toNat < b0[y.toNat].length := by omega
  have hyc : ((y.toNat : Nat) : Int) = y := by omega
  have hxc : ((x.toNat : Nat) : Int) = x := by omega
  unfold setBoardElement
  rw [if_pos ⟨hx0, hx1, hy0, hy1⟩, getElem?_stampCells, hrow]
  simp only [Option.map_some', List.length_mapIdx, hxl, if_true, Option.some.injEq]
  apply List.ext_getElem?
  intro i
  rw [List.getElem?_set, getElem?_stampCells, getElem?_stampCells, length_stampCells]
  by_cases hi : y.toNat = i
  · subst hi
    simp only [if_true, hyl, hrow, Option.map_some', Option.some.injEq]
    apply List.ext_getElem?
    intro j
    rw [List.getElem?_set, List.getElem?_mapIdx, List.getElem?_mapIdx, List.length_mapIdx]
    by_cases hj : x.toNat = j
    · subst hj
      simp [hxl, List.getElem?_eq_getElem hxl, hyc, hxc]
    · have hne : (j : Int) ≠ x := by omega
      simp only [hj, if_false]
      cases hcell : b0[y.toNat][j]? with
      | none => rfl
      | some cell =>
        simp only [Option.map_some', List.mem_append, List.mem_singleton, Prod.mk.injEq, hne,
          false_and, or_false]
  · have hne : (i : Int) ≠ y := by omega
    simp only [hi, if_false]
    cases hb : b0[i]? with
    | none => rfl
    | some row =>
      simp only [Option.map_some', List.mem_append, List.mem_singleton, Prod.mk.injEq, hne,
        and_false, or_false]

/-- The stamping loop of `landChanged` on a piece inside the grid: it returns, it
collects the row of every cell, and the board carries the cells written. -/
theorem landChangedStamp_spec (c : Params) (cur : Shape) (b0 : Board) (hwf : WellFormed c b0)
    (rest : List Position) :
    ∀ (pre : List (Int × Int)) (lines : List Int),
      (∀ off ∈ rest,
        0 ≤ off.x + cur.x ∧ off.x + cur.x < c.BoardWidth ∧
        0 ≤ off.y + cur.y ∧ off.y + cur.y < c.BoardHeight) →
      landChangedStamp c cur rest (lines, stampCells pre cur.type b0) =
        some (lines ++ rest.map (fun off => off.y + cur.y),
          stampCells (pre ++ rest.map (fun off => (off.x + cur.x, off.y + cur.y))) cur.type b0) := by
  induction rest with
  | nil =>
    intro pre lines _
    simp [landChangedStamp]
  | cons pos rest ih =>
    intro pre lines hin
    obtain ⟨h1, h2, h3, h4⟩ := hin pos (List.mem_cons_self _ _)
    rw [landChangedStamp, setBoardElement_stampCells c pre cur.type b0 hwf _ _ h1 h2 h3 h4]
    simp only
    rw [ih (pre ++ [(pos.x + cur.x, pos.y + cur.y)]) (lines ++ [pos.y + cur.y])
      (fun off hoff => hin off (List.mem_cons_of_mem _ hoff))]
    simp

/-! ### The landing as a whole -/

/-- The switch of `landChanged` in one formula. -/
theorem score_switch (k : Nat) (score lines : Int) :
    (if (k : Int) = 0 then score
      else if (k : Int) = 1 then wrapInt (score + wrapInt (50 * landedLevel lines k))
      else if (k : Int) = 2 then wrapInt (score + wrapInt (100 * landedLevel lines k))
      else if (k : Int) = 3 then wrapInt (score + wrapInt (300 * landedLevel lines k))
      else if (k : Int) = 4 then wrapInt (score + wrapInt (1200 * landedLevel lines k))
      else score) = landedScore score lines k := by
  match k with
  | 0 => simp [landedScore]
  | 1 => simp [landedScore, scoreTable]
  | 2 => simp [landedScore, scoreTable]
  | 3 => simp [landedScore, scoreTable]
  | 4 => simp [landedScore, scoreTable]
  | n + 5 =>
    have h0 : ¬ ((n + 5 : Nat) : Int) = 0 := by omega
    have h1 : ¬ ((n + 5 : Nat) : Int) = 1 := by omega
    have h2 : ¬ ((n + 5 : Nat) : Int) = 2 := by omega
    have h3 : ¬ ((n + 5 : Nat) : Int) = 3 := by omega
    have h4 : ¬ ((n + 5 : Nat) : Int) = 4 := by omega
    have hk : ¬ (1 ≤ n + 5 ∧ n + 5 ≤ 4) := by omega
    rw [if_neg h0, if_neg h1, if_neg h2, if_neg h3, if_neg h4, landedScore, if_neg hk]

/-- The landing of a piece inside the grid on a well-formed board, in closed
form: `landChanged` returns, the board is one empty row per full touched row
followed by the other rows of the merged board, and the counters follow. -/
theorem landChanged_eq (c : Params) (s : TetrisCore) (hwf : WellFormed c s.m_board)
    (hin : InBounds c s.m_curShape) :
    landChanged c s = some { s with
      m_board :=
        List.replicate
          (fullCount (touchedRows c s.m_curShape) 0 (overlay c s.m_board s.m_curShape))
          (List.replicate c.BoardWidth ShapeType.NoShape)
        ++ keptRows (touchedRows c s.m_curShape) 0 (overlay c s.m_board s.m_curShape)
      m_destroedLines := landedLines s.m_destroedLines
        (fullCount (touchedRows c s.m_curShape) 0 (overlay c s.m_board s.m_curShape))
      m_level := landedLevel s.m_destroedLines
        (fullCount (touchedRows c s.m_curShape) 0 (overlay c s.m_board s.m_curShape))
      m_score := landedScore s.m_score s.m_destroedLines
        (fullCount (touchedRows c s.m_curShape) 0 (overlay c s.m_board s.m_curShape)) } := by
  have hstamp := landChangedStamp_spec c s.m_curShape s.m_board hwf (s.m_curShape.block c) [] [] hin
  rw [stampCells_nil] at hstamp
  simp only [List.nil_append] at hstamp
  have hB : stampCells ((s.m_curShape.block c).map
      fun off => (off.x + s.m_curShape.x, off.y + s.m_curShape.y)) s.m_curShape.type s.m_board
      = overlay c s.m_board s.m_curShape := rfl
  have hT : (s.m_curShape.block c).map (fun off => off.y + s.m_curShape.y)
      = touchedRows c s.m_curShape := rfl
  rw [hB, hT] at hstamp
  obtain ⟨hpw, hmem⟩ := sorted_unique_spec (touchedRows c s.m_curShape)
  have hwf' : WellFormed c (overlay c s.m_board s.m_curShape) := wellFormed_stampCells c _ _ _ hwf
  have hclear := landChangedClear_spec c
    (unique ((touchedRows c s.m_curShape).insertionSort (· ≤ ·))) []
    (overlay c s.m_board s.m_curShape) 0 (by simpa using hwf'.1) hpw (by
      intro l hl
      have hl' := (hmem l).mp hl
      obtain ⟨off, hoff, rfl⟩ := List.mem_map.mp hl'
      have := hin off hoff
      simp only [List.length_nil, Nat.cast_zero]
      omega)
  obtain ⟨hk1, hk2⟩ := keptRows_congr _ _ hmem 0 (overlay c s.m_board s.m_curShape)
  simp only [List.nil_append, List.length_nil, hk1, hk2, zero_add] at hclear
  unfold landChanged
  rw [hstamp]
  simp only
  rw [hclear]
  simp only
  rw [← score_switch]
  rfl

theorem length_fullRows (T : List Int) (rows : Board) :
    (fullRows T rows).length = fullCount T 0 rows := by
  simp [fullRows, fullCount]

/-! ### Counters at the width of `int` -/

/-- A number that fits is stored as it is. -/
theorem wrapInt_of_inRange (x : Int) (h : InIntRange x) : wrapInt x = x := by
  unfold InIntRange at h
  unfold wrapInt
  omega

/-- What is stored always fits. -/
theorem inIntRange_wrapInt (x : Int) : InIntRange (wrapInt x) := by
  unfold InIntRange wrapInt
  omega

/-- Reducing a summand first does not change the stored sum. -/
theorem wrapInt_add_wrapInt (a b : Int) : wrapInt (a + wrapInt b) = wrapInt (a + b) := by
  unfold wrapInt
  omega

/-- Reducing both summands first does not change the stored sum. -/
theorem wrapInt_wrapInt_add (a b : Int) : wrapInt (wrapInt a + wrapInt b) = wrapInt (a + b) := by
  unfold wrapInt
  omega

/-- A tenth of an `int`, plus one, fits into an `int`. -/
theorem inIntRange_tdiv_succ (x : Int) (h : InIntRange x) : InIntRange (Int.tdiv x 10 + 1) := by
  unfold InIntRange at h ⊢
  rcases lt_or_le x 0 with hneg | hpos
  · have h1 : Int.tdiv x 10 = -(Int.tdiv (-x) 10) := by
      rw [Int.neg_tdiv]
      simp
    rw [h1, Int.tdiv_eq_ediv (by omega) (by decide)]
    omega
  · rw [Int.tdiv_eq_ediv hpos (by decide)]
    omega

/-- The cleared lines after a landing that does not overflow. -/
theorem landedLines_of_inRange (lines : Int) (k : Nat) (h : InIntRange (lines + k)) :
    landedLines lines k = lines + k :=
  wrapInt_of_inRange _ h

/-- The level after a landing whose line count does not overflow. -/
theorem landedLevel_of_inRange (lines : Int) (k : Nat) (h : InIntRange (lines + k)) :
    landedLevel lines k = Int.tdiv (lines + k) 10 + 1 := by
  unfold landedLevel
  rw [landedLines_of_inRange lines k h]
  exact wrapInt_of_inRange _ (inIntRange_tdiv_succ _ h)

/-- The table has entries for one to four rows only. -/
theorem scoreTable_of_not_awarded (k : Nat) (h : ¬ (1 ≤ k ∧ k ≤ 4)) : scoreTable k = 0 := by
  match k with
  | 0 => rfl
  | 1 => exact absurd ⟨by decide, by decide⟩ h
  | 2 => exact absurd ⟨by decide, by decide⟩ h
  | 3 => exact absurd ⟨by decide, by decide⟩ h
  | 4 => exact absurd ⟨by decide, by decide⟩ h
  | n + 5 => simp [scoreTable]

/-- The score after a landing that does not overflow. -/
theorem landedScore_of_inRange (score lines : Int) (k : Nat) (hl : InIntRange (lines + k))
    (hs : InIntRange (score + scoreTable k * (Int.tdiv (lines + k) 10 + 1))) :
    landedScore score lines k = score + scoreTable k * (Int.tdiv (lines + k) 10 + 1) := by
  unfold landedScore
  by_cases hk : 1 ≤ k ∧ k ≤ 4
  · rw [if_pos hk, wrapInt_add_wrapInt, landedLevel_of_inRange lines k hl]
    exact wrapInt_of_inRange _ hs
  · rw [if_neg hk, scoreTable_of_not_awarded k hk]
    simp

/-! ### The landing: board and counters -/

/-- The stamping loop of `landChanged` on a piece inside the grid collects the
touched rows and gives the overlay. -/
theorem landChangedStamp_overlay (c : Params) (s : TetrisCore) (hwf : WellFormed c s.m_board)
    (hin : InBounds c s.m_curShape) :
    landChangedStamp c s.m_curShape (s.m_curShape.block c) ([], s.m_board) =
      some (touchedRows c s.m_curShape, overlay c s.m_board s.m_curShape) := by
  have hstamp := landChangedStamp_spec c s.m_curShape s.m_board hwf (s.m_curShape.block c) [] [] hin
  rw [stampCells_nil] at hstamp
  simp only [List.nil_append] at hstamp
  exact hstamp

/-- The clearing loop of `landChanged` on the overlay: it returns the board of the
closed form and counts one row per full touched row. -/
theorem landChangedClear_overlay (c : Params) (s : TetrisCore) (hwf : WellFormed c s.m_board)
    (hin : InBounds c s.m_curShape) :
    landChangedClear c (unique ((touchedRows c s.m_curShape).insertionSort (· ≤ ·)))
        (overlay c s.m_board s.m_curShape, 0) =
      some (List.replicate
          (fullCount (touchedRows c s.m_curShape) 0 (overlay c s.m_board s.m_curShape))
          (List.replicate c.BoardWidth ShapeType.NoShape)
        ++ keptRows (touchedRows c s.m_curShape) 0 (overlay c s.m_board s.m_curShape),
        ((fullCount (touchedRows c s.m_curShape) 0 (overlay c s.m_board s.m_curShape) : Nat)
          : Int)) := by
  obtain ⟨hpw, hmem⟩ := sorted_unique_spec (touchedRows c s.m_curShape)
  have hwf' : WellFormed c (overlay c s.m_board s.m_curShape) := wellFormed_stampCells c _ _ _ hwf
  have hclear := landChangedClear_spec c
    (unique ((touchedRows c s.m_curShape).insertionSort (· ≤ ·))) []
    (overlay c s.m_board s.m_curShape) 0 (by simpa using hwf'.1) hpw (by
      intro l hl
      have hl' := (hmem l).mp hl
      obtain ⟨off, hoff, rfl⟩ := List.mem_map.mp hl'
      have := hin off hoff
      simp only [List.length_nil, Nat.cast_zero]
      omega)
  obtain ⟨hk1, hk2⟩ := keptRows_congr _ _ hmem 0 (overlay c s.m_board s.m_curShape)
  simp only [List.nil_append, List.length_nil, hk1, hk2, zero_add] at hclear
  exact hclear

/-- Claim C6.  For a board of `BoardHeight` rows of `BoardWidth` cells and a current
piece whose occupied cells are all within bounds, let `B'` be the board with the
cells of the piece set to the kind of the piece (`overlay`, which is what the
stamping loop leaves) and `F` the touched rows without an empty cell in `B'`.
Then `landChanged` returns, the stored board afterwards is `|F|` all-empty rows
followed by the rows of `B'` whose number is not in `F`, in their order, and the
number of rows the clearing loop counts as cleared is `|F|`: every full row
counts once, however many cells of the piece lie in it.  The member
`m_destroedLines` grows by `|F|` at the width of `int`, and by exactly `|F|` when
the sum fits. -/
theorem landChanged_board (c : Params) (s : TetrisCore) (hwf : WellFormed c s.m_board)
    (hin : InBounds c s.m_curShape) :
    ∃ s', landChanged c s = some s' ∧
      landChangedStamp c s.m_curShape (s.m_curShape.block c) ([], s.m_board) =
        some (touchedRows c s.m_curShape, overlay c s.m_board s.m_curShape) ∧
      s'.m_board =
        List.replicate
          (fullRows (touchedRows c s.m_curShape) (overlay c s.m_board s.m_curShape)).length
          (List.replicate c.BoardWidth ShapeType.NoShape)
        ++ keptRows (touchedRows c s.m_curShape) 0 (overlay c s.m_board s.m_curShape) ∧
      landChangedClear c (unique ((touchedRows c s.m_curShape).insertionSort (· ≤ ·)))
          (overlay c s.m_board s.m_curShape, 0) =
        some (s'.m_board,
          (((fullRows (touchedRows c s.m_curShape)
            (overlay c s.m_board s.m_curShape)).length : Nat) : Int)) ∧
      s'.m_destroedLines = wrapInt (s.m_destroedLines
        + (fullRows (touchedRows c s.m_curShape) (overlay c s.m_board s.m_curShape)).length) ∧
      (InIntRange (s.m_destroedLines
          + (fullRows (touchedRows c s.m_curShape) (overlay c s.m_board s.m_curShape)).length) →
        s'.m_destroedLines = s.m_destroedLines
          + (fullRows (touchedRows c s.m_curShape) (overlay c s.m_board s.m_curShape)).length) ∧
      (fullRows (touchedRows c s.m_curShape) (overlay c s.m_board s.m_curShape)).Nodup := by
  refine ⟨_, landChanged_eq c s hwf hin, landChangedStamp_overlay c s hwf hin, ?_, ?_, ?_, ?_, ?_⟩
  · simp only [length_fullRows]
  · simp only [length_fullRows]
    exact landChangedClear_overlay c s hwf hin
  · simp only [length_fullRows]
    rfl
  · intro h
    simp only [length_fullRows] at h ⊢
    exact landedLines_of_inRange _ _ h
  · unfold fullRows
    have hnd : ((overlay c s.m_board s.m_curShape).enumFrom 0).map Prod.fst
        = List.range' 0 (overlay c s.m_board s.m_curShape).length := by
      simp [List.enumFrom_map_fst]
    have h1 : (((overlay c s.m_board s.m_curShape).enumFrom 0).map Prod.fst).Nodup := by
      rw [hnd]
      exact List.nodup_range' 0 _
    have h2 := (List.filter_sublist
      (((overlay c s.m_board s.m_curShape).enumFrom 0))
      (p := fun p => isFullTouched (touchedRows c s.m_curShape) p.1 p.2)).map Prod.fst
    exact h1.sublist h2

/-- An instance of claim C6: the bar completes the bottom row of `almostFullBottom`;
the row is cleared, the board is empty again and one row is counted. -/
theorem landChanged_board_witness :
    WellFormed sampleParams landingEngine.m_board ∧ InBounds sampleParams landingEngine.m_curShape ∧
    fullRows (touchedRows sampleParams landingEngine.m_curShape)
      (overlay sampleParams landingEngine.m_board landingEngine.m_curShape) = [19] ∧
    ∃ s', landChanged sampleParams landingEngine = some s' ∧
      s'.m_board = emptyBoard sampleParams ∧
      landChangedClear sampleParams
          (unique ((touchedRows sampleParams landingEngine.m_curShape).insertionSort (· ≤ ·)))
          (overlay sampleParams landingEngine.m_board landingEngine.m_curShape, 0) =
        some (s'.m_board, 1) ∧
      s'.m_destroedLines = 1 := by
  obtain ⟨s', h1, _, h3, h4, _, h6, _⟩ :=
    landChanged_board sampleParams landingEngine (by decide) (by decide)
  have hF : fullRows (touchedRows sampleParams landingEngine.m_curShape)
      (overlay sampleParams landingEngine.m_board landingEngine.m_curShape) = [19] := by decide
  rw [hF] at h3 h4 h6
  refine ⟨by decide, by decide, hF, s', h1, ?_, h4, ?_⟩
  · rw [h3]
    decide
  · rw [h6 (by decide)]
    decide

/-- Claim C4, amended.  For a landing (`landChanged`) of a piece inside the grid
that clears `k` rows, provided the old `linesCleared` plus `k` and the old score
plus `scoreTable k` times the recomputed level fit into an `int`: `landChanged`
returns, `linesCleared` becomes the old value plus `k`, the level becomes the new
`linesCleared / 10 + 1` by integer division, and for `k` in `{0, 1, 2, 3, 4}` the
score grows by `scoreTable k` times that recomputed level, while for `k > 4` the
score is unchanged.  In particular, with `linesCleared = 0`, level 1 and a score
of at most 2147483597, a landing that completes exactly one row raises the
score by exactly 50, makes `linesCleared` 1 and leaves the level at 1. -/
theorem landChanged_counters (c : Params) (s : TetrisCore) (k : Nat)
    (hwf : WellFormed c s.m_board) (hin : InBounds c s.m_curShape)
    (hk : fullCount (touchedRows c s.m_curShape) 0 (overlay c s.m_board s.m_curShape) = k)
    (hlines : InIntRange (s.m_destroedLines + k))
    (hscore : InIntRange (s.m_score + scoreTable k * (Int.tdiv (s.m_destroedLines + k) 10 + 1))) :
    ∃ s', landChanged c s = some s' ∧
      s'.m_destroedLines = s.m_destroedLines + k ∧
      s'.m_level = Int.tdiv s'.m_destroedLines 10 + 1 ∧
      (k ≤ 4 → s'.m_score = s.m_score + scoreTable k * s'.m_level) ∧
      (4 < k → s'.m_score = s.m_score) ∧
      (s.m_destroedLines = 0 → s.m_level = 1 → k = 1 →
        s'.m_score = s.m_score + 50 ∧ s'.m_destroedLines = 1 ∧ s'.m_level = 1) := by
  have e1 := landedLines_of_inRange s.m_destroedLines k hlines
  have e2 := landedLevel_of_inRange s.m_destroedLines k hlines
  have e3 := landedScore_of_inRange s.m_score s.m_destroedLines k hlines hscore
  refine ⟨_, landChanged_eq c s hwf hin, ?_, ?_, ?_, ?_, ?_⟩
  · simp only [hk, e1]
  · simp only [hk, e1, e2]
  · intro _
    simp only [hk, e2, e3]
  · intro h4
    have ht : scoreTable k = 0 := scoreTable_of_not_awarded k (by omega)
    simp only [hk, e3, ht]
    simp
  · intro h0 _ h1
    subst h1
    rw [h0] at e1 e2 e3
    simp only [hk, h0, e1, e2, e3]
    have h50 : scoreTable 1 * (((0 : Int) + ((1 : Nat) : Int)).tdiv 10 + 1) = 50 := by decide
    exact ⟨by omega, by decide, by decide⟩

/-- An instance of the amended claim C4, the scenario of the specification: empty
board 10 wide and 20 tall but for the bottom row, level 1, no row cleared so
far; the bar completes the bottom row, the score grows by exactly 50,
`linesCleared` becomes 1 and the level stays 1. -/
theorem landChanged_counters_witness :
    landingEngine.m_destroedLines = 0 ∧ landingEngine.m_level = 1 ∧
    ∃ s', landChanged sampleParams landingEngine = some s' ∧
      s'.m_score = landingEngine.m_score + 50 ∧ s'.m_destroedLines = 1 ∧ s'.m_level = 1 := by
  obtain ⟨s', h1, _, _, _, _, h6⟩ :=
    landChanged_counters sampleParams landingEngine 1 (by decide) (by decide) (by decide)
      (by decide) (by decide)
  exact ⟨by decide, by decide, s', h1, h6 (by decide) (by decide) rfl⟩

/-- Claim C5, amended.  For a landing of a piece inside the grid that completes
exactly the rows `R` with `|R|` in `{0, 1, 2, 3, 4}`, provided the old
`linesCleared` plus `|R|` and the old score plus `scoreTable |R|` times the
recomputed level fit into an `int`: `landChanged` returns, `linesCleared` grows
by `|R|`, the level is recomputed as `linesCleared / 10 + 1` from the grown
`linesCleared`, and the score awarded is `scoreTable |R|` times this recomputed
level (so a landing that takes `linesCleared` from 9 to 10 awards 100 and leaves
the level at 2). -/
theorem landChanged_score_at_new_level (c : Params) (s : TetrisCore) (R : List Nat)
    (hwf : WellFormed c s.m_board) (hin : InBounds c s.m_curShape)
    (hR : fullRows (touchedRows c s.m_curShape) (overlay c s.m_board s.m_curShape) = R)
    (_hcard : R.length ≤ 4)
    (hlines : InIntRange (s.m_destroedLines + R.length))
    (hscore : InIntRange (s.m_score
      + scoreTable R.length * (Int.tdiv (s.m_destroedLines + R.length) 10 + 1))) :
    ∃ s', landChanged c s = some s' ∧
      s'.m_destroedLines = s.m_destroedLines + R.length ∧
      s'.m_level = Int.tdiv (s.m_destroedLines + R.length) 10 + 1 ∧
      s'.m_score - s.m_score =
        scoreTable R.length * (Int.tdiv (s.m_destroedLines + R.length) 10 + 1) ∧
      (s.m_destroedLines = 9 → R.length = 1 →
        s'.m_score - s.m_score = 100 ∧ s'.m_destroedLines = 10 ∧ s'.m_level = 2) := by
  have hk : fullCount (touchedRows c s.m_curShape) 0 (overlay c s.m_board s.m_curShape)
      = R.length := by rw [← length_fullRows, hR]
  have e1 := landedLines_of_inRange s.m_destroedLines R.length hlines
  have e2 := landedLevel_of_inRange s.m_destroedLines R.length hlines
  have e3 := landedScore_of_inRange s.m_score s.m_destroedLines R.length hlines hscore
  refine ⟨_, landChanged_eq c s hwf hin, ?_, ?_, ?_, ?_⟩
  · simp only [hk, e1]
  · simp only [hk, e2]
  · simp only [hk, e3]
    omega
  · intro h9 h1
    simp only [hk, e1, e2, e3]
    rw [h9, h1]
    have h100 : scoreTable 1 * (((9 : Int) + ((1 : Nat) : Int)).tdiv 10 + 1) = 100 := by decide
    exact ⟨by omega, by decide, by decide⟩

/-- An instance of the amended claim C5: the landing at `landingEngineNine`. -/
theorem landChanged_score_at_new_level_witness :
    landingEngineNine.m_destroedLines = 9 ∧
    ∃ s', landChanged sampleParams landingEngineNine = some s' ∧
      s'.m_score - landingEngineNine.m_score = 100 ∧ s'.m_destroedLines = 10 ∧
      s'.m_level = 2 := by
  obtain ⟨s', h1, _, _, _, h5⟩ :=
    landChanged_score_at_new_level sampleParams landingEngineNine [19]
      (by decide) (by decide) (by decide) (by decide) (by decide) (by decide)
  exact ⟨by decide, s', h1, h5 (by decide) rfl⟩

/-! ### The gravity tick -/

/-- The guard of `gameStep`: an engine that is not started, or is paused, stays
as it is. -/
theorem gameStep_of_not_running (c : Params) (s : TetrisCore) (kind : ShapeType)
    (h : s.m_isStarted = false ∨ s.m_isPause = true) : gameStep c s kind = some s := by
  rcases h with h | h <;> simp [gameStep, h]

/-- When the piece can fall, `gameStep` is the move one row down. -/
theorem gameStep_of_moved (c : Params) (s : TetrisCore) (kind : ShapeType)
    (hs : s.m_isStarted = true) (hp : s.m_isPause = false)
    (hm : (moveShape c s 0 1 0).1 = true) :
    gameStep c s kind = some (moveShape c s 0 1 0).2 := by
  simp [gameStep, hs, hp, hm]

/-- When the piece cannot fall, `gameStep` lands it and promotes the next piece
or ends the game. -/
theorem gameStep_of_stuck (c : Params) (s s1 : TetrisCore) (kind : ShapeType)
    (hs : s.m_isStarted = true) (hp : s.m_isPause = false)
    (hm : (moveShape c s 0 1 0).1 = false) (hland : landChanged c s = some s1) :
    gameStep c s kind =
      if isValidPosition c s1.m_board
          (s1.m_nextShape.setShapePos
            ⟨Int.tdiv ((c.BoardWidth : Int) - getShapeWidth c s1.m_nextShape) 2 - s1.m_nextShape.x,
              s1.m_nextShape.y⟩) 0 0 then
        some { s1 with
          m_curShape := s1.m_nextShape.setShapePos
            ⟨Int.tdiv ((c.BoardWidth : Int) - getShapeWidth c s1.m_nextShape) 2 - s1.m_nextShape.x,
              s1.m_nextShape.y⟩
          m_nextShape := (s1.m_nextShape.setShapePos
            ⟨Int.tdiv ((c.BoardWidth : Int) - getShapeWidth c s1.m_nextShape) 2 - s1.m_nextShape.x,
              s1.m_nextShape.y⟩).setRandomShape c kind }
      else
        some { s1 with
          m_nextShape := s1.m_nextShape.setShapePos
            ⟨Int.tdiv ((c.BoardWidth : Int) - getShapeWidth c s1.m_nextShape) 2 - s1.m_nextShape.x,
              s1.m_nextShape.y⟩
          m_isStarted := false
          m_isGameOver := true } := by
  have hmv := moveShape_fail_eq c s 0 1 0 hm
  simp only [gameStep, hs, hp, hmv, hland]
  simp

/-- A valid piece of a running engine that is at a legal position one row down
falls by exactly one row, and nothing else changes. -/
theorem gameStep_of_legal (c : Params) (s : TetrisCore) (kind : ShapeType)
    (hs : s.m_isStarted = true) (hp : s.m_isPause = false) (hv : s.m_curShape.isValid = true)
    (hl : isValidPosition c s.m_board s.m_curShape 0 1 = true) :
    gameStep c s kind =
      some { s with
        m_curShape := { s.m_curShape with
          m_pos := ⟨s.m_curShape.x, s.m_curShape.y + 1⟩ } } := by
  have hl' : isValidPosition c s.m_board (s.m_curShape.rotate 0) 0 1 = true := by
    rw [Shape.rotate_zero]
    exact hl
  have hmv := moveShape_of_legal c s 0 1 0 hs hp hv hl'
  rw [gameStep_of_moved c s kind hs hp (by rw [hmv]), hmv]
  simp [Shape.rotate_zero]

/-- The landing tick at a piece inside the grid, on a board of `BoardHeight` rows
of `BoardWidth` cells, with the game-over flag not set: `landChanged` returns, the
next piece is re-positioned, and the engine is over if that position is illegal
and goes on with the re-positioned piece otherwise. -/
theorem gameStep_lands_of_inBounds (c : Params) (s : TetrisCore) (kind : ShapeType)
    (hwf : WellFormed c s.m_board) (hin : InBounds c s.m_curShape)
    (hs : s.m_isStarted = true) (hp : s.m_isPause = false) (hgo : s.m_isGameOver = false)
    (hstuck : (moveShape c s 0 1 0).1 = false) :
    ∃ s1 : TetrisCore, landChanged c s = some s1 ∧ s1.m_nextShape = s.m_nextShape ∧
      (isValidPosition c s1.m_board
          { s.m_nextShape with
            m_pos := ⟨Int.tdiv ((c.BoardWidth : Int) - getShapeWidth c s.m_nextShape) 2
              - s.m_nextShape.x, s.m_nextShape.y⟩ } 0 0 = false →
        gameStep c s kind = some { s1 with
          m_nextShape := { s.m_nextShape with
            m_pos := ⟨Int.tdiv ((c.BoardWidth : Int) - getShapeWidth c s.m_nextShape) 2
              - s.m_nextShape.x, s.m_nextShape.y⟩ }
          m_isStarted := false
          m_isGameOver := true }) ∧
      (isValidPosition c s1.m_board
          { s.m_nextShape with
            m_pos := ⟨Int.tdiv ((c.BoardWidth : Int) - getShapeWidth c s.m_nextShape) 2
              - s.m_nextShape.x, s.m_nextShape.y⟩ } 0 0 = true →
        gameStep c s kind = some { s1 with
          m_curShape := { s.m_nextShape with
            m_pos := ⟨Int.tdiv ((c.BoardWidth : Int) - getShapeWidth c s.m_nextShape) 2
              - s.m_nextShape.x, s.m_nextShape.y⟩ }
          m_nextShape := Shape.setRandomShape c { s.m_nextShape with
            m_pos := ⟨Int.tdiv ((c.BoardWidth : Int) - getShapeWidth c s.m_nextShape) 2
              - s.m_nextShape.x, s.m_nextShape.y⟩ } kind
          m_isStarted := true
          m_isGameOver := false }) := by
  have hland := landChanged_eq c s hwf hin
  refine ⟨_, hland, rfl, fun hv => ?_, fun hv => ?_⟩
  · rw [gameStep_of_stuck c s _ kind hs hp hstuck hland]
    simp only [Shape.setShapePos] at hv ⊢
    rw [if_neg (by simp [hv])]
  · rw [gameStep_of_stuck c s _ kind hs hp hstuck hland]
    simp only [Shape.setShapePos] at hv ⊢
    rw [if_pos hv]
    simp [hs, hgo]

/-! ### The drop helper -/

/-- Claim C10.  `fastForward` leaves the state unchanged if `gameOver` is set;
otherwise it attempts `moveShape(0, 1, 0)`, and if that move fails the state is
unchanged, so a resting piece is not landed; if the move succeeds the final
state is `gameStep` applied to the state after that move. -/
theorem fastForward_spec (c : Params) (s : TetrisCore) (kind : ShapeType) :
    (s.m_isGameOver = true → fastForward c s kind = some s) ∧
    (s.m_isGameOver = false → (moveShape c s 0 1 0).1 = false →
      fastForward c s kind = some s) ∧
    (s.m_isGameOver = false → (moveShape c s 0 1 0).1 = true →
      fastForward c s kind = gameStep c (moveShape c s 0 1 0).2 kind) := by
  refine ⟨fun hgo => ?_, fun hgo hm => ?_, fun hgo hm => ?_⟩
  · simp [fastForward, hgo]
  · have hmv := moveShape_fail_eq c s 0 1 0 hm
    simp [fastForward, hgo, hmv]
  · simp [fastForward, hgo, hm]

/-- Two instances of claim C10: the bar of `landingEngine` rests on the floor, so
`fastForward` leaves the engine as it is, the bar not landed; the bar of
`sampleEngine` is free, so `fastForward` is the move followed by `gameStep`, two
rows down in all. -/
theorem fastForward_spec_witness :
    fastForward sampleParams landingEngine (ShapeType.piece 1) = some landingEngine ∧
    fastForward sampleParams sampleEngine (ShapeType.piece 1) =
      some { sampleEngine with
        m_curShape := { m_type := ShapeType.piece 1, m_rotate := 0, m_pos := ⟨0, 2⟩ } } :=
  ⟨(fastForward_spec sampleParams landingEngine (ShapeType.piece 1)).2.1 (by decide) (by decide),
    ((fastForward_spec sampleParams sampleEngine (ShapeType.piece 1)).2.2
      (by decide) (by decide)).trans (by decide)⟩

/-! ### Clearing the board -/

theorem modifyAt_none {α : Type} (f : α → α) (b : List α) (i : Nat) (h : b[i]? = none) :
    modifyAt f b i = b := by
  simp [modifyAt, h]

theorem modifyAt_some {α : Type} (f : α → α) (b : List α) (i : Nat) (x : α)
    (h : b[i]? = some x) : modifyAt f b i = b.set i (f x) := by
  simp [modifyAt, h]

/-- Writing the places `0 .. n - 1` of a list one after the other, each with `f` of
its old content, changes exactly these places. -/
theorem getElem?_foldl_modifyAt {α : Type} (f : α → α) (n : Nat) (l : List α) (k : Nat) :
    ((List.range n).foldl (modifyAt f) l)[k]? = if k < n then (l[k]?).map f else l[k]? := by
  induction n generalizing k with
  | zero => simp
  | succ n ih =>
    rw [List.range_succ, List.foldl_append]
    simp only [List.foldl_cons, List.foldl_nil]
    have hn := ih n
    simp only [Nat.lt_irrefl, if_false] at hn
    cases hL : ((List.range n).foldl (modifyAt f) l)[n]? with
    | none =>
      rw [modifyAt_none f _ _ hL, ih k]
      by_cases hk : k = n
      · subst hk
        rw [hL] at hn
        simp [← hn]
      · by_cases hkn : k < n
        · simp [hkn, show k < n + 1 by omega]
        · simp [hkn, show ¬ k < n + 1 by omega]
    | some x =>
      rw [modifyAt_some f _ _ x hL, List.getElem?_set]
      have hlen : n < ((List.range n).foldl (modifyAt f) l).length := by
        by_contra hcon
        rw [List.getElem?_eq_none (by omega)] at hL
        exact absurd hL (by simp)
      by_cases hk : n = k
      · subst hk
        rw [hL] at hn
        simp [hlen, ← hn]
      · simp only [hk, if_false]
        rw [ih k]
        by_cases hkn : k < n
        · simp [hkn, show k < n + 1 by omega]
        · simp [hkn, show ¬ k < n + 1 by omega]

/-- A row of `BoardWidth` cells is all-empty after `clearBoardLine`. -/
theorem clearBoardLine_eq (c : Params) (row : BoardLine) (h : row.length = c.BoardWidth) :
    clearBoardLine c row = List.replicate c.BoardWidth ShapeType.NoShape := by
  have hfun : (fun (r : BoardLine) (j : Nat) => r.set j ShapeType.NoShape) =
      modifyAt (fun _ => ShapeType.NoShape) := by
    funext b i
    unfold modifyAt
    cases hb : b[i]? with
    | none =>
      simp only
      exact List.set_eq_of_length_le (List.getElem?_eq_none_iff.mp hb)
    | some x => rfl
  apply List.ext_getElem?
  intro k
  unfold clearBoardLine
  rw [hfun, getElem?_foldl_modifyAt, List.getElem?_replicate]
  by_cases hk : k < c.BoardWidth
  · simp [hk, List.getElem?_eq_getElem (show k < row.length by omega)]
  · simp [hk, List.getElem?_eq_none (show row.length ≤ k by omega)]

/-- A board of `BoardHeight` rows of `BoardWidth` cells is all-empty after
`clearBoard`. -/
theorem clearBoard_eq (c : Params) (b : Board) (hwf : WellFormed c b) :
    clearBoard c b = emptyBoard c := by
  apply List.ext_getElem?
  intro k
  unfold clearBoard emptyBoard
  rw [getElem?_foldl_modifyAt, List.getElem?_replicate]
  by_cases hk : k < c.BoardHeight
  · have hkb : k < b.length := by rw [hwf.1]; exact hk
    simp [hk, List.getElem?_eq_getElem hkb, clearBoardLine_eq c _ (hwf.2 _ (List.getElem_mem hkb))]
  · simp [hk, List.getElem?_eq_none (show b.length ≤ k by rw [hwf.1]; omega)]

/-- The empty board has `BoardHeight` rows of `BoardWidth` cells. -/
theorem wellFormed_emptyBoard (c : Params) : WellFormed c (emptyBoard c) := by
  refine ⟨by simp [emptyBoard], fun row hrow => ?_⟩
  have := List.eq_of_mem_replicate hrow
  simp [this]

/-- Every cell the empty board has is empty. -/
theorem cellAt_emptyBoard (c : Params) (x y : Nat) (hx : x < c.BoardWidth)
    (hy : y < c.BoardHeight) : cellAt (emptyBoard c) x y = some ShapeType.NoShape := by
  simp [cellAt, emptyBoard, List.getElem?_replicate, hx, hy]

/-- Every cell of the empty board is empty. -/
theorem emptyBoard_all_empty (c : Params) :
    ∀ row ∈ emptyBoard c, ∀ cell ∈ row, cell = ShapeType.NoShape := by
  intro row hrow cell hcell
  have h1 := List.eq_of_mem_replicate hrow
  rw [h1] at hcell
  exact List.eq_of_mem_replicate hcell

/-! ### Start and stop -/

/-- Claim C11.  For an engine with `started = false` and a board of `BoardHeight`
rows of `BoardWidth` cells, after `start()` with kinds drawn from the kind set
(not "none"): level is 1, score 0, `linesCleared` 0, `started` true, `paused` false,
`gameOver` false, every board cell is empty, and the current and the next piece
are both valid.  For an engine with `started = true`, `start()` leaves the whole
state unchanged. -/
theorem start_spec (c : Params) (s : TetrisCore) (curKind nextKind : ShapeType)
    (hwf : WellFormed c s.m_board)
    (hcur : curKind ≠ ShapeType.NoShape) (hnext : nextKind ≠ ShapeType.NoShape) :
    (s.m_isStarted = false →
      (start c s curKind nextKind).m_level = 1 ∧
      (start c s curKind nextKind).m_score = 0 ∧
      (start c s curKind nextKind).m_destroedLines = 0 ∧
      (start c s curKind nextKind).m_isStarted = true ∧
      (start c s curKind nextKind).m_isPause = false ∧
      (start c s curKind nextKind).m_isGameOver = false ∧
      WellFormed c (start c s curKind nextKind).m_board ∧
      (∀ row ∈ (start c s curKind nextKind).m_board, ∀ cell ∈ row, cell = ShapeType.NoShape) ∧
      (start c s curKind nextKind).m_curShape.isValid = true ∧
      (start c s curKind nextKind).m_nextShape.isValid = true) ∧
    (s.m_isStarted = true → start c s curKind nextKind = s) := by
  refine ⟨fun hst => ?_, fun hst => by simp [start, hst]⟩
  have hb : (start c s curKind nextKind).m_board = emptyBoard c := by
    simp [start, hst, clearBoard_eq c s.m_board hwf]
  refine ⟨by simp [start, hst], by simp [start, hst], by simp [start, hst], by simp [start, hst],
    by simp [start, hst], by simp [start, hst], ?_, ?_, ?_, ?_⟩
  · rw [hb]
    exact wellFormed_emptyBoard c
  · rw [hb]
    exact emptyBoard_all_empty c
  · simp [start, hst, Shape.isValid, Shape.setShapePos, Shape.setRandomShape, hcur]
  · simp [start, hst, Shape.isValid, Shape.setRandomShape, hnext]

/-- Two instances of claim C11: the constructed sample engine is started with the
bar and the square; the bar is centred at column 3.  Starting the running sample
engine changes nothing. -/
theorem start_spec_witness :
    start sampleParams idleEngine (ShapeType.piece 1) (ShapeType.piece 2) =
      { sampleEngine with
        m_curShape := { m_type := ShapeType.piece 1, m_rotate := 0, m_pos := ⟨3, 0⟩ } } ∧
    (start sampleParams idleEngine (ShapeType.piece 1) (ShapeType.piece 2)).m_level = 1 ∧
    start sampleParams sampleEngine (ShapeType.piece 2) (ShapeType.piece 2) = sampleEngine :=
  ⟨by decide,
    ((start_spec sampleParams idleEngine (ShapeType.piece 1) (ShapeType.piece 2)
      (by decide) (by decide) (by decide)).1 (by decide)).1,
    (start_spec sampleParams sampleEngine (ShapeType.piece 2) (ShapeType.piece 2)
      (by decide) (by decide) (by decide)).2 (by decide)⟩

/-- Claim C12.  For every engine with a board of `BoardHeight` rows of `BoardWidth`
cells, after `stop()`: every board cell is empty, level, score and
`linesCleared` are 0, `started`, `paused` and `gameOver` are false, and both the
current and the next piece have kind "none" (are invalid). -/
theorem stop_spec (c : Params) (s : TetrisCore) (hwf : WellFormed c s.m_board) :
    WellFormed c (stop c s).m_board ∧
    (∀ row ∈ (stop c s).m_board, ∀ cell ∈ row, cell = ShapeType.NoShape) ∧
    (stop c s).m_level = 0 ∧ (stop c s).m_score = 0 ∧ (stop c s).m_destroedLines = 0 ∧
    (stop c s).m_isStarted = false ∧ (stop c s).m_isPause = false ∧
    (stop c s).m_isGameOver = false ∧
    (stop c s).m_curShape.m_type = ShapeType.NoShape ∧
    (stop c s).m_nextShape.m_type = ShapeType.NoShape ∧
    (stop c s).m_curShape.isValid = false ∧ (stop c s).m_nextShape.isValid = false := by
  have hb : (stop c s).m_board = emptyBoard c := by
    simp [stop, clearBoard_eq c s.m_board hwf]
  refine ⟨?_, ?_, rfl, rfl, rfl, rfl, rfl, rfl, rfl, rfl, ?_, ?_⟩
  · rw [hb]
    exact wellFormed_emptyBoard c
  · rw [hb]
    exact emptyBoard_all_empty c
  · simp [stop, Shape.isValid, Shape.setShape]
  · simp [stop, Shape.isValid, Shape.setShape]

/-- An instance of claim C12: stopping the sample engine that is about to land
gives the empty board and two pieces of kind "none". -/
theorem stop_spec_witness :
    (stop sampleParams landingEngine).m_board = emptyBoard sampleParams ∧
    (stop sampleParams landingEngine).m_curShape.m_type = ShapeType.NoShape ∧
    (stop sampleParams landingEngine).m_nextShape.m_type = ShapeType.NoShape ∧
    WellFormed sampleParams (stop sampleParams landingEngine).m_board :=
  ⟨by decide, by decide, by decide, (stop_spec sampleParams landingEngine (by decide)).1⟩

/-! ### The width of a piece -/

/-- The two accumulators of `getShapeWidth` after the loop: bounds of all
offsets visited, each either its start value or the `x` of an offset. -/
theorem foldl_minmax (cells : List Position) (a b : Int) :
    (cells.foldl (fun (acc : Int × Int) (pos : Position) =>
        (min pos.x acc.1, max pos.x acc.2)) (a, b)).1 ≤ a ∧
    b ≤ (cells.foldl (fun (acc : Int × Int) (pos : Position) =>
        (min pos.x acc.1, max pos.x acc.2)) (a, b)).2 ∧
    (∀ p ∈ cells,
      (cells.foldl (fun (acc : Int × Int) (pos : Position) =>
        (min pos.x acc.1, max pos.x acc.2)) (a, b)).1 ≤ p.x ∧
      p.x ≤ (cells.foldl (fun (acc : Int × Int) (pos : Position) =>
        (min pos.x acc.1, max pos.x acc.2)) (a, b)).2) ∧
    ((cells.foldl (fun (acc : Int × Int) (pos : Position) =>
        (min pos.x acc.1, max pos.x acc.2)) (a, b)).1 = a ∨
      ∃ p ∈ cells, (cells.foldl (fun (acc : Int × Int) (pos : Position) =>
        (min pos.x acc.1, max pos.x acc.2)) (a, b)).1 = p.x) ∧
    ((cells.foldl (fun (acc : Int × Int) (pos : Position) =>
        (min pos.x acc.1, max pos.x acc.2)) (a, b)).2 = b ∨
      ∃ p ∈ cells, (cells.foldl (fun (acc : Int × Int) (pos : Position) =>
        (min pos.x acc.1, max pos.x acc.2)) (a, b)).2 = p.x) := by
  induction cells generalizing a b with
  | nil => simp
  | cons q rest ih =>
    simp only [List.foldl_cons]
    obtain ⟨h1, h2, h3, h4, h5⟩ := ih (min q.x a) (max q.x b)
    have ha1 : min q.x a ≤ a := min_le_right _ _
    have ha2 : min q.x a ≤ q.x := min_le_left _ _
    have hb1 : b ≤ max q.x b := le_max_right _ _
    have hb2 : q.x ≤ max q.x b := le_max_left _ _
    refine ⟨le_trans h1 ha1, le_trans hb1 h2, ?_, ?_, ?_⟩
    · intro p hp
      rcases List.mem_cons.mp hp with h | h
      · subst h
        exact ⟨le_trans h1 ha2, le_trans hb2 h2⟩
      · exact h3 p h
    · rcases h4 with h | ⟨p, hp, h⟩
      · rcases min_choice q.x a with hm | hm
        · exact Or.inr ⟨q, List.mem_cons_self _ _, by rw [h, hm]⟩
        · exact Or.inl (by rw [h, hm])
      · exact Or.inr ⟨p, List.mem_cons_of_mem _ hp, h⟩
    · rcases h5 with h | ⟨p, hp, h⟩
      · rcases max_choice q.x b with hm | hm
        · exact Or.inr ⟨q, List.mem_cons_self _ _, by rw [h, hm]⟩
        · exact Or.inl (by rw [h, hm])
      · exact Or.inr ⟨p, List.mem_cons_of_mem _ hp, h⟩

/-- A non-empty list of offsets has a leftmost and a rightmost offset. -/
theorem exists_leftmost_rightmost (cells : List Position) (hne : cells ≠ []) :
    ∃ lo ∈ cells, ∃ hi ∈ cells, ∀ p ∈ cells, lo.x ≤ p.x ∧ p.x ≤ hi.x := by
  induction cells with
  | nil => exact absurd rfl hne
  | cons q rest ih =>
    by_cases hrest : rest = []
    · subst hrest
      exact ⟨q, List.mem_cons_self _ _, q, List.mem_cons_self _ _, fun p hp => by
        rw [List.mem_singleton.mp hp]
        exact ⟨le_refl _, le_refl _⟩⟩
    · obtain ⟨lo, hlo, hi, hhi, hall⟩ := ih hrest
      refine ⟨if q.x ≤ lo.x then q else lo, ?_, if hi.x ≤ q.x then q else hi, ?_, ?_⟩
      · split
        · exact List.mem_cons_self _ _
        · exact List.mem_cons_of_mem _ hlo
      · split
        · exact List.mem_cons_self _ _
        · exact List.mem_cons_of_mem _ hhi
      · intro p hp
        rcases List.mem_cons.mp hp with h | h
        · subst h
          constructor
          · split <;> omega
          · split <;> omega
        · have := hall p h
          constructor
          · split <;> omega
          · split <;> omega

/-- The loop of `getShapeWidth` with its initial values 4 and 0: for a piece with
a non-empty list of offsets, leftmost offset `lo` and rightmost offset `hi`, the
result is `max(0, hi.x) - min(4, lo.x) + 1`. -/
theorem getShapeWidth_eq (c : Params) (shape : Shape) (hne : shape.block c ≠ []) :
    ∃ lo ∈ shape.block c, ∃ hi ∈ shape.block c,
      (∀ p ∈ shape.block c, lo.x ≤ p.x ∧ p.x ≤ hi.x) ∧
      getShapeWidth c shape = max 0 hi.x - min 4 lo.x + 1 ∧
      (lo.x ≤ 4 → 0 ≤ hi.x → getShapeWidth c shape = hi.x - lo.x + 1) := by
  obtain ⟨lo, hlo, hi, hhi, hall⟩ := exists_leftmost_rightmost (shape.block c) hne
  obtain ⟨h1, h2, h3, h4, h5⟩ := foldl_minmax (shape.block c) 4 0
  have hmin : ((shape.block c).foldl (fun (acc : Int × Int) (pos : Position) =>
      (min pos.x acc.1, max pos.x acc.2)) (4, 0)).1 = min 4 lo.x := by
    have hl := (h3 lo hlo).1
    rcases h4 with h | ⟨p, hp, h⟩
    · rw [h] at hl ⊢
      exact (min_eq_left hl).symm
    · have hp' := (hall p hp).1
      have : lo.x ≤ 4 := by omega
      rw [min_eq_right this]
      omega
  have hmax : ((shape.block c).foldl (fun (acc : Int × Int) (pos : Position) =>
      (min pos.x acc.1, max pos.x acc.2)) (4, 0)).2 = max 0 hi.x := by
    have hl := (h3 hi hhi).2
    rcases h5 with h | ⟨p, hp, h⟩
    · rw [h] at hl ⊢
      exact (max_eq_left hl).symm
    · have hp' := (hall p hp).2
      have : 0 ≤ hi.x := by omega
      rw [max_eq_right this]
      omega
  have hw : getShapeWidth c shape = max 0 hi.x - min 4 lo.x + 1 := by
    unfold getShapeWidth
    simp only [hmin, hmax]
  refine ⟨lo, hlo, hi, hhi, hall, hw, fun h4' h0 => ?_⟩
  rw [hw, max_eq_right h0, min_eq_right h4']

/-- Claim C14.  For every piece with a non-empty list of occupied relative
offsets, all of them in the columns 0 to 4 of the box the pieces are drawn in
(the box the initial values 4 and 0 of the loop stand for): `getShapeWidth`
returns the maximum relative x minus the minimum relative x plus one, taken over
those offsets. -/
theorem getShapeWidth_spec (c : Params) (shape : Shape) (hne : shape.block c ≠ [])
    (hbox : ∀ p ∈ shape.block c, 0 ≤ p.x ∧ p.x ≤ 4) :
    ∃ lo ∈ shape.block c, ∃ hi ∈ shape.block c,
      (∀ p ∈ shape.block c, lo.x ≤ p.x ∧ p.x ≤ hi.x) ∧
      getShapeWidth c shape = hi.x - lo.x + 1 := by
  obtain ⟨lo, hlo, hi, hhi, hall, _, hw⟩ := getShapeWidth_eq c shape hne
  exact ⟨lo, hlo, hi, hhi, hall, hw (hbox lo hlo).2 (hbox hi hhi).1⟩

/-- Two instances of claim C14: the flat bar occupies the relative columns 0 to 3
and is 4 wide, the square occupies the relative columns 0 and 1 and is 2
wide. -/
theorem getShapeWidth_spec_witness :
    (bar 0 0).block sampleParams = [⟨0, 0⟩, ⟨1, 0⟩, ⟨2, 0⟩, ⟨3, 0⟩] ∧
    getShapeWidth sampleParams (bar 0 0) = 4 ∧
    getShapeWidth sampleParams (square 0 0) = 2 ∧
    (∃ lo ∈ (bar 0 0).block sampleParams, ∃ hi ∈ (bar 0 0).block sampleParams,
      (∀ p ∈ (bar 0 0).block sampleParams, lo.x ≤ p.x ∧ p.x ≤ hi.x) ∧
      getShapeWidth sampleParams (bar 0 0) = hi.x - lo.x + 1) ∧
    (∃ lo ∈ (square 0 0).block sampleParams, ∃ hi ∈ (square 0 0).block sampleParams,
      (∀ p ∈ (square 0 0).block sampleParams, lo.x ≤ p.x ∧ p.x ≤ hi.x) ∧
      getShapeWidth sampleParams (square 0 0) = hi.x - lo.x + 1) :=
  ⟨by decide, by decide, by decide,
    getShapeWidth_spec sampleParams (bar 0 0) (by decide) (by decide),
    getShapeWidth_spec sampleParams (square 0 0) (by decide) (by decide)⟩

/-! ### The timer -/

/-- From level 1 on, `timerDelay` is the floor of `100 + 900 * (3/4) ^ (level - 1)`
with a natural exponent. -/
theorem timerDelay_eq_floor (s : TetrisCore) (h : 1 ≤ s.m_level) :
    timerDelay s = ⌊(100 + 900 * (3 / 4 : ℚ) ^ (s.m_level - 1).toNat : ℚ)⌋ := by
  have hexp : (s.m_level - 1 : Int) = (((s.m_level - 1).toNat : Nat) : Int) := by omega
  have hpow : (3 / 4 : ℚ) ^ (s.m_level - 1) = (3 / 4 : ℚ) ^ (s.m_level - 1).toNat := by
    conv_lhs => rw [hexp]
    exact zpow_natCast _ _
  have hnn : (0 : ℚ) ≤ 100 + 900 * (3 / 4 : ℚ) ^ (s.m_level - 1).toNat := by positivity
  unfold timerDelay truncToInt
  rw [hpow, if_pos hnn]

/-- Claim C15.  With the power computed in exact rational arithmetic and the
result truncated to an integer, `timerDelay()` is the integer part of
`100 + 900 * (3/4) ^ (level - 1)` for every level from 1 on; it is exactly 1000 at
level 1, it is at least 100 for every level from 1 on, and it is non-increasing
in the level from 1 on. -/
theorem timerDelay_spec :
    (∀ s : TetrisCore, 1 ≤ s.m_level →
      timerDelay s = ⌊(100 + 900 * (3 / 4 : ℚ) ^ (s.m_level - 1).toNat : ℚ)⌋) ∧
    (∀ s : TetrisCore, s.m_level = 1 → timerDelay s = 1000) ∧
    (∀ s : TetrisCore, 1 ≤ s.m_level → 100 ≤ timerDelay s) ∧
    (∀ s1 s2 : TetrisCore, 1 ≤ s1.m_level → s1.m_level ≤ s2.m_level →
      timerDelay s2 ≤ timerDelay s1) := by
  refine ⟨timerDelay_eq_floor, fun s h1 => ?_, fun s h1 => ?_, fun s1 s2 h1 h12 => ?_⟩
  · rw [timerDelay_eq_floor s (by omega), h1]
    norm_num
  · rw [timerDelay_eq_floor s h1, Int.le_floor]
    have : (0 : ℚ) ≤ 900 * (3 / 4 : ℚ) ^ (s.m_level - 1).toNat := by positivity
    push_cast
    linarith
  · rw [timerDelay_eq_floor s1 h1, timerDelay_eq_floor s2 (by omega)]
    apply Int.floor_le_floor
    have hle : (s1.m_level - 1).toNat ≤ (s2.m_level - 1).toNat := by omega
    have hp : (3 / 4 : ℚ) ^ (s2.m_level - 1).toNat ≤ (3 / 4 : ℚ) ^ (s1.m_level - 1).toNat :=
      pow_le_pow_of_le_one (by norm_num) (by norm_num) hle
    linarith

/-- Instances of claim C15: the delay is 1000 at level 1, 775 at level 2 and 606
at level 3. -/
theorem timerDelay_spec_witness :
    timerDelay sampleEngine = 1000 ∧
    timerDelay { sampleEngine with m_level := 2 } = 775 ∧
    timerDelay { sampleEngine with m_level := 3 } = 606 := by
  refine ⟨timerDelay_spec.2.1 sampleEngine rfl, ?_, ?_⟩
  · rw [timerDelay_spec.1 _ (by decide)]
    norm_num [Int.floor_eq_iff]
  · rw [timerDelay_spec.1 _ (by decide)]
    have h2 : ((3 : Int) - 1).toNat = 2 := by decide
    simp only [h2]
    norm_num [Int.floor_eq_iff]

/-! ### The comparison of boards -/

theorem eqCellsLoop_iff (l r : BoardLine) (xs : List Nat) :
    eqCellsLoop l r xs = true ↔ ∀ x ∈ xs, l[x]? = r[x]? := by
  induction xs with
  | nil => simp [eqCellsLoop]
  | cons x rest ih =>
    simp only [eqCellsLoop, List.forall_mem_cons, ← ih]
    by_cases h : l[x]? = r[x]?
    · simp [h]
    · simp [h]

theorem eqRowsLoop_iff (left right : Board) (width : Nat) (ys : List Nat) :
    eqRowsLoop left right width ys = true ↔
      ∀ y ∈ ys, (left[y]?.getD []).length = width ∧ (right[y]?.getD []).length = width ∧
        ∀ x < width, (left[y]?.getD [])[x]? = (right[y]?.getD [])[x]? := by
  induction ys with
  | nil => simp [eqRowsLoop]
  | cons y rest ih =>
    simp only [eqRowsLoop, List.forall_mem_cons, ← ih]
    by_cases h1 : (left[y]?.getD []).length = width
    · by_cases h2 : (right[y]?.getD []).length = width
      · cases h3 : eqCellsLoop (left[y]?.getD []) (right[y]?.getD []) (List.range width) with
        | true =>
          have h3' := (eqCellsLoop_iff _ _ _).mp h3
          simp only [List.mem_range] at h3'
          simp [h1, h2]
          exact fun _ => h3'
        | false =>
          have h3' : ¬ ∀ x < width, (left[y]?.getD [])[x]? = (right[y]?.getD [])[x]? := by
            intro hall
            have := (eqCellsLoop_iff _ _ (List.range width)).mpr (by
              intro x hx
              exact hall x (List.mem_range.mp hx))
            rw [h3] at this
            exact absurd this (by simp)
          simp [h1, h2, h3']
      · simp [h1, h2]
    · simp [h1]

/-- Claim C20.  `operator==` returns true if and only if both boards have at least
one row, they have the same number of rows, every row of `left` and every row of
`right` has the length of the first row of `left`, and all corresponding cells
carry the same tag; `operator!=` is its exact negation.  Consequently `==`
coincides with equality on non-empty rectangular boards, and an empty board
compares unequal to every board, itself included. -/
theorem boardEq_spec :
    (∀ left right : Board, boardEq left right = true ↔
      (left ≠ [] ∧ right ≠ [] ∧ left.length = right.length ∧
        (∀ row ∈ left, row.length = (left.headD []).length) ∧
        (∀ row ∈ right, row.length = (left.headD []).length) ∧
        ∀ x y : Nat, y < left.length → x < (left.headD []).length →
          cellAt left x y = cellAt right x y)) ∧
    (∀ left right : Board, boardNe left right = !boardEq left right) ∧
    (∀ (left right : Board) (wl wr : Nat), left ≠ [] → right ≠ [] →
      (∀ row ∈ left, row.length = wl) → (∀ row ∈ right, row.length = wr) →
      (boardEq left right = true ↔ left = right)) ∧
    (∀ b : Board, boardEq [] b = false ∧ boardEq b [] = false ∧
      boardNe [] b = true ∧ boardNe b [] = true) := by
  have hiff : ∀ left right : Board, boardEq left right = true ↔
      (left ≠ [] ∧ right ≠ [] ∧ left.length = right.length ∧
        (∀ row ∈ left, row.length = (left.headD []).length) ∧
        (∀ row ∈ right, row.length = (left.headD []).length) ∧
        ∀ x y : Nat, y < left.length → x < (left.headD []).length →
          cellAt left x y = cellAt right x y) := by
    intro left right
    by_cases hl : left = []
    · subst hl
      simp [boardEq]
    by_cases hr : right = []
    · subst hr
      simp [boardEq]
    have hl0 : left.length ≠ 0 := fun h => hl (List.length_eq_zero.mp h)
    have hr0 : right.length ≠ 0 := fun h => hr (List.length_eq_zero.mp h)
    by_cases hlen : left.length = right.length
    · have hb : boardEq left right =
          eqRowsLoop left right (left.headD []).length (List.range left.length) := by
        simp [boardEq, hl0, hr0, hlen]
      rw [hb, eqRowsLoop_iff]
      simp only [List.mem_range]
      constructor
      · intro h
        refine ⟨hl, hr, hlen, ?_, ?_, ?_⟩
        · intro row hrow
          obtain ⟨y, hy, rfl⟩ := List.getElem_of_mem hrow
          have := (h y hy).1
          simpa [List.getElem?_eq_getElem hy] using this
        · intro row hrow
          obtain ⟨y, hy, rfl⟩ := List.getElem_of_mem hrow
          have := (h y (by omega)).2.1
          simpa [List.getElem?_eq_getElem hy] using this
        · intro x y hy hx
          have hy' : y < right.length := by omega
          have := (h y hy).2.2 x hx
          simpa [cellAt, List.getElem?_eq_getElem hy, List.getElem?_eq_getElem hy'] using this
      · rintro ⟨_, _, _, h1, h2, h3⟩ y hy
        have hy' : y < right.length := by omega
        refine ⟨?_, ?_, fun x hx => ?_⟩
        · simpa [List.getElem?_eq_getElem hy] using h1 _ (List.getElem_mem hy)
        · simpa [List.getElem?_eq_getElem hy'] using h2 _ (List.getElem_mem hy')
        · have := h3 x y hy hx
          simpa [cellAt, List.getElem?_eq_getElem hy, List.getElem?_eq_getElem hy'] using this
    · have hb : boardEq left right = false := by
        simp [boardEq, hl0, hr0, hlen]
      rw [hb]
      constructor
      · intro h
        exact absurd h (by simp)
      · rintro ⟨_, _, h, _⟩
        exact absurd h hlen
  refine ⟨hiff, fun _ _ => rfl, ?_, ?_⟩
  · intro left right wl wr hl hr hwl hwr
    rw [hiff]
    constructor
    · rintro ⟨_, _, hlen, h1, h2, h3⟩
      apply List.ext_getElem hlen
      intro y hy hy'
      have e1 : left[y].length = (left.headD []).length := h1 _ (List.getElem_mem hy)
      have e2 : right[y].length = (left.headD []).length := h2 _ (List.getElem_mem hy')
      apply List.ext_getElem (by rw [e1, e2])
      intro x hx hx'
      have := h3 x y hy (by omega)
      simpa [cellAt, List.getElem?_eq_getElem hy, List.getElem?_eq_getElem hy',
        List.getElem?_eq_getElem hx, List.getElem?_eq_getElem hx'] using this
    · intro heq
      subst heq
      have hhead : (left.headD []).length = wl := by
        cases left with
        | nil => exact absurd rfl hl
        | cons r rs => exact hwl r (List.mem_cons_self _ _)
      exact ⟨hl, hl, rfl, fun row hrow => by rw [hhead]; exact hwl row hrow,
        fun row hrow => by rw [hhead]; exact hwl row hrow, fun _ _ _ _ => rfl⟩
  · intro b
    have h1 : boardEq [] b = false := by simp [boardEq]
    have h2 : boardEq b [] = false := by simp [boardEq]
    exact ⟨h1, h2, by simp [boardNe, h1], by simp [boardNe, h2]⟩

/-- Instances of claim C20: the sample boards compare equal to themselves and
unequal to each other, and the board without rows compares unequal to itself. -/
theorem boardEq_spec_witness :
    boardEq almostFullBottom almostFullBottom = true ∧
    boardEq almostFullBottom blockedTop = false ∧
    boardNe almostFullBottom blockedTop = true ∧
    boardEq [] [] = false :=
  ⟨(boardEq_spec.2.2.1 almostFullBottom almostFullBottom 10 10 (by decide) (by decide)
      (by decide) (by decide)).mpr rfl,
    by decide, by decide, (boardEq_spec.2.2.2 []).1⟩

/-! ### The snapshot -/

/-- One round of the loop of `board()` is one `setBoardElement` on the local copy. -/
theorem boardLoop_cons (c : Params) (cur : Shape) (pos : Position) (rest : List Position)
    (b : Board) :
    boardLoop c cur (pos :: rest) b =
      match setBoardElement c b (cur.x + pos.x) (cur.y + pos.y) cur.type with
      | some b1 => boardLoop c cur rest b1
      | none => none := by
  rw [boardLoop]
  unfold setBoardElement
  by_cases hx : 0 ≤ cur.x + pos.x ∧ cur.x + pos.x < c.BoardWidth
  · by_cases hy : 0 ≤ cur.y + pos.y ∧ cur.y + pos.y < c.BoardHeight
    · rw [if_pos hx, if_pos hy, if_pos ⟨hx.1, hx.2, hy.1, hy.2⟩]
      cases hrow : b[(cur.y + pos.y).toNat]? with
      | none => rfl
      | some row =>
        by_cases hlen : (cur.x + pos.x).toNat < row.length
        · simp [hlen]
        · simp [hlen]
    · rw [if_pos hx, if_neg hy, if_neg (fun h => hy ⟨h.2.2.1, h.2.2.2⟩)]
  · rw [if_neg hx, if_neg (fun h => hx ⟨h.1, h.2.1⟩)]

/-- The loop of `board()` on a piece inside the grid: it returns, and the grid
carries the cells written. -/
theorem boardLoop_spec (c : Params) (cur : Shape) (b0 : Board) (hwf : WellFormed c b0)
    (rest : List Position) :
    ∀ (pre : List (Int × Int)),
      (∀ off ∈ rest,
        0 ≤ cur.x + off.x ∧ cur.x + off.x < c.BoardWidth ∧
        0 ≤ cur.y + off.y ∧ cur.y + off.y < c.BoardHeight) →
      boardLoop c cur rest (stampCells pre cur.type b0) =
        some (stampCells (pre ++ rest.map (fun off => (cur.x + off.x, cur.y + off.y)))
          cur.type b0) := by
  induction rest with
  | nil =>
    intro pre _
    simp [boardLoop]
  | cons pos rest ih =>
    intro pre hin
    obtain ⟨h1, h2, h3, h4⟩ := hin pos (List.mem_cons_self _ _)
    rw [boardLoop_cons, setBoardElement_stampCells c pre cur.type b0 hwf _ _ h1 h2 h3 h4]
    simp only
    rw [ih (pre ++ [(cur.x + pos.x, cur.y + pos.y)])
      (fun off hoff => hin off (List.mem_cons_of_mem _ hoff))]
    simp

/-- A cell of a stamped board of `BoardHeight` rows of `BoardWidth` cells. -/
theorem cellAt_stampCells (c : Params) (cells : List (Int × Int)) (t : ShapeType) (b : Board)
    (hwf : WellFormed c b) (x y : Nat) (hx : x < c.BoardWidth) (hy : y < c.BoardHeight) :
    (((x : Int), (y : Int)) ∈ cells → cellAt (stampCells cells t b) x y = some t) ∧
    (((x : Int), (y : Int)) ∉ cells → cellAt (stampCells cells t b) x y = cellAt b x y) := by
  have hyb : y < b.length := by rw [hwf.1]; exact hy
  have hxr : x < b[y].length := by rw [hwf.2 _ (List.getElem_mem hyb)]; exact hx
  have hcell : cellAt (stampCells cells t b) x y =
      some (if ((x : Int), (y : Int)) ∈ cells then t else b[y][x]) := by
    simp [cellAt, getElem?_stampCells, List.getElem?_eq_getElem hyb, List.getElem?_mapIdx,
      List.getElem?_eq_getElem hxr]
  have hold : cellAt b x y = some b[y][x] := by
    simp [cellAt, List.getElem?_eq_getElem hyb, List.getElem?_eq_getElem hxr]
  constructor
  · intro h
    rw [hcell, if_pos h]
  · intro h
    rw [hcell, if_neg h, hold]

/-- Claim C16.  For every engine with a board of `BoardHeight` rows of `BoardWidth`
cells: if the current piece is valid with all occupied cells within bounds,
`board()` returns a grid of the same dimensions in which each cell occupied by
the current piece holds the kind of the piece and every other cell equals the
cell of the stored board; if the current piece is invalid it returns the stored
board unchanged.  The member is `const`: the embedding returns a grid only, the
engine is not touched. -/
theorem board_spec (c : Params) (s : TetrisCore) (hwf : WellFormed c s.m_board) :
    (s.m_curShape.isValid = true → InBounds c s.m_curShape →
      ∃ b1, board c s = some b1 ∧ WellFormed c b1 ∧ b1.length = s.m_board.length ∧
        ∀ x y : Nat, x < c.BoardWidth → y < c.BoardHeight →
          (Occupies c s.m_curShape x y → cellAt b1 x y = some s.m_curShape.type) ∧
          (¬ Occupies c s.m_curShape x y → cellAt b1 x y = cellAt s.m_board x y)) ∧
    (s.m_curShape.isValid = false → board c s = some s.m_board) := by
  refine ⟨fun hv hin => ?_, fun hv => by simp [board, hv]⟩
  have hloop := boardLoop_spec c s.m_curShape s.m_board hwf (s.m_curShape.block c) [] (by
    intro off hoff
    have := hin off hoff
    omega)
  rw [stampCells_nil] at hloop
  simp only [List.nil_append] at hloop
  have hb : board c s = some (stampCells
      ((s.m_curShape.block c).map
        (fun off => (s.m_curShape.x + off.x, s.m_curShape.y + off.y)))
      s.m_curShape.type s.m_board) := by
    rw [board, hv]
    simp only [Bool.not_true, Bool.false_eq_true, if_false]
    exact hloop
  refine ⟨_, hb, wellFormed_stampCells c _ _ _ hwf, length_stampCells _ _ _,
    fun x y hx hy => ?_⟩
  have hmem : ((x : Int), (y : Int)) ∈
      (s.m_curShape.block c).map (fun off => (s.m_curShape.x + off.x, s.m_curShape.y + off.y))
      ↔ Occupies c s.m_curShape x y := by
    simp only [List.mem_map, Prod.mk.injEq, Occupies]
  obtain ⟨h1, h2⟩ := cellAt_stampCells c _ s.m_curShape.type s.m_board hwf x y hx hy
  exact ⟨fun ho => h1 (hmem.mpr ho), fun hno => h2 (fun hm => hno (hmem.mp hm))⟩

/-- Instances of claim C16: the snapshot of the sample engine shows the bar in the
cells (0,0) to (3,0) and the stored cell elsewhere; the snapshot of the
constructed engine, whose piece has kind "none", is the stored board. -/
theorem board_spec_witness :
    (∃ b1, board sampleParams sampleEngine = some b1 ∧
      cellAt b1 2 0 = some (ShapeType.piece 1) ∧ cellAt b1 4 0 = some ShapeType.NoShape ∧
      cellAt sampleEngine.m_board 2 0 = some ShapeType.NoShape) ∧
    board sampleParams idleEngine = some idleEngine.m_board := by
  obtain ⟨b1, hb, _, _, hcells⟩ :=
    (board_spec sampleParams sampleEngine (by decide)).1 (by decide) (by decide)
  refine ⟨⟨b1, hb, ?_, ?_, by decide⟩,
    (board_spec sampleParams idleEngine (by decide)).2 (by decide)⟩
  · exact (hcells 2 0 (by decide) (by decide)).1
      ⟨⟨2, 0⟩, by decide, by decide, by decide⟩
  · rw [(hcells 4 0 (by decide) (by decide)).2 (by
      rintro ⟨off, hoff, h1, _⟩
      have hx : off.x = 0 ∨ off.x = 1 ∨ off.x = 2 ∨ off.x = 3 := by
        have : off ∈ [(⟨0, 0⟩ : Position), ⟨1, 0⟩, ⟨2, 0⟩, ⟨3, 0⟩] := hoff
        simp only [List.mem_cons, List.mem_singleton, List.not_mem_nil, or_false] at this
        rcases this with h | h | h | h <;> simp [h]
      have hsx : sampleEngine.m_curShape.x = 0 := rfl
      rw [hsx] at h1
      rcases hx with h | h | h | h <;> omega)]
    decide

/-! ### The steps between reachable states -/

/-- When the piece cannot fall and the landing returns, `gameStep` is the landing
followed by `afterLanding`. -/
theorem gameStep_of_stuck_eq (c : Params) (s s1 : TetrisCore) (kind : ShapeType)
    (hs : s.m_isStarted = true) (hp : s.m_isPause = false)
    (hm : (moveShape c s 0 1 0).1 = false) (hland : landChanged c s = some s1) :
    gameStep c s kind = some (afterLanding c s1 kind) := by
  rw [gameStep_of_stuck c s s1 kind hs hp hm hland]
  unfold afterLanding
  split <;> rfl

/-- When the piece cannot fall and the landing stops on an assertion, so does
`gameStep`. -/
theorem gameStep_of_stuck_none (c : Params) (s : TetrisCore) (kind : ShapeType)
    (hs : s.m_isStarted = true) (hp : s.m_isPause = false)
    (hm : (moveShape c s 0 1 0).1 = false) (hland : landChanged c s = none) :
    gameStep c s kind = none := by
  have hmv := moveShape_fail_eq c s 0 1 0 hm
  simp [gameStep, hs, hp, hmv, hland]

/-- The three ways `gameStep` returns: nothing to do, the piece fell, the piece
landed. -/
theorem gameStep_cases (c : Params) (s s1 : TetrisCore) (kind : ShapeType)
    (h : gameStep c s kind = some s1) :
    s1 = s ∨
    ((moveShape c s 0 1 0).1 = true ∧ s1 = (moveShape c s 0 1 0).2) ∨
    (s.m_isStarted = true ∧ s.m_isPause = false ∧ (moveShape c s 0 1 0).1 = false ∧
      ∃ s2, landChanged c s = some s2 ∧ s1 = afterLanding c s2 kind) := by
  cases hst : s.m_isStarted with
  | false =>
    rw [gameStep_of_not_running c s kind (Or.inl hst)] at h
    exact Or.inl (Option.some.inj h).symm
  | true =>
    cases hp : s.m_isPause with
    | true =>
      rw [gameStep_of_not_running c s kind (Or.inr hp)] at h
      exact Or.inl (Option.some.inj h).symm
    | false =>
      cases hm : (moveShape c s 0 1 0).1 with
      | true =>
        rw [gameStep_of_moved c s kind hst hp hm] at h
        exact Or.inr (Or.inl ⟨rfl, (Option.some.inj h).symm⟩)
      | false =>
        cases hland : landChanged c s with
        | none =>
          rw [gameStep_of_stuck_none c s kind hst hp hm hland] at h
          exact absurd h (by simp)
        | some s2 =>
          rw [gameStep_of_stuck_eq c s s2 kind hst hp hm hland] at h
          exact Or.inr (Or.inr ⟨rfl, rfl, rfl, s2, rfl, (Option.some.inj h).symm⟩)

/-- The three ways `fastForward` returns: nothing to do, or `gameStep` after the
move one row down. -/
theorem fastForward_cases (c : Params) (s s1 : TetrisCore) (kind : ShapeType)
    (h : fastForward c s kind = some s1) :
    s1 = s ∨ gameStep c (moveShape c s 0 1 0).2 kind = some s1 := by
  cases hgo : s.m_isGameOver with
  | true =>
    have : fastForward c s kind = some s := by simp [fastForward, hgo]
    rw [this] at h
    exact Or.inl (Option.some.inj h).symm
  | false =>
    cases hm : (moveShape c s 0 1 0).1 with
    | false =>
      have hmv := moveShape_fail_eq c s 0 1 0 hm
      have : fastForward c s kind = some s := by simp [fastForward, hgo, hmv]
      rw [this] at h
      exact Or.inl (Option.some.inj h).symm
    | true =>
      have : fastForward c s kind = gameStep c (moveShape c s 0 1 0).2 kind := by
        simp [fastForward, hgo, hm]
      rw [this] at h
      exact Or.inr h

/-- Induction over the reachable states with `gameStep` and `fastForward` taken
apart into moves and landings. -/
theorem reachable_induction_steps (c : Params) (spawnOk : Shape → Prop) (P : TetrisCore → Prop)
    (hinit : ∀ cur next : Shape, (cur.isValid = true → spawnOk cur) →
      P (TetrisCore.init c cur next))
    (hstart : ∀ (s : TetrisCore) (k1 k2 : ShapeType), Reachable c spawnOk s → P s →
      spawnOk (start c s k1 k2).m_curShape → P (start c s k1 k2))
    (hstop : ∀ s : TetrisCore, Reachable c spawnOk s → P s → P (stop c s))
    (hpause : ∀ s : TetrisCore, Reachable c spawnOk s → P s → P (pause s))
    (hmove : ∀ (s : TetrisCore) (x y r : Int), Reachable c spawnOk s → P s →
      P (moveShape c s x y r).2)
    (hland : ∀ (s s2 : TetrisCore) (kind : ShapeType), Reachable c spawnOk s → P s →
      s.m_isStarted = true → s.m_isPause = false → (moveShape c s 0 1 0).1 = false →
      landChanged c s = some s2 → P (afterLanding c s2 kind)) :
    ∀ s : TetrisCore, Reachable c spawnOk s → P s := by
  have hstep : ∀ (s s1 : TetrisCore) (kind : ShapeType), Reachable c spawnOk s → P s →
      gameStep c s kind = some s1 → P s1 := by
    intro s s1 kind hr hP h
    rcases gameStep_cases c s s1 kind h with h1 | ⟨_, h1⟩ | ⟨hs, hp, hm, s2, hl, h1⟩
    · rw [h1]
      exact hP
    · rw [h1]
      exact hmove s 0 1 0 hr hP
    · rw [h1]
      exact hland s s2 kind hr hP hs hp hm hl
  intro s hr
  induction hr with
  | init cur next hcur => exact hinit cur next hcur
  | start s k1 k2 hs hspawn ih => exact hstart s k1 k2 hs ih hspawn
  | stop s hs ih => exact hstop s hs ih
  | pause s hs ih => exact hpause s hs ih
  | moveShape s x y r hs ih => exact hmove s x y r hs ih
  | gameStep s s1 kind hs h ih => exact hstep s s1 kind hs ih h
  | fastForward s s1 kind hs h ih =>
    rcases fastForward_cases c s s1 kind h with h1 | h1
    · rw [h1]
      exact ih
    · exact hstep _ s1 kind (Reachable.moveShape s 0 1 0 hs) (hmove s 0 1 0 hs ih) h1

/-- A write that passes the assertions of `setBoardElement` is inside the grid. -/
theorem setBoardElement_some_bounds (c : Params) (b b1 : Board) (x y : Int) (t : ShapeType)
    (h : setBoardElement c b x y t = some b1) :
    0 ≤ x ∧ x < c.BoardWidth ∧ 0 ≤ y ∧ y < c.BoardHeight := by
  unfold setBoardElement at h
  by_cases hin : 0 ≤ x ∧ x < c.BoardWidth ∧ 0 ≤ y ∧ y < c.BoardHeight
  · exact hin
  · rw [if_neg hin] at h
    exact absurd h (by simp)

/-- A stamping loop that returns has written inside the grid only. -/
theorem landChangedStamp_some_bounds (c : Params) (cur : Shape) (cells : List Position) :
    ∀ (acc r : List Int × Board), landChangedStamp c cur cells acc = some r →
      ∀ off ∈ cells,
        0 ≤ off.x + cur.x ∧ off.x + cur.x < c.BoardWidth ∧
        0 ≤ off.y + cur.y ∧ off.y + cur.y < c.BoardHeight := by
  induction cells with
  | nil =>
    intro _ _ _ off hoff
    exact absurd hoff (List.not_mem_nil _)
  | cons pos rest ih =>
    intro acc r h off hoff
    obtain ⟨lines, b⟩ := acc
    rw [landChangedStamp] at h
    cases hset : setBoardElement c b (pos.x + cur.x) (pos.y + cur.y) cur.type with
    | none =>
      rw [hset] at h
      exact absurd h (by simp)
    | some b1 =>
      rw [hset] at h
      rcases List.mem_cons.mp hoff with h1 | h1
      · rw [h1]
        exact setBoardElement_some_bounds c b b1 _ _ _ hset
      · exact ih _ r h off h1

/-- A landing that returns was the landing of a piece inside the grid. -/
theorem landChanged_some_inBounds (c : Params) (s s2 : TetrisCore)
    (h : landChanged c s = some s2) : InBounds c s.m_curShape := by
  unfold landChanged at h
  cases hst : landChangedStamp c s.m_curShape (s.m_curShape.block c) ([], s.m_board) with
  | none =>
    rw [hst] at h
    exact absurd h (by simp)
  | some r => exact landChangedStamp_some_bounds c s.m_curShape _ _ r hst

/-- A landing that returns, on a board of `BoardHeight` rows of `BoardWidth` cells,
is the landing in closed form. -/
theorem landChanged_some_eq (c : Params) (s s2 : TetrisCore) (hwf : WellFormed c s.m_board)
    (h : landChanged c s = some s2) :
    s2 = { s with
      m_board :=
        List.replicate
          (fullCount (touchedRows c s.m_curShape) 0 (overlay c s.m_board s.m_curShape))
          (List.replicate c.BoardWidth ShapeType.NoShape)
        ++ keptRows (touchedRows c s.m_curShape) 0 (overlay c s.m_board s.m_curShape)
      m_destroedLines := landedLines s.m_destroedLines
        (fullCount (touchedRows c s.m_curShape) 0 (overlay c s.m_board s.m_curShape))
      m_level := landedLevel s.m_destroedLines
        (fullCount (touchedRows c s.m_curShape) 0 (overlay c s.m_board s.m_curShape))
      m_score := landedScore s.m_score s.m_destroedLines
        (fullCount (touchedRows c s.m_curShape) 0 (overlay c s.m_board s.m_curShape)) } := by
  have heq := landChanged_eq c s hwf (landChanged_some_inBounds c s s2 h)
  rw [h] at heq
  exact Option.some.inj heq

/-- Whatever `moveShape` returns, it has changed the current piece at most. -/
theorem moveShape_state (c : Params) (s : TetrisCore) (x y r : Int) :
    ∃ cur1, (moveShape c s x y r).2 = { s with m_curShape := cur1 } := by
  rcases Bool.eq_false_or_eq_true (moveShape c s x y r).1 with hm | hm
  · rcases Bool.eq_false_or_eq_true s.m_isStarted with hst | hst
    · rcases Bool.eq_false_or_eq_true s.m_isPause with hp | hp
      · rw [moveShape_of_not_running c s _ _ _ (Or.inr hp)] at hm
        exact absurd hm (by simp)
      · rcases Bool.eq_false_or_eq_true s.m_curShape.isValid with hv | hv
        · rcases Bool.eq_false_or_eq_true
            (isValidPosition c s.m_board (s.m_curShape.rotate r) x y) with hl | hl
          · rw [moveShape_of_legal c s _ _ _ hst hp hv hl]
            exact ⟨_, rfl⟩
          · rw [moveShape_of_illegal c s _ _ _ hst hp hv hl] at hm
            exact absurd hm (by simp)
        · rw [moveShape_of_invalid c s _ _ _ hv] at hm
          exact absurd hm (by simp)
    · rw [moveShape_of_not_running c s _ _ _ (Or.inl hst)] at hm
      exact absurd hm (by simp)
  · rw [moveShape_fail_eq c s x y r hm]
    exact ⟨s.m_curShape, rfl⟩

/-- The rows that stay and the rows that go are all the rows. -/
theorem length_keptRows (T : List Int) (rows : Board) (start : Nat) :
    (keptRows T start rows).length + fullCount T start rows = rows.length := by
  induction rows generalizing start with
  | nil => rfl
  | cons r rs ih =>
    rw [keptRows_cons, fullCount_cons]
    have := ih (start + 1)
    split <;> simp only [List.length_cons] <;> omega

/-- A row that stays is a row of the board that is not a full touched row. -/
theorem mem_keptRows (T : List Int) (rows : Board) (start : Nat) (row : BoardLine)
    (h : row ∈ keptRows T start rows) :
    ∃ j, rows[j]? = some row ∧ isFullTouched T (start + j) row = false := by
  induction rows generalizing start with
  | nil => exact absurd h (List.not_mem_nil _)
  | cons r rs ih =>
    rw [keptRows_cons] at h
    cases hf : isFullTouched T start r with
    | true =>
      rw [hf, if_pos rfl] at h
      obtain ⟨j, hj1, hj2⟩ := ih (start + 1) h
      exact ⟨j + 1, by simpa using hj1, by rw [← hj2]; congr 1; omega⟩
    | false =>
      rw [hf] at h
      simp only [Bool.false_eq_true, if_false] at h
      rcases List.mem_cons.mp h with h1 | h1
      · exact ⟨0, by simp [h1], by rw [h1]; exact hf⟩
      · obtain ⟨j, hj1, hj2⟩ := ih (start + 1) h1
        exact ⟨j + 1, by simpa using hj1, by rw [← hj2]; congr 1; omega⟩

/-- The board after a landing has `BoardHeight` rows of `BoardWidth` cells again. -/
theorem wellFormed_landed (c : Params) (T : List Int) (b : Board) (hwf : WellFormed c b) :
    WellFormed c
      (List.replicate (fullCount T 0 b) (List.replicate c.BoardWidth ShapeType.NoShape)
        ++ keptRows T 0 b) := by
  constructor
  · have := length_keptRows T b 0
    simp only [List.length_append, List.length_replicate]
    rw [← hwf.1]
    omega
  · intro row hrow
    rcases List.mem_append.mp hrow with h | h
    · rw [List.eq_of_mem_replicate h]
      simp
    · obtain ⟨j, hj, _⟩ := mem_keptRows T b 0 row h
      exact hwf.2 row (List.getElem?_mem hj)

/-! ### Invariants of the reachable states -/

/-- The part of `gameStep` after the landing keeps board and counters, and leaves
either the flags as they are or the game over. -/
theorem afterLanding_frame (c : Params) (s1 : TetrisCore) (kind : ShapeType) :
    (afterLanding c s1 kind).m_board = s1.m_board ∧
    (afterLanding c s1 kind).m_score = s1.m_score ∧
    (afterLanding c s1 kind).m_level = s1.m_level ∧
    (afterLanding c s1 kind).m_destroedLines = s1.m_destroedLines ∧
    (afterLanding c s1 kind).m_isPause = s1.m_isPause ∧
    (((afterLanding c s1 kind).m_isStarted = s1.m_isStarted ∧
        (afterLanding c s1 kind).m_isGameOver = s1.m_isGameOver ∧
        isValidPosition c s1.m_board (afterLanding c s1 kind).m_curShape 0 0 = true) ∨
      ((afterLanding c s1 kind).m_isStarted = false ∧
        (afterLanding c s1 kind).m_isGameOver = true ∧
        (afterLanding c s1 kind).m_curShape = s1.m_curShape)) := by
  unfold afterLanding
  split
  · next h => exact ⟨rfl, rfl, rfl, rfl, rfl, Or.inl ⟨rfl, rfl, h⟩⟩
  · exact ⟨rfl, rfl, rfl, rfl, rfl, Or.inr ⟨rfl, rfl, rfl⟩⟩

/-- What `start` does to an engine that is not started. -/
theorem start_of_not_started (c : Params) (s : TetrisCore) (k1 k2 : ShapeType)
    (h : s.m_isStarted = false) (hwf : WellFormed c s.m_board) :
    (start c s k1 k2).m_board = emptyBoard c ∧
    (start c s k1 k2).m_level = 1 ∧ (start c s k1 k2).m_score = 0 ∧
    (start c s k1 k2).m_destroedLines = 0 ∧ (start c s k1 k2).m_isStarted = true ∧
    (start c s k1 k2).m_isPause = false ∧ (start c s k1 k2).m_isGameOver = false := by
  simp [start, h, clearBoard_eq c s.m_board hwf]

theorem start_of_started (c : Params) (s : TetrisCore) (k1 k2 : ShapeType)
    (h : s.m_isStarted = true) : start c s k1 k2 = s := by
  simp [start, h]

/-- The board after `stop`. -/
theorem stop_board (c : Params) (s : TetrisCore) (hwf : WellFormed c s.m_board) :
    (stop c s).m_board = emptyBoard c := by
  simp [stop, clearBoard_eq c s.m_board hwf]

/-- What `pause` keeps. -/
theorem pause_frame (s : TetrisCore) :
    (pause s).m_board = s.m_board ∧ (pause s).m_curShape = s.m_curShape ∧
    (pause s).m_isStarted = s.m_isStarted ∧ (pause s).m_isGameOver = s.m_isGameOver ∧
    (pause s).m_score = s.m_score ∧ (pause s).m_level = s.m_level ∧
    (pause s).m_destroedLines = s.m_destroedLines := by
  unfold pause
  split <;> exact ⟨rfl, rfl, rfl, rfl, rfl, rfl, rfl⟩

/-- Every reachable state has a board of `BoardHeight` rows of `BoardWidth` cells. -/
theorem reachable_wellFormed (c : Params) (spawnOk : Shape → Prop) (s : TetrisCore)
    (h : Reachable c spawnOk s) : WellFormed c s.m_board := by
  refine reachable_induction_steps c spawnOk (fun s => WellFormed c s.m_board)
    ?_ ?_ ?_ ?_ ?_ ?_ s h
  · intro cur next _
    exact wellFormed_emptyBoard c
  · intro s k1 k2 _ hP _
    rcases Bool.eq_false_or_eq_true s.m_isStarted with hst | hst
    · rw [start_of_started c s k1 k2 hst]
      exact hP
    · show WellFormed c (start c s k1 k2).m_board
      rw [(start_of_not_started c s k1 k2 hst hP).1]
      exact wellFormed_emptyBoard c
  · intro s _ hP
    show WellFormed c (stop c s).m_board
    rw [stop_board c s hP]
    exact wellFormed_emptyBoard c
  · intro s _ hP
    show WellFormed c (pause s).m_board
    rw [(pause_frame s).1]
    exact hP
  · intro s x y r _ hP
    obtain ⟨cur1, h1⟩ := moveShape_state c s x y r
    show WellFormed c (moveShape c s x y r).2.m_board
    rw [h1]
    exact hP
  · intro s s2 kind _ hP _ _ _ hland
    show WellFormed c (afterLanding c s2 kind).m_board
    rw [(afterLanding_frame c s2 kind).1, landChanged_some_eq c s s2 hP hland]
    exact wellFormed_landed c _ _ (wellFormed_stampCells c _ _ _ hP)

/-- In every reachable state a set game-over flag means the engine is not
started. -/
theorem reachable_gameOver_not_started (c : Params) (spawnOk : Shape → Prop) (s : TetrisCore)
    (h : Reachable c spawnOk s) : s.m_isGameOver = true → s.m_isStarted = false := by
  refine reachable_induction_steps c spawnOk
    (fun s => s.m_isGameOver = true → s.m_isStarted = false) ?_ ?_ ?_ ?_ ?_ ?_ s h
  · intro cur next _ hgo
    rfl
  · intro s k1 k2 hr hP _
    rcases Bool.eq_false_or_eq_true s.m_isStarted with hst | hst
    · rw [start_of_started c s k1 k2 hst]
      exact hP
    · intro hgo
      have := (start_of_not_started c s k1 k2 hst (reachable_wellFormed c spawnOk s hr)).2.2.2.2.2.2
      rw [this] at hgo
      exact absurd hgo (by simp)
  · intro s _ _ _
    rfl
  · intro s _ hP hgo
    obtain ⟨_, _, h3, h4, _⟩ := pause_frame s
    rw [h3]
    rw [h4] at hgo
    exact hP hgo
  · intro s x y r _ hP hgo
    obtain ⟨cur1, h1⟩ := moveShape_state c s x y r
    rw [h1] at hgo ⊢
    exact hP hgo
  · intro s s2 kind hr hP _ _ _ hland hgo
    have hs2 := landChanged_some_eq c s s2 (reachable_wellFormed c spawnOk s hr) hland
    rcases (afterLanding_frame c s2 kind).2.2.2.2.2 with ⟨h1, h2, _⟩ | ⟨h1, _, _⟩
    · rw [h1]
      rw [h2] at hgo
      rw [hs2] at hgo ⊢
      exact hP hgo
    · exact h1

/-- Claim C13.  Once `gameOver` is true in a reachable state, `started` is false,
and every call of `moveShape` (with any arguments), `gameStep`, `fastForward` or
`pause` leaves the whole engine state unchanged, `moveShape` returning failure;
so `gameOver` stays true until `start()` or `stop()` is called. -/
theorem gameOver_terminal (c : Params) (spawnOk : Shape → Prop) (s : TetrisCore)
    (hreach : Reachable c spawnOk s) (hgo : s.m_isGameOver = true) :
    s.m_isStarted = false ∧
    (∀ xStep yStep rotate : Int, moveShape c s xStep yStep rotate = (false, s)) ∧
    (∀ kind : ShapeType, gameStep c s kind = some s) ∧
    (∀ kind : ShapeType, fastForward c s kind = some s) ∧
    pause s = s := by
  have hst := reachable_gameOver_not_started c spawnOk s hreach hgo
  refine ⟨hst, fun x y r => moveShape_of_not_running c s x y r (Or.inl hst),
    fun kind => gameStep_of_not_running c s kind (Or.inl hst), fun kind => ?_, ?_⟩
  · simp [fastForward, hgo]
  · simp [pause, hst]

/-- The tiny engine that is over is reachable: construct, start, one tick. -/
theorem tinyGameOver_reachable : Reachable tinyParams (InBounds tinyParams) tinyGameOver :=
  Reachable.gameStep tinyStarted tinyGameOver (ShapeType.piece 2)
    (Reachable.start _ _ _ (Reachable.init noPiece noPiece (by decide)) (by decide))
    (by decide)

/-- An instance of claim C13: on the tiny board the first square lands, the
second does not fit and the game is over; from then on a tick, a drop, a move
and a pause change nothing. -/
theorem gameOver_terminal_witness :
    tinyGameOver.m_isGameOver = true ∧ tinyGameOver.m_isStarted = false ∧
    moveShape tinyParams tinyGameOver 1 0 1 = (false, tinyGameOver) ∧
    gameStep tinyParams tinyGameOver (ShapeType.piece 1) = some tinyGameOver ∧
    fastForward tinyParams tinyGameOver (ShapeType.piece 1) = some tinyGameOver ∧
    pause tinyGameOver = tinyGameOver :=
  have h := gameOver_terminal tinyParams (InBounds tinyParams) tinyGameOver
    tinyGameOver_reachable (by decide)
  ⟨by decide, h.1, h.2.1 1 0 1, h.2.2.1 _, h.2.2.2.1 _, h.2.2.2.2⟩

/-- No entry of the score table is negative. -/
theorem scoreTable_nonneg (k : Nat) : 0 ≤ scoreTable k := by
  match k with
  | 0 => decide
  | 1 => decide
  | 2 => decide
  | 3 => decide
  | 4 => decide
  | n + 5 => simp [scoreTable]

/-- The started sample engine is reachable: construct, start. -/
theorem startedEngine_reachable : Reachable sampleParams (InBounds sampleParams) startedEngine :=
  Reachable.start _ _ _ (Reachable.init noPiece noPiece (by decide)) (by decide)

/-- A row the stamped cells do not reach is as it was. -/
theorem getElem?_stampCells_untouched (cells : List (Int × Int)) (t : ShapeType) (b : Board)
    (j : Nat) (h : ∀ x : Nat, ((x : Int), (j : Int)) ∉ cells) :
    (stampCells cells t b)[j]? = b[j]? := by
  rw [getElem?_stampCells]
  cases hb : b[j]? with
  | none => rfl
  | some row =>
    simp only [Option.map_some', Option.some.injEq]
    apply List.ext_getElem?
    intro x
    rw [List.getElem?_mapIdx]
    cases hx : row[x]? with
    | none => rfl
    | some cell => simp [h x]

/-- A cell of the piece lies in a touched row. -/
theorem mem_touchedRows_of_mem_occupiedCells (c : Params) (shape : Shape) (x y : Int)
    (h : (x, y) ∈ occupiedCells c shape) : y ∈ touchedRows c shape := by
  obtain ⟨off, hoff, heq⟩ := List.mem_map.mp h
  simp only [Prod.mk.injEq] at heq
  exact List.mem_map.mpr ⟨off, hoff, heq.2⟩

/-- After a landing on a board without a full row, no row is full, provided a
row has at least one cell. -/
theorem landed_no_full_row (c : Params) (b : Board) (shape : Shape) (hW : 0 < c.BoardWidth)
    (hrows : ∀ row ∈ b, ShapeType.NoShape ∈ row) :
    ∀ row ∈
      List.replicate (fullCount (touchedRows c shape) 0 (overlay c b shape))
        (List.replicate c.BoardWidth ShapeType.NoShape)
      ++ keptRows (touchedRows c shape) 0 (overlay c b shape),
      ShapeType.NoShape ∈ row := by
  intro row hrow
  rcases List.mem_append.mp hrow with h | h
  · rw [List.eq_of_mem_replicate h]
    exact List.mem_replicate.mpr ⟨by omega, rfl⟩
  · obtain ⟨j, hj, hnot⟩ := mem_keptRows _ _ 0 row h
    simp only [isFullTouched, Nat.zero_add, Bool.and_eq_false_iff, decide_eq_false_iff_not,
      Bool.not_eq_false'] at hnot
    rcases hnot with hnt | hc
    · have hsame : (overlay c b shape)[j]? = b[j]? :=
        getElem?_stampCells_untouched _ _ _ j (fun x hx =>
          hnt (mem_touchedRows_of_mem_occupiedCells c shape _ _ hx))
      rw [hsame] at hj
      exact hrows row (List.getElem?_mem hj)
    · simpa using hc

/-- Claim C18.  In every state reachable from the constructed engine by any
sequence of `start`, `stop`, `pause`, `moveShape`, `gameStep` and `fastForward`
calls, with `BoardWidth > 0` (and whatever is assumed of the piece `start()`
spawns), the stored board has no completely filled row: every row contains at
least one empty cell. -/
theorem reachable_no_full_row (c : Params) (spawnOk : Shape → Prop) (s : TetrisCore)
    (hW : 0 < c.BoardWidth) (hreach : Reachable c spawnOk s) :
    ∀ row ∈ s.m_board, ShapeType.NoShape ∈ row := by
  have hempty : ∀ row ∈ emptyBoard c, ShapeType.NoShape ∈ row := by
    intro row hrow
    rw [List.eq_of_mem_replicate hrow]
    exact List.mem_replicate.mpr ⟨by omega, rfl⟩
  refine reachable_induction_steps c spawnOk
    (fun s => ∀ row ∈ s.m_board, ShapeType.NoShape ∈ row) ?_ ?_ ?_ ?_ ?_ ?_ s hreach
  · intro cur next _
    exact hempty
  · intro s k1 k2 hr hP _
    rcases Bool.eq_false_or_eq_true s.m_isStarted with hst | hst
    · rw [start_of_started c s k1 k2 hst]
      exact hP
    · show ∀ row ∈ (start c s k1 k2).m_board, ShapeType.NoShape ∈ row
      rw [(start_of_not_started c s k1 k2 hst (reachable_wellFormed c spawnOk s hr)).1]
      exact hempty
  · intro s hr _
    show ∀ row ∈ (stop c s).m_board, ShapeType.NoShape ∈ row
    rw [stop_board c s (reachable_wellFormed c spawnOk s hr)]
    exact hempty
  · intro s _ hP
    show ∀ row ∈ (pause s).m_board, ShapeType.NoShape ∈ row
    rw [(pause_frame s).1]
    exact hP
  · intro s x y r _ hP
    obtain ⟨cur1, h1⟩ := moveShape_state c s x y r
    show ∀ row ∈ (moveShape c s x y r).2.m_board, ShapeType.NoShape ∈ row
    rw [h1]
    exact hP
  · intro s s2 kind hr hP _ _ _ hland
    show ∀ row ∈ (afterLanding c s2 kind).m_board, ShapeType.NoShape ∈ row
    rw [(afterLanding_frame c s2 kind).1,
      landChanged_some_eq c s s2 (reachable_wellFormed c spawnOk s hr) hland]
    exact landed_no_full_row c s.m_board s.m_curShape hW hP

/-- Two instances of claim C18: the rows of the started sample engine and of the
tiny engine that is over all have an empty cell. -/
theorem reachable_no_full_row_witness :
    (∀ row ∈ startedEngine.m_board, ShapeType.NoShape ∈ row) ∧
    (∀ row ∈ tinyGameOver.m_board, ShapeType.NoShape ∈ row) :=
  ⟨reachable_no_full_row sampleParams (InBounds sampleParams) startedEngine (by decide)
      startedEngine_reachable,
    reachable_no_full_row tinyParams (InBounds tinyParams) tinyGameOver (by decide)
      tinyGameOver_reachable⟩

/-- A piece at a legal position lies inside the grid. -/
theorem inBounds_of_isValidPosition (c : Params) (b : Board) (shape : Shape)
    (h : isValidPosition c b shape 0 0 = true) : InBounds c shape := by
  intro off hoff
  obtain ⟨h1, h2, h3, h4, _⟩ := (isValidPositionLoop_iff c b shape 0 0 (shape.block c)).mp h off hoff
  omega

/-- On the empty board every piece inside the grid is at a legal position. -/
theorem isValidPosition_emptyBoard (c : Params) (shape : Shape) (h : InBounds c shape) :
    isValidPosition c (emptyBoard c) shape 0 0 = true := by
  refine (isValidPositionLoop_iff c (emptyBoard c) shape 0 0 (shape.block c)).mpr ?_
  intro off hoff
  obtain ⟨h1, h2, h3, h4⟩ := h off hoff
  refine ⟨by omega, by omega, by omega, by omega,
    List.replicate c.BoardWidth ShapeType.NoShape, ?_, ?_⟩
  · simp only [emptyBoard, List.getElem?_replicate]
    rw [if_pos (by omega)]
  · rw [List.getElem?_replicate, if_pos (by omega)]

/-- A piece that is legal at a step is legal at step zero once its anchor has
been moved by the step. -/
theorem isValidPosition_moved (c : Params) (b : Board) (sh0 sh1 : Shape) (x y : Int)
    (hblock : sh1.block c = sh0.block c) (hx : sh1.x = sh0.x + x) (hy : sh1.y = sh0.y + y)
    (h : isValidPosition c b sh0 x y = true) : isValidPosition c b sh1 0 0 = true := by
  refine (isValidPositionLoop_iff c b sh1 0 0 (sh1.block c)).mpr ?_
  intro off hoff
  rw [hblock] at hoff
  have h0 := (isValidPositionLoop_iff c b sh0 x y (sh0.block c)).mp h off hoff
  have ex : sh1.x + off.x + 0 = sh0.x + off.x + x := by omega
  have ey : sh1.y + off.y + 0 = sh0.y + off.y + y := by omega
  rw [ex, ey]
  exact h0

/-- What a successful `moveShape` has checked. -/
theorem moveShape_success_conds (c : Params) (s : TetrisCore) (x y r : Int)
    (hm : (moveShape c s x y r).1 = true) :
    s.m_isStarted = true ∧ s.m_isPause = false ∧ s.m_curShape.isValid = true ∧
    isValidPosition c s.m_board (s.m_curShape.rotate r) x y = true := by
  rcases Bool.eq_false_or_eq_true s.m_isStarted with hst | hst
  · rcases Bool.eq_false_or_eq_true s.m_isPause with hp | hp
    · rw [moveShape_of_not_running c s _ _ _ (Or.inr hp)] at hm
      exact absurd hm (by simp)
    · rcases Bool.eq_false_or_eq_true s.m_curShape.isValid with hv | hv
      · rcases Bool.eq_false_or_eq_true
          (isValidPosition c s.m_board (s.m_curShape.rotate r) x y) with hl | hl
        · exact ⟨hst, hp, hv, hl⟩
        · rw [moveShape_of_illegal c s _ _ _ hst hp hv hl] at hm
          exact absurd hm (by simp)
      · rw [moveShape_of_invalid c s _ _ _ hv] at hm
        exact absurd hm (by simp)
  · rw [moveShape_of_not_running c s _ _ _ (Or.inl hst)] at hm
    exact absurd hm (by simp)

/-- The snapshot of a valid piece inside the grid, on a board of `BoardHeight`
rows of `BoardWidth` cells, passes all assertions. -/
theorem board_isSome (c : Params) (s : TetrisCore) (hwf : WellFormed c s.m_board)
    (hin : InBounds c s.m_curShape) : (board c s).isSome = true := by
  rcases Bool.eq_false_or_eq_true s.m_curShape.isValid with hv | hv
  · have hloop := boardLoop_spec c s.m_curShape s.m_board hwf (s.m_curShape.block c) [] (by
      intro off hoff
      have := hin off hoff
      omega)
    rw [stampCells_nil] at hloop
    rw [board, hv]
    simp only [Bool.not_true, Bool.false_eq_true, if_false]
    rw [hloop]
    rfl
  · simp [board, hv]

/-- The position of the current piece in every reachable state, when `start()`
spawns its piece within bounds: a valid piece lies inside the grid, and in a
started engine it lies over empty cells. -/
theorem reachable_piece_inv (c : Params) (s : TetrisCore)
    (h : Reachable c (InBounds c) s) :
    (s.m_curShape.isValid = true → InBounds c s.m_curShape) ∧
    (s.m_isStarted = true → s.m_curShape.isValid = true →
      isValidPosition c s.m_board s.m_curShape 0 0 = true) := by
  refine reachable_induction_steps c (InBounds c)
    (fun s => (s.m_curShape.isValid = true → InBounds c s.m_curShape) ∧
      (s.m_isStarted = true → s.m_curShape.isValid = true →
        isValidPosition c s.m_board s.m_curShape 0 0 = true)) ?_ ?_ ?_ ?_ ?_ ?_ s h
  · intro cur next hcur
    exact ⟨fun hv => hcur hv, fun hst => absurd hst (by simp [TetrisCore.init])⟩
  · intro s k1 k2 hr hP hspawn
    rcases Bool.eq_false_or_eq_true s.m_isStarted with hst | hst
    · rw [start_of_started c s k1 k2 hst]
      exact hP
    · refine ⟨fun _ => hspawn, fun _ _ => ?_⟩
      rw [(start_of_not_started c s k1 k2 hst (reachable_wellFormed c _ s hr)).1]
      exact isValidPosition_emptyBoard c _ hspawn
  · intro s _ _
    have hv : (stop c s).m_curShape.isValid = false := by
      simp [stop, Shape.isValid, Shape.setShape]
    refine ⟨fun h1 => ?_, fun _ h1 => ?_⟩
    · rw [hv] at h1
      exact absurd h1 (by simp)
    · rw [hv] at h1
      exact absurd h1 (by simp)
  · intro s _ hP
    obtain ⟨h1, h2, h3, _⟩ := pause_frame s
    simp only [h1, h2, h3]
    exact hP
  · intro s x y r _ hP
    rcases Bool.eq_false_or_eq_true (moveShape c s x y r).1 with hm | hm
    · obtain ⟨hst, hp, hv, hl⟩ := moveShape_success_conds c s x y r hm
      rw [moveShape_of_legal c s x y r hst hp hv hl]
      have hnew : isValidPosition c s.m_board
          { m_type := s.m_curShape.m_type
            m_rotate := (s.m_curShape.rotate r).m_rotate
            m_pos := ⟨s.m_curShape.x + x, s.m_curShape.y + y⟩ } 0 0 = true :=
        isValidPosition_moved c s.m_board (s.m_curShape.rotate r) _ x y rfl rfl rfl hl
      exact ⟨fun _ => inBounds_of_isValidPosition c s.m_board _ hnew, fun _ _ => hnew⟩
    · rw [moveShape_fail_eq c s x y r hm]
      exact hP
  · intro s s2 kind hr hP _ _ _ hland
    have hs2 := landChanged_some_eq c s s2 (reachable_wellFormed c _ s hr) hland
    have hcur : s2.m_curShape = s.m_curShape := by rw [hs2]
    obtain ⟨hb, _, _, _, _, hflags⟩ := afterLanding_frame c s2 kind
    rcases hflags with ⟨_, _, hvalid⟩ | ⟨hst, _, hsame⟩
    · rw [hb]
      exact ⟨fun _ => inBounds_of_isValidPosition c s2.m_board _ hvalid, fun _ _ => hvalid⟩
    · refine ⟨fun hv => ?_, fun h1 => ?_⟩
      · rw [hsame, hcur] at hv ⊢
        exact hP.1 hv
      · rw [hst] at h1
        exact absurd h1 (by simp)

/-- Claim C19.  Assuming `start()` spawns its piece within bounds: in every state
reachable by any sequence of `start`, `stop`, `pause`, `moveShape`, `gameStep` and
`fastForward` calls, if the current piece is valid then all its occupied cells
lie within the grid, so the bounds assertions in `board()` and in
`setBoardElement` (called from `landChanged`) do not fail; and if additionally
`started = true`, all its occupied cells lie over empty cells of the stored
board: `isValidPosition(current, 0, 0)` holds. -/
theorem reachable_piece_in_bounds (c : Params) (s : TetrisCore)
    (hreach : Reachable c (InBounds c) s) :
    (s.m_curShape.isValid = true →
      InBounds c s.m_curShape ∧ (board c s).isSome = true ∧ (landChanged c s).isSome = true) ∧
    (s.m_curShape.isValid = true → s.m_isStarted = true →
      isValidPosition c s.m_board s.m_curShape 0 0 = true) := by
  obtain ⟨h1, h2⟩ := reachable_piece_inv c s hreach
  have hwf := reachable_wellFormed c _ s hreach
  refine ⟨fun hv => ⟨h1 hv, board_isSome c s hwf (h1 hv), ?_⟩, fun hv hst => h2 hst hv⟩
  rw [landChanged_eq c s hwf (h1 hv)]
  rfl

/-- Two instances of claim C19: the bar of the started sample engine lies inside
the grid over empty cells, and the snapshot and a landing pass their
assertions; the square of the tiny engine that is over lies inside the grid. -/
theorem reachable_piece_in_bounds_witness :
    (startedEngine.m_curShape.isValid = true ∧ startedEngine.m_isStarted = true ∧
      InBounds sampleParams startedEngine.m_curShape ∧
      (board sampleParams startedEngine).isSome = true ∧
      (landChanged sampleParams startedEngine).isSome = true ∧
      isValidPosition sampleParams startedEngine.m_board startedEngine.m_curShape 0 0 = true) ∧
    InBounds tinyParams tinyGameOver.m_curShape :=
  have h1 := reachable_piece_in_bounds sampleParams startedEngine startedEngine_reachable
  have h2 := reachable_piece_in_bounds tinyParams tinyGameOver tinyGameOver_reachable
  ⟨⟨by decide, by decide, (h1.1 (by decide)).1, (h1.1 (by decide)).2.1, (h1.1 (by decide)).2.2,
    h1.2 (by decide) (by decide)⟩, (h2.1 (by decide)).1⟩

/-! ### A game that overflows the score

On the sample board two bars and a square fill the bottom row, and two more bars
fill it again: five pieces clear two rows and leave the board empty.  Each piece
is brought to its place by one call of `moveShape` and landed by one call of
`gameStep`. -/

/-- The sum `loopScore` in closed form, with `q` the tens and `r` the units of
`n`. -/
theorem loopScore_closed (n : Nat) :
    loopScore n = 50 * (5 * ((n / 10 : Nat) : Int) * ((n / 10 : Nat) : Int)
      - 4 * ((n / 10 : Nat) : Int)
      + ((n / 10 : Nat) : Int) * ((n % 10 : Nat) : Int) + (n : Int)) := by
  induction n with
  | zero => rfl
  | succ n ih =>
    have hdiv : Int.tdiv ((n : Int) + 1) 10 = (((n + 1) / 10 : Nat) : Int) := by
      rw [Int.tdiv_eq_ediv (by omega) (by decide)]
      omega
    show loopScore n + 50 * (Int.tdiv ((n : Int) + 1) 10 + 1) = _
    rw [ih, hdiv]
    by_cases h9 : n % 10 = 9
    · have e1 : (n + 1) / 10 = n / 10 + 1 := by omega
      have e2 : (n + 1) % 10 = 0 := by omega
      rw [e1, e2, h9]
      push_cast
      ring
    · have e1 : (n + 1) / 10 = n / 10 := by omega
      have e2 : (n + 1) % 10 = n % 10 + 1 := by omega
      rw [e1, e2]
      push_cast
      ring

/-- The sum after 29302 rows still fits into an `int`. -/
theorem loopScore_before : loopScore 29302 = 2147397100 := by
  rw [loopScore_closed]
  decide

/-- The sum after 29303 rows does not fit any more. -/
theorem loopScore_after : loopScore 29303 = 2147543650 := by
  rw [loopScore_closed]
  decide

/-- A call of `moveShape` without rotation that is legal moves the piece of a
stage and keeps the rest. -/
theorem stage_move (b : Board) (cur cur1 next : Shape) (n : Nat) (xStep yStep : Int)
    (hv : cur.isValid = true)
    (hl : isValidPosition sampleParams b (cur.rotate 0) xStep yStep = true)
    (hcur : (cur.rotate 0).setShapePos ⟨(cur.rotate 0).x + xStep, (cur.rotate 0).y + yStep⟩
      = cur1) :
    (moveShape sampleParams (stage b cur next n) xStep yStep 0).2 = stage b cur1 next n := by
  rw [moveShape_of_legal sampleParams (stage b cur next n) xStep yStep 0 rfl rfl hv hl]
  rw [← hcur]
  rfl

/-- A landing that clears no row or one row takes a stage to a stage; the
hypotheses are closed facts about the board and the pieces. -/
theorem stage_land (b B : Board) (cur next cur1 next1 : Shape) (kind : ShapeType) (k n : Nat)
    (hwf : WellFormed sampleParams b) (hin : InBounds sampleParams cur)
    (hv : cur.isValid = true)
    (hstuck : isValidPosition sampleParams b (cur.rotate 0) 0 1 = false)
    (hk : fullCount (touchedRows sampleParams cur) 0 (overlay sampleParams b cur) = k)
    (hB : List.replicate k (List.replicate sampleParams.BoardWidth ShapeType.NoShape)
      ++ keptRows (touchedRows sampleParams cur) 0 (overlay sampleParams b cur) = B)
    (hafter : afterLanding sampleParams (stage B cur next 0) kind = stage B cur1 next1 0)
    (hk1 : k ≤ 1) (hn : ((n + k : Nat) : Int) ≤ 2147483647) :
    gameStep sampleParams (stage b cur next n) kind = some (stage B cur1 next1 (n + k)) := by
  have hm : (moveShape sampleParams (stage b cur next n) 0 1 0).1 = false := by
    rw [moveShape_of_illegal sampleParams (stage b cur next n) 0 1 0 rfl rfl hv hstuck]
  have hland := landChanged_eq sampleParams (stage b cur next n) hwf hin
  have hk2 : fullCount (touchedRows sampleParams (stage b cur next n).m_curShape) 0
      (overlay sampleParams (stage b cur next n).m_board (stage b cur next n).m_curShape)
      = k := hk
  have hB2 : List.replicate k (List.replicate sampleParams.BoardWidth ShapeType.NoShape)
      ++ keptRows (touchedRows sampleParams (stage b cur next n).m_curShape) 0
        (overlay sampleParams (stage b cur next n).m_board (stage b cur next n).m_curShape)
      = B := hB
  rw [hk2, hB2] at hland
  have hr : InIntRange (((n : Nat) : Int) + ((k : Nat) : Int)) := by
    unfold InIntRange
    push_cast at hn
    omega
  have hlines : landedLines (n : Int) k = ((n + k : Nat) : Int) := by
    rw [landedLines_of_inRange _ _ hr]
    push_cast
    rfl
  have hlevel : landedLevel (n : Int) k = Int.tdiv ((n + k : Nat) : Int) 10 + 1 := by
    rw [landedLevel_of_inRange _ _ hr]
    push_cast
    rfl
  have hscore : landedScore (wrapInt (loopScore n)) (n : Int) k = wrapInt (loopScore (n + k)) := by
    unfold landedScore
    rcases Nat.le_one_iff_eq_zero_or_eq_one.mp hk1 with h0 | h1
    · subst h0
      rw [if_neg (by decide)]
      rfl
    · subst h1
      rw [if_pos ⟨le_refl 1, by decide⟩, landedLevel_of_inRange _ _ hr, wrapInt_wrapInt_add]
      rfl
  have hs1 : ({ stage b cur next n with
      m_board := B
      m_destroedLines := landedLines (stage b cur next n).m_destroedLines k
      m_level := landedLevel (stage b cur next n).m_destroedLines k
      m_score := landedScore (stage b cur next n).m_score (stage b cur next n).m_destroedLines k }
      : TetrisCore) = stage B cur next (n + k) := by
    show ({ stage b cur next n with
      m_board := B
      m_destroedLines := landedLines (n : Int) k
      m_level := landedLevel (n : Int) k
      m_score := landedScore (wrapInt (loopScore n)) (n : Int) k } : TetrisCore) = _
    rw [hlines, hlevel, hscore]
    rfl
  rw [hs1] at hland
  rw [gameStep_of_stuck_eq sampleParams (stage b cur next n) _ kind rfl rfl hm hland]
  have hcount : ∀ m : Nat, afterLanding sampleParams (stage B cur next m) kind
      = { afterLanding sampleParams (stage B cur next 0) kind with
          m_level := Int.tdiv (m : Int) 10 + 1
          m_score := wrapInt (loopScore m)
          m_destroedLines := (m : Int) } := by
    intro m
    unfold afterLanding
    dsimp only [stage]
    split <;> rfl
  rw [hcount, hafter]
  rfl

/-- The first five calls of a round: a bar goes to the left of the bottom row and
lands, a bar goes next to it and lands, the square goes to the floor in the
gap. -/
theorem stage_front (landOk : TetrisCore → Prop) (n : Nat) (hn : (n : Int) ≤ 2147483647)
    (hok1 : landOk (stage (emptyBoard sampleParams) (bar 0 19) (bar 0 0) n))
    (hok2 : landOk (stage rowBar (bar 4 19) (square 0 0) n))
    (h : ReachableWith sampleParams (InBounds sampleParams) ValidKind landOk
      (stage (emptyBoard sampleParams) (bar 3 0) (bar 0 0) n)) :
    ReachableWith sampleParams (InBounds sampleParams) ValidKind landOk
      (stage rowTwoBars (square 8 18) (bar 0 0) n) := by
  have m1 := ReachableWith.moveShape _ (-3) 19 0 h
  rw [stage_move (emptyBoard sampleParams) (bar 3 0) (bar 0 19) (bar 0 0) n (-3) 19
    (by decide) (by decide) (by decide)] at m1
  have g1 := ReachableWith.gameStep _ _ (ShapeType.piece 2) m1 (by decide) (fun _ => hok1)
    (stage_land (emptyBoard sampleParams) rowBar (bar 0 19) (bar 0 0) (bar 3 0) (square 0 0)
      (ShapeType.piece 2) 0 n (by decide) (by decide) (by decide) (by decide) (by decide)
      (by decide) (by decide) (by decide) hn)
  have m2 := ReachableWith.moveShape _ 1 19 0 g1
  rw [stage_move rowBar (bar 3 0) (bar 4 19) (square 0 0) (n + 0) 1 19
    (by decide) (by decide) (by decide)] at m2
  have g2 := ReachableWith.gameStep _ _ (ShapeType.piece 1) m2 (by decide) (fun _ => hok2)
    (stage_land rowBar rowTwoBars (bar 4 19) (square 0 0) (square 4 0) (bar 0 0)
      (ShapeType.piece 1) 0 (n + 0) (by decide) (by decide) (by decide) (by decide) (by decide)
      (by decide) (by decide) (by decide) hn)
  have m3 := ReachableWith.moveShape _ 4 18 0 g2
  rw [stage_move rowTwoBars (square 4 0) (square 8 18) (bar 0 0) (n + 0 + 0) 4 18
    (by decide) (by decide) (by decide)] at m3
  exact m3

/-- The sixth call of a round: the square lands and completes the bottom row. -/
theorem stage_clear (landOk : TetrisCore → Prop) (n : Nat)
    (hn : ((n + 1 : Nat) : Int) ≤ 2147483647)
    (hok : landOk (stage rowTwoBars (square 8 18) (bar 0 0) n))
    (h : ReachableWith sampleParams (InBounds sampleParams) ValidKind landOk
      (stage rowTwoBars (square 8 18) (bar 0 0) n)) :
    ReachableWith sampleParams (InBounds sampleParams) ValidKind landOk
      (stage rowSquare (bar 3 0) (bar 0 0) (n + 1)) :=
  ReachableWith.gameStep _ _ (ShapeType.piece 1) h (by decide) (fun _ => hok)
    (stage_land rowTwoBars rowSquare (square 8 18) (bar 0 0) (bar 3 0) (bar 0 0)
      (ShapeType.piece 1) 1 n (by decide) (by decide) (by decide) (by decide) (by decide)
      (by decide) (by decide) (by decide) hn)

/-- The last four calls of a round: a bar goes to the left of the bottom row and
lands, a bar goes next to it, lands and completes the row; the board is empty
again. -/
theorem stage_back (landOk : TetrisCore → Prop) (n : Nat)
    (hn : ((n + 1 : Nat) : Int) ≤ 2147483647)
    (hok1 : landOk (stage rowSquare (bar 0 19) (bar 0 0) n))
    (hok2 : landOk (stage rowBarSquare (bar 4 19) (bar 0 0) n))
    (h : ReachableWith sampleParams (InBounds sampleParams) ValidKind landOk
      (stage rowSquare (bar 3 0) (bar 0 0) n)) :
    ReachableWith sampleParams (InBounds sampleParams) ValidKind landOk
      (stage (emptyBoard sampleParams) (bar 3 0) (bar 0 0) (n + 1)) := by
  have hn0 : ((n + 0 : Nat) : Int) ≤ 2147483647 := by
    push_cast at hn ⊢
    omega
  have m1 := ReachableWith.moveShape _ (-3) 19 0 h
  rw [stage_move rowSquare (bar 3 0) (bar 0 19) (bar 0 0) n (-3) 19
    (by decide) (by decide) (by decide)] at m1
  have g1 := ReachableWith.gameStep _ _ (ShapeType.piece 1) m1 (by decide) (fun _ => hok1)
    (stage_land rowSquare rowBarSquare (bar 0 19) (bar 0 0) (bar 3 0) (bar 0 0)
      (ShapeType.piece 1) 0 n (by decide) (by decide) (by decide) (by decide) (by decide)
      (by decide) (by decide) (by decide) hn0)
  have m2 := ReachableWith.moveShape _ 1 19 0 g1
  rw [stage_move rowBarSquare (bar 3 0) (bar 4 19) (bar 0 0) (n + 0) 1 19
    (by decide) (by decide) (by decide)] at m2
  exact ReachableWith.gameStep _ _ (ShapeType.piece 1) m2 (by decide) (fun _ => hok2)
    (stage_land rowBarSquare (emptyBoard sampleParams) (bar 4 19) (bar 0 0) (bar 3 0) (bar 0 0)
      (ShapeType.piece 1) 1 (n + 0) (by decide) (by decide) (by decide) (by decide) (by decide)
      (by decide) (by decide) (by decide) hn)

/-- The sample engine after `start()` with two bars is the stage with an empty
board and no row cleared. -/
theorem stage_start :
    start sampleParams idleEngine (ShapeType.piece 1) (ShapeType.piece 1)
      = stage (emptyBoard sampleParams) (bar 3 0) (bar 0 0) 0 := by
  decide

/-- After any number of rounds the engine is in a state the driver reaches: the
board is empty and two rows per round have been cleared. -/
theorem stage_rounds (m : Nat) (hm : ((2 * m : Nat) : Int) ≤ 2147483647) :
    Played (stage (emptyBoard sampleParams) (bar 3 0) (bar 0 0) (2 * m)) := by
  induction m with
  | zero =>
    show Played (stage (emptyBoard sampleParams) (bar 3 0) (bar 0 0) 0)
    rw [← stage_start]
    exact ReachableWith.start _ _ _ (ReachableWith.init _ _ (fun h => absurd h (by decide)))
      (by decide) (by decide) (by decide)
  | succ m ih =>
    have h0 := ih (by push_cast at hm ⊢; omega)
    have h1 := stage_front _ (2 * m) (by push_cast at hm ⊢; omega) trivial trivial h0
    have h2 := stage_clear _ (2 * m) (by push_cast at hm ⊢; omega) trivial h1
    have h3 := stage_back _ (2 * m + 1) (by push_cast at hm ⊢; omega) trivial trivial h2
    exact h3

/-- The state `overflowEdge` is reached by the driver: 14651 rounds and five more
calls. -/
theorem overflowEdge_played : Played overflowEdge := by
  have h := stage_front _ 29302 (by decide) trivial trivial (stage_rounds 14651 (by decide))
  have e : stage rowTwoBars (square 8 18) (bar 0 0) 29302 = overflowEdge := by
    unfold stage overflowEdge
    rw [loopScore_before]
    decide
  rw [← e]
  exact h

/-- The state `overflowed` is reached by the driver: one call of `gameStep` after
`overflowEdge`. -/
theorem overflowed_played : Played overflowed := by
  have h := stage_clear _ 29302 (by decide) trivial
    (stage_front _ 29302 (by decide) trivial trivial (stage_rounds 14651 (by decide)))
  have e : stage rowSquare (bar 3 0) (bar 0 0) 29303 = overflowed := by
    unfold stage overflowed
    rw [loopScore_after]
    decide
  rw [← e]
  exact h

/-- The sample engine after the first row has been cleared is reached by calls
none of whose landings overflows: `start()` and six calls. -/
theorem firstClear_reachable :
    ReachableWith sampleParams (InBounds sampleParams) ValidKind (NoOverflow sampleParams)
      (stage rowSquare (bar 3 0) (bar 0 0) 1) := by
  have h0 : ReachableWith sampleParams (InBounds sampleParams) ValidKind
      (NoOverflow sampleParams) (stage (emptyBoard sampleParams) (bar 3 0) (bar 0 0) 0) := by
    rw [← stage_start]
    exact ReachableWith.start _ _ _ (ReachableWith.init _ _ (fun h => absurd h (by decide)))
      (by decide) (by decide) (by decide)
  exact stage_clear _ 0 (by decide) (by decide)
    (stage_front _ 0 (by decide) (by decide) (by decide) h0)

/-! ### Reachable states under assumptions -/

/-- A state reached under assumptions is a reachable state. -/
theorem reachableWith_reachable (c : Params) (spawnOk : Shape → Prop)
    (kindOk : ShapeType → Prop) (landOk : TetrisCore → Prop) (s : TetrisCore)
    (h : ReachableWith c spawnOk kindOk landOk s) : Reachable c spawnOk s := by
  induction h with
  | init cur next hcur => exact Reachable.init cur next hcur
  | start s k1 k2 _ _ _ hspawn ih => exact Reachable.start s k1 k2 ih hspawn
  | stop s _ ih => exact Reachable.stop s ih
  | pause s _ ih => exact Reachable.pause s ih
  | moveShape s x y r _ ih => exact Reachable.moveShape s x y r ih
  | gameStep s s1 kind _ _ _ hstep ih => exact Reachable.gameStep s s1 kind ih hstep
  | fastForward s s1 kind _ _ _ hstep ih => exact Reachable.fastForward s s1 kind ih hstep

/-- Induction over the states reached under assumptions, with `gameStep` and
`fastForward` taken apart into moves and landings. -/
theorem reachableWith_induction_steps (c : Params) (spawnOk : Shape → Prop)
    (kindOk : ShapeType → Prop) (landOk : TetrisCore → Prop) (P : TetrisCore → Prop)
    (hinit : ∀ cur next : Shape, (cur.isValid = true → spawnOk cur) →
      P (TetrisCore.init c cur next))
    (hstart : ∀ (s : TetrisCore) (k1 k2 : ShapeType),
      ReachableWith c spawnOk kindOk landOk s → P s → kindOk k1 → kindOk k2 →
      spawnOk (start c s k1 k2).m_curShape → P (start c s k1 k2))
    (hstop : ∀ s : TetrisCore, ReachableWith c spawnOk kindOk landOk s → P s → P (stop c s))
    (hpause : ∀ s : TetrisCore, ReachableWith c spawnOk kindOk landOk s → P s → P (pause s))
    (hmove : ∀ (s : TetrisCore) (x y r : Int), ReachableWith c spawnOk kindOk landOk s → P s →
      P (moveShape c s x y r).2)
    (hland : ∀ (s s2 : TetrisCore) (kind : ShapeType),
      ReachableWith c spawnOk kindOk landOk s → P s → kindOk kind → landOk s →
      s.m_isStarted = true → s.m_isPause = false → (moveShape c s 0 1 0).1 = false →
      landChanged c s = some s2 → P (afterLanding c s2 kind)) :
    ∀ s : TetrisCore, ReachableWith c spawnOk kindOk landOk s → P s := by
  have hstep : ∀ (s s1 : TetrisCore) (kind : ShapeType),
      ReachableWith c spawnOk kindOk landOk s → P s → kindOk kind →
      (Lands c s → landOk s) → gameStep c s kind = some s1 → P s1 := by
    intro s s1 kind hr hP hkind hok h
    rcases gameStep_cases c s s1 kind h with h1 | ⟨_, h1⟩ | ⟨hs, hp, hm, s2, hl, h1⟩
    · rw [h1]
      exact hP
    · rw [h1]
      exact hmove s 0 1 0 hr hP
    · rw [h1]
      exact hland s s2 kind hr hP hkind (hok ⟨hs, hp, hm⟩) hs hp hm hl
  intro s hr
  induction hr with
  | init cur next hcur => exact hinit cur next hcur
  | start s k1 k2 hs hk1 hk2 hspawn ih => exact hstart s k1 k2 hs ih hk1 hk2 hspawn
  | stop s hs ih => exact hstop s hs ih
  | pause s hs ih => exact hpause s hs ih
  | moveShape s x y r hs ih => exact hmove s x y r hs ih
  | gameStep s s1 kind hs hkind hok h ih => exact hstep s s1 kind hs ih hkind hok h
  | fastForward s s1 kind hs hkind hok h ih =>
    rcases fastForward_cases c s s1 kind h with h1 | h1
    · rw [h1]
      exact ih
    · exact hstep _ s1 kind (ReachableWith.moveShape s 0 1 0 hs) (hmove s 0 1 0 hs ih) hkind
        hok h1

/-! ### The counters of the reachable states -/

/-- The counters of every state reached without an overflowing landing: none is
negative, and a started engine has the level that belongs to its cleared
lines. -/
theorem reachableWith_counters_inv (c : Params) (spawnOk : Shape → Prop)
    (kindOk : ShapeType → Prop) (s : TetrisCore)
    (h : ReachableWith c spawnOk kindOk (NoOverflow c) s) :
    0 ≤ s.m_score ∧ 0 ≤ s.m_destroedLines ∧ 0 ≤ s.m_level ∧
    (s.m_isStarted = true → s.m_level = Int.tdiv s.m_destroedLines 10 + 1) := by
  refine reachableWith_induction_steps c spawnOk kindOk (NoOverflow c)
    (fun s => 0 ≤ s.m_score ∧ 0 ≤ s.m_destroedLines ∧ 0 ≤ s.m_level ∧
      (s.m_isStarted = true → s.m_level = Int.tdiv s.m_destroedLines 10 + 1))
    ?_ ?_ ?_ ?_ ?_ ?_ s h
  · intro cur next _
    exact ⟨le_refl _, le_refl _, le_refl _, fun h => absurd h (by simp [TetrisCore.init])⟩
  · intro s k1 k2 hr hP _ _ _
    rcases Bool.eq_false_or_eq_true s.m_isStarted with hst | hst
    · rw [start_of_started c s k1 k2 hst]
      exact hP
    · obtain ⟨_, h2, h3, h4, _⟩ :=
        start_of_not_started c s k1 k2 hst
          (reachable_wellFormed c spawnOk s (reachableWith_reachable c spawnOk kindOk _ s hr))
      simp only [h2, h3, h4]
      exact ⟨le_refl _, le_refl _, by decide, fun _ => by decide⟩
  · intro s _ _
    exact ⟨le_refl _, le_refl _, le_refl _, fun h => absurd h (by simp [stop])⟩
  · intro s _ hP
    obtain ⟨_, _, h3, _, h5, h6, h7⟩ := pause_frame s
    simp only [h3, h5, h6, h7]
    exact hP
  · intro s x y r _ hP
    obtain ⟨cur1, h1⟩ := moveShape_state c s x y r
    simp only [h1]
    exact hP
  · intro s s2 kind hr hP _ hok _ _ _ hland
    have hs2 := landChanged_some_eq c s s2
      (reachable_wellFormed c spawnOk s (reachableWith_reachable c spawnOk kindOk _ s hr)) hland
    obtain ⟨_, h2, h3, h4, _⟩ := afterLanding_frame c s2 kind
    obtain ⟨hsc, hln, _, _⟩ := hP
    obtain ⟨hol, hos⟩ := hok
    have e1 := landedLines_of_inRange _ _ hol
    have e2 := landedLevel_of_inRange _ _ hol
    have e3 := landedScore_of_inRange _ _ _ hol hos
    simp only [h2, h3, h4]
    rw [hs2]
    simp only [e1, e2, e3]
    have hk : (0 : Int) ≤
        (fullCount (touchedRows c s.m_curShape) 0 (overlay c s.m_board s.m_curShape) : Nat) :=
      Int.ofNat_nonneg _
    have hdiv := Int.tdiv_nonneg (Int.add_nonneg hln hk) (by decide : (0 : Int) ≤ 10)
    have hlev : (0 : Int) ≤ Int.tdiv (s.m_destroedLines
        + fullCount (touchedRows c s.m_curShape) 0 (overlay c s.m_board s.m_curShape)) 10 + 1 := by
      omega
    exact ⟨Int.add_nonneg hsc (Int.mul_nonneg (scoreTable_nonneg _) hlev),
      Int.add_nonneg hln hk, hlev, fun _ => trivial⟩

/-- Claim C17 as stated fails, because the counters are of type `int`.  The sample
engine reaches the state `overflowed` by `start()` and calls of `moveShape` and
`gameStep`, the random source drawing bars and squares only and every piece
staying within bounds: 29303 rows cleared one at a time are worth 2147543650,
more than the 2147483647 an `int` holds, and the score stored is negative. -/
theorem reachable_counters_counterexample :
    Reachable sampleParams (InBounds sampleParams) overflowed ∧
    ReachableWith sampleParams (InBounds sampleParams) ValidKind (fun _ => True) overflowed ∧
    overflowed.m_isStarted = true ∧ overflowed.m_destroedLines = 29303 ∧
    overflowed.m_score = wrapInt (loopScore 29303) ∧
    overflowed.m_score = -2147423646 ∧ ¬ 0 ≤ overflowed.m_score :=
  ⟨reachableWith_reachable _ _ _ _ _ overflowed_played, overflowed_played, rfl, rfl,
    by rw [loopScore_after]; decide, rfl, by decide⟩

/-- Claim C17, amended.  In every state reachable from the constructed engine by
any sequence of `start`, `stop`, `pause`, `moveShape`, `gameStep` and
`fastForward` calls in which no landing overflows an `int` counter (whatever is
assumed of the piece `start()` spawns, in particular that it is within bounds,
and of the kinds drawn): the score, `linesCleared` and the level are not
negative, level 0 implies `started = false`, and whenever `started = true` the
level equals `linesCleared / 10 + 1` by integer division. -/
theorem reachable_counters (c : Params) (spawnOk : Shape → Prop) (kindOk : ShapeType → Prop)
    (s : TetrisCore) (hreach : ReachableWith c spawnOk kindOk (NoOverflow c) s) :
    0 ≤ s.m_score ∧ 0 ≤ s.m_destroedLines ∧ 0 ≤ s.m_level ∧
    (s.m_level = 0 → s.m_isStarted = false) ∧
    (s.m_isStarted = true → s.m_level = Int.tdiv s.m_destroedLines 10 + 1) := by
  obtain ⟨h1, h2, h3, h4⟩ := reachableWith_counters_inv c spawnOk kindOk s hreach
  refine ⟨h1, h2, h3, fun h0 => ?_, h4⟩
  rcases Bool.eq_false_or_eq_true s.m_isStarted with hst | hst
  · have hl := h4 hst
    have hdiv := Int.tdiv_nonneg h2 (by decide : (0 : Int) ≤ 10)
    omega
  · exact hst

/-- An instance of the amended claim C17 with counters that have changed: the
sample engine after two bars and a square have landed and the first row has been
cleared holds the score 50, one cleared line and level 1. -/
theorem reachable_counters_witness :
    (stage rowSquare (bar 3 0) (bar 0 0) 1).m_score = 50 ∧
    (stage rowSquare (bar 3 0) (bar 0 0) 1).m_destroedLines = 1 ∧
    (stage rowSquare (bar 3 0) (bar 0 0) 1).m_isStarted = true ∧
    (0 ≤ (stage rowSquare (bar 3 0) (bar 0 0) 1).m_score ∧
      0 ≤ (stage rowSquare (bar 3 0) (bar 0 0) 1).m_destroedLines ∧
      0 ≤ (stage rowSquare (bar 3 0) (bar 0 0) 1).m_level ∧
      ((stage rowSquare (bar 3 0) (bar 0 0) 1).m_level = 0 →
        (stage rowSquare (bar 3 0) (bar 0 0) 1).m_isStarted = false) ∧
      ((stage rowSquare (bar 3 0) (bar 0 0) 1).m_isStarted = true →
        (stage rowSquare (bar 3 0) (bar 0 0) 1).m_level
          = Int.tdiv (stage rowSquare (bar 3 0) (bar 0 0) 1).m_destroedLines 10 + 1)) :=
  ⟨by decide, by decide, by decide,
    reachable_counters sampleParams (InBounds sampleParams) ValidKind _ firstClear_reachable⟩

/-- Claim C4 as stated fails, because the counters are of type `int`.  At
`overflowEdge`, a state the sample engine reaches, the square is valid and within
bounds and its landing clears exactly one row; `linesCleared` becomes 29303 and
the level 2931, but the score becomes -2147423646, not the old score plus 50
times the level. -/
theorem landChanged_counters_counterexample :
    Reachable sampleParams (InBounds sampleParams) overflowEdge ∧
    WellFormed sampleParams overflowEdge.m_board ∧
    overflowEdge.m_curShape.isValid = true ∧ InBounds sampleParams overflowEdge.m_curShape ∧
    fullCount (touchedRows sampleParams overflowEdge.m_curShape) 0
      (overlay sampleParams overflowEdge.m_board overflowEdge.m_curShape) = 1 ∧
    (landChanged sampleParams overflowEdge).map
      (fun s' => (s'.m_destroedLines, s'.m_level, s'.m_score))
      = some (29303, 2931, -2147423646) ∧
    (landChanged sampleParams overflowEdge).map (fun s' => s'.m_score)
      ≠ (landChanged sampleParams overflowEdge).map
        (fun s' => overflowEdge.m_score + scoreTable 1 * s'.m_level) :=
  ⟨reachableWith_reachable _ _ _ _ _ overflowEdge_played, by decide, by decide, by decide,
    by decide, by decide, by decide⟩

/-- Claim C5 as stated fails twice.  At `landingEngineNine` (nine rows cleared so
far, level 1) the landing completes exactly row 19 and takes `linesCleared` from
9 to 10; the score grows by 100, which is the table entry 50 times the
recomputed level 2, not 50 times the level 1 held when the piece landed.  And at
`overflowEdge`, a state the sample engine reaches, the landing completes exactly
row 19 at level 2931 and the score falls by 4294820746, because the counters are
of type `int`. -/
theorem landChanged_old_level_counterexample :
    (landingEngineNine.m_level = 1 ∧ landingEngineNine.m_destroedLines = 9 ∧
      fullRows (touchedRows sampleParams landingEngineNine.m_curShape)
        (overlay sampleParams landingEngineNine.m_board landingEngineNine.m_curShape) = [19] ∧
      (landChanged sampleParams landingEngineNine).map (fun s' => s'.m_destroedLines)
        = some 10 ∧
      (landChanged sampleParams landingEngineNine).map
        (fun s' => s'.m_score - landingEngineNine.m_score) = some 100 ∧
      (landChanged sampleParams landingEngineNine).map
        (fun s' => s'.m_score - landingEngineNine.m_score)
        ≠ some (scoreTable 1 * landingEngineNine.m_level)) ∧
    (Reachable sampleParams (InBounds sampleParams) overflowEdge ∧
      overflowEdge.m_level = 2931 ∧
      fullRows (touchedRows sampleParams overflowEdge.m_curShape)
        (overlay sampleParams overflowEdge.m_board overflowEdge.m_curShape) = [19] ∧
      (landChanged sampleParams overflowEdge).map (fun s' => s'.m_level) = some 2931 ∧
      (landChanged sampleParams overflowEdge).map
        (fun s' => s'.m_score - overflowEdge.m_score) = some (-4294820746) ∧
      (landChanged sampleParams overflowEdge).map
        (fun s' => s'.m_score - overflowEdge.m_score)
        ≠ some (scoreTable 1 * overflowEdge.m_level)) :=
  ⟨by decide,
    reachableWith_reachable _ _ _ _ _ overflowEdge_played, by decide, by decide, by decide,
    by decide, by decide⟩

/-! ### The gravity tick in the reachable states -/

/-- When the random source draws kinds of the kind set, a started engine has a
valid current piece and a valid next piece. -/
theorem reachableWith_valid_pieces (c : Params) (spawnOk : Shape → Prop)
    (landOk : TetrisCore → Prop) (s : TetrisCore)
    (h : ReachableWith c spawnOk ValidKind landOk s) :
    s.m_isStarted = true → s.m_curShape.isValid = true ∧ s.m_nextShape.isValid = true := by
  refine reachableWith_induction_steps c spawnOk ValidKind landOk
    (fun s => s.m_isStarted = true →
      s.m_curShape.isValid = true ∧ s.m_nextShape.isValid = true) ?_ ?_ ?_ ?_ ?_ ?_ s h
  · intro cur next _ hst
    exact absurd hst (by simp [TetrisCore.init])
  · intro s k1 k2 _ hP hk1 hk2 _
    rcases Bool.eq_false_or_eq_true s.m_isStarted with hst | hst
    · rw [start_of_started c s k1 k2 hst]
      exact hP
    · intro _
      unfold ValidKind at hk1 hk2
      simp [start, hst, Shape.isValid, Shape.setRandomShape, Shape.setShapePos, hk1, hk2]
  · intro s _ _ hst
    exact absurd hst (by simp [stop])
  · intro s _ hP
    unfold pause
    split
    · exact hP
    · exact hP
  · intro s x y r _ hP
    rcases Bool.eq_false_or_eq_true (moveShape c s x y r).1 with hm | hm
    · obtain ⟨hst, hp, hv, hl⟩ := moveShape_success_conds c s x y r hm
      rw [moveShape_of_legal c s x y r hst hp hv hl]
      intro _
      exact ⟨hv, (hP hst).2⟩
    · rw [moveShape_fail_eq c s x y r hm]
      exact hP
  · intro s s2 kind hr hP hkind _ hst _ _ hland
    have hs2 := landChanged_some_eq c s s2
      (reachable_wellFormed c spawnOk s (reachableWith_reachable c spawnOk _ _ s hr)) hland
    have hnext : s2.m_nextShape = s.m_nextShape := by rw [hs2]
    have hv := (hP hst).2
    unfold ValidKind at hkind
    unfold afterLanding
    split
    · intro _
      rw [hnext]
      refine ⟨hv, ?_⟩
      simp [Shape.isValid, Shape.setRandomShape, hkind]
    · intro h1
      exact absurd h1 (by simp)

/-- Claim C8.  If the engine is not started or is paused, `gameStep` leaves the
whole state unchanged.  In every state the engine reaches from construction by
`start`, `stop`, `pause`, `moveShape`, `gameStep` and `fastForward` calls, the
random source drawing kinds of the kind set (whatever is assumed of the spawned
piece and of the landings): if the engine is started, not paused, and the
current piece is at a legal position when offset by `(0, +1)`, `gameStep` moves
the anchor of the current piece down by exactly one row and changes nothing
else.  The same holds in any state whose current piece is valid. -/
theorem gameStep_falls (c : Params) (s : TetrisCore) (kind : ShapeType) :
    ((s.m_isStarted = false ∨ s.m_isPause = true) → gameStep c s kind = some s) ∧
    (∀ (spawnOk : Shape → Prop) (landOk : TetrisCore → Prop),
      ReachableWith c spawnOk ValidKind landOk s →
      s.m_isStarted = true → s.m_isPause = false →
      isValidPosition c s.m_board s.m_curShape 0 1 = true →
      gameStep c s kind =
        some { s with
          m_curShape := { s.m_curShape with
            m_pos := ⟨s.m_curShape.x, s.m_curShape.y + 1⟩ } }) ∧
    (s.m_isStarted = true → s.m_isPause = false → s.m_curShape.isValid = true →
      isValidPosition c s.m_board s.m_curShape 0 1 = true →
      gameStep c s kind =
        some { s with
          m_curShape := { s.m_curShape with
            m_pos := ⟨s.m_curShape.x, s.m_curShape.y + 1⟩ } }) :=
  ⟨gameStep_of_not_running c s kind,
    fun spawnOk landOk hr hs hp hl =>
      gameStep_of_legal c s kind hs hp
        (reachableWith_valid_pieces c spawnOk landOk s hr hs).1 hl,
    gameStep_of_legal c s kind⟩

/-- Two instances of claim C8: the bar of the sample engine after `start()`, a
state the engine reaches, falls from row 0 to row 1; and the paused engine stays
as it is. -/
theorem gameStep_falls_witness :
    ReachableWith sampleParams (InBounds sampleParams) ValidKind (fun _ => True)
      (stage (emptyBoard sampleParams) (bar 3 0) (bar 0 0) 0) ∧
    gameStep sampleParams (stage (emptyBoard sampleParams) (bar 3 0) (bar 0 0) 0)
        (ShapeType.piece 1) =
      some (stage (emptyBoard sampleParams) (bar 3 1) (bar 0 0) 0) ∧
    gameStep sampleParams (pause (stage (emptyBoard sampleParams) (bar 3 0) (bar 0 0) 0))
        (ShapeType.piece 1) =
      some (pause (stage (emptyBoard sampleParams) (bar 3 0) (bar 0 0) 0)) :=
  ⟨stage_rounds 0 (by decide),
    (gameStep_falls sampleParams (stage (emptyBoard sampleParams) (bar 3 0) (bar 0 0) 0)
      (ShapeType.piece 1)).2.1 _ _ (stage_rounds 0 (by decide))
      (by decide) (by decide) (by decide),
    (gameStep_falls sampleParams (pause (stage (emptyBoard sampleParams) (bar 3 0) (bar 0 0) 0))
      (ShapeType.piece 1)).1 (Or.inr (by decide))⟩

/-- When `start()` spawns its piece within bounds, the current piece of a started
engine lies inside the grid, whatever its kind. -/
theorem reachable_started_inBounds (c : Params) (s : TetrisCore)
    (h : Reachable c (InBounds c) s) :
    s.m_isStarted = true → InBounds c s.m_curShape := by
  refine reachable_induction_steps c (InBounds c)
    (fun s => s.m_isStarted = true → InBounds c s.m_curShape) ?_ ?_ ?_ ?_ ?_ ?_ s h
  · intro cur next _ hst
    exact absurd hst (by simp [TetrisCore.init])
  · intro s k1 k2 _ hP hspawn
    rcases Bool.eq_false_or_eq_true s.m_isStarted with hst | hst
    · rw [start_of_started c s k1 k2 hst]
      exact hP
    · exact fun _ => hspawn
  · intro s _ _ hst
    exact absurd hst (by simp [stop])
  · intro s _ hP
    obtain ⟨_, h2, h3, _⟩ := pause_frame s
    rw [h2, h3]
    exact hP
  · intro s x y r _ hP
    rcases Bool.eq_false_or_eq_true (moveShape c s x y r).1 with hm | hm
    · obtain ⟨hst, hp, hv, hl⟩ := moveShape_success_conds c s x y r hm
      rw [moveShape_of_legal c s x y r hst hp hv hl]
      have hnew : isValidPosition c s.m_board
          { m_type := s.m_curShape.m_type
            m_rotate := (s.m_curShape.rotate r).m_rotate
            m_pos := ⟨s.m_curShape.x + x, s.m_curShape.y + y⟩ } 0 0 = true :=
        isValidPosition_moved c s.m_board (s.m_curShape.rotate r) _ x y rfl rfl rfl hl
      exact fun _ => inBounds_of_isValidPosition c s.m_board _ hnew
    · rw [moveShape_fail_eq c s x y r hm]
      exact hP
  · intro s s2 kind _ _ _ _ _ _
    obtain ⟨_, _, _, _, _, hflags⟩ := afterLanding_frame c s2 kind
    rcases hflags with ⟨_, _, hvalid⟩ | ⟨hst, _, _⟩
    · exact fun _ => inBounds_of_isValidPosition c s2.m_board _ hvalid
    · intro h1
      rw [hst] at h1
      exact absurd h1 (by simp)

/-- Claim C9.  In every state the engine reaches from construction by `start`,
`stop`, `pause`, `moveShape`, `gameStep` and `fastForward` calls (`start()`
spawning its piece within bounds), if the engine is started and not paused and
the current piece cannot move down: `gameStep` lands the piece (`landChanged`
returns some `s1`, with the next piece untouched), then re-positions the next
piece at `x = (BoardWidth - getShapeWidth(next)) / 2 - next.x` with its `y`
unchanged.  If that position is illegal at zero offset on the board of `s1`, the
engine ends with `started = false` and `gameOver = true` and no failure is
raised; otherwise the re-positioned next piece becomes the current piece, a
fresh next piece of the drawn kind is set, and `started` stays true with
`gameOver` false. -/
theorem gameStep_lands (c : Params) (s : TetrisCore) (kind : ShapeType)
    (hreach : Reachable c (InBounds c) s)
    (hs : s.m_isStarted = true) (hp : s.m_isPause = false)
    (hstuck : (moveShape c s 0 1 0).1 = false) :
    ∃ s1 : TetrisCore, landChanged c s = some s1 ∧ s1.m_nextShape = s.m_nextShape ∧
      (isValidPosition c s1.m_board
          { s.m_nextShape with
            m_pos := ⟨Int.tdiv ((c.BoardWidth : Int) - getShapeWidth c s.m_nextShape) 2
              - s.m_nextShape.x, s.m_nextShape.y⟩ } 0 0 = false →
        gameStep c s kind = some { s1 with
          m_nextShape := { s.m_nextShape with
            m_pos := ⟨Int.tdiv ((c.BoardWidth : Int) - getShapeWidth c s.m_nextShape) 2
              - s.m_nextShape.x, s.m_nextShape.y⟩ }
          m_isStarted := false
          m_isGameOver := true }) ∧
      (isValidPosition c s1.m_board
          { s.m_nextShape with
            m_pos := ⟨Int.tdiv ((c.BoardWidth : Int) - getShapeWidth c s.m_nextShape) 2
              - s.m_nextShape.x, s.m_nextShape.y⟩ } 0 0 = true →
        gameStep c s kind = some { s1 with
          m_curShape := { s.m_nextShape with
            m_pos := ⟨Int.tdiv ((c.BoardWidth : Int) - getShapeWidth c s.m_nextShape) 2
              - s.m_nextShape.x, s.m_nextShape.y⟩ }
          m_nextShape := Shape.setRandomShape c { s.m_nextShape with
            m_pos := ⟨Int.tdiv ((c.BoardWidth : Int) - getShapeWidth c s.m_nextShape) 2
              - s.m_nextShape.x, s.m_nextShape.y⟩ } kind
          m_isStarted := true
          m_isGameOver := false }) := by
  have hgo : s.m_isGameOver = false := by
    rcases Bool.eq_false_or_eq_true s.m_isGameOver with h | h
    · have := reachable_gameOver_not_started c (InBounds c) s hreach h
      rw [hs] at this
      exact absurd this (by simp)
    · exact h
  exact gameStep_lands_of_inBounds c s kind (reachable_wellFormed c (InBounds c) s hreach)
    (reachable_started_inBounds c s hreach hs) hs hp hgo hstuck

/-- The sample engine after `start()` and a move of the bar to the floor is
reachable. -/
theorem barOnFloor_reachable :
    Reachable sampleParams (InBounds sampleParams)
      (stage (emptyBoard sampleParams) (bar 0 19) (bar 0 0) 0) := by
  have h := Reachable.moveShape _ (-3) 19 0
    (reachableWith_reachable _ _ _ _ _ (stage_rounds 0 (by decide)))
  rw [stage_move (emptyBoard sampleParams) (bar 3 0) (bar 0 19) (bar 0 0) (2 * 0) (-3) 19
    (by decide) (by decide) (by decide)] at h
  exact h

/-- Two instances of claim C9, both at states the engine reaches.  On the sample
board the bar is moved to the floor after `start()`; it lands, the next bar is
centred at column 3 and becomes the current piece.  On the tiny board the first
square lands where it spawned and the second does not fit: the engine ends with
`started = false` and `gameOver = true`. -/
theorem gameStep_lands_witness :
    (∃ s', gameStep sampleParams (stage (emptyBoard sampleParams) (bar 0 19) (bar 0 0) 0)
        (ShapeType.piece 2) = some s' ∧
      s'.m_board = rowBar ∧ s'.m_curShape = bar 3 0 ∧ s'.m_nextShape = square 0 0 ∧
      s'.m_isStarted = true ∧ s'.m_isGameOver = false) ∧
    (∃ s', gameStep tinyParams tinyStarted (ShapeType.piece 2) = some s' ∧
      s'.m_isStarted = false ∧ s'.m_isGameOver = true) := by
  obtain ⟨s1, h1, _, _, hok⟩ := gameStep_lands sampleParams
    (stage (emptyBoard sampleParams) (bar 0 19) (bar 0 0) 0) (ShapeType.piece 2)
    barOnFloor_reachable (by decide) (by decide) (by decide)
  obtain ⟨s2, h2, _, hover, _⟩ := gameStep_lands tinyParams tinyStarted (ShapeType.piece 2)
    (Reachable.start _ _ _ (Reachable.init noPiece noPiece (by decide)) (by decide))
    (by decide) (by decide) (by decide)
  have e1 : landChanged sampleParams (stage (emptyBoard sampleParams) (bar 0 19) (bar 0 0) 0)
      = some s1 := h1
  have e2 : landChanged tinyParams tinyStarted = some s2 := h2
  have i1 : s1 = (landChanged sampleParams
      (stage (emptyBoard sampleParams) (bar 0 19) (bar 0 0) 0)).get (by decide) := by
    simp [e1]
  have i2 : s2 = (landChanged tinyParams tinyStarted).get (by decide) := by
    simp [e2]
  subst i1
  subst i2
  refine ⟨⟨_, hok ?_, ?_, ?_, ?_, rfl, rfl⟩, ⟨_, hover ?_, rfl, rfl⟩⟩
  · decide
  · decide
  · decide
  · decide
  · decide

end tetris.core
